import Mathlib

/-!
# Kobe math library (TitanForceEngine): embedding and verified properties

The embedding follows `Engine/Kobe/Math.cpp`.

* `float` is read as an exact number: every definition is generic over a linearly ordered
  field `F`, so it evaluates over `ℚ` and is reasoned about over `ℝ`.
* Where the rounding of `float` decides a property, the binary32 reading is given next to the
  exact one (`Binary32.roundNearestEven`, `MatrixToQuaternionTBinary32`): a finite binary32
  number is the integer that counts its multiples of `2 ^ (-149)`.
* `pow (x, 2.0f)` is `x ^ 2`, `fabs` is the absolute value.
* The `<cmath>` functions (`sqrt`, `sin`, `cos`, `tan`, `acos`, `asin`, `atan2`) and the
  constants of `Math.h` (`VERY_SMALL`, `PI`, `DEGREES_TO_RADIANS`, `RADIANS_TO_DEGREES`) are
  arguments of the functions that use them; the theorems instantiate them with the functions
  of `Real` (`atan2 y x` with the argument of the complex number `x + y i`), `Real.pi`,
  `Real.pi / 180` and `180 / Real.pi`, and keep `VERY_SMALL` general.
* The guards written under `#ifdef _DEBUG` are compiled in: a `throw errorMsg` is the
  `Except.error` result carrying the same message.
-/

namespace Kobe

/-- Matrix4 of `Matrix4.h`: sixteen numbers addressed by one linear index `0 .. 15`. -/
@[ext] structure Matrix4 (F : Type) where
  m0 : F
  m1 : F
  m2 : F
  m3 : F
  m4 : F
  m5 : F
  m6 : F
  m7 : F
  m8 : F
  m9 : F
  m10 : F
  m11 : F
  m12 : F
  m13 : F
  m14 : F
  m15 : F
deriving DecidableEq, Repr

namespace Matrix4

variable {F : Type}

/-- Element access `m[i]`. -/
def get (m : Matrix4 F) (i : Fin 16) : F :=
  ![m.m0, m.m1, m.m2, m.m3, m.m4, m.m5, m.m6, m.m7,
    m.m8, m.m9, m.m10, m.m11, m.m12, m.m13, m.m14, m.m15] i

/-- Modelled from the spec: the default constructor of `Matrix4` (in `Matrix4.h`, not among the
sources) yields the identity matrix. -/
def identity [Zero F] [One F] : Matrix4 F :=
  ⟨1, 0, 0, 0, 0, 1, 0, 0, 0, 0, 1, 0, 0, 0, 0, 1⟩

/-- Modelled from the spec: `operator*` of `Matrix4.h` (not among the sources), the 4x4 product
on the column-major layout, where element `i + 4 * j` is row `i`, column `j`. -/
def mul [Add F] [Mul F] (a b : Matrix4 F) : Matrix4 F :=
  ⟨a.m0 * b.m0 + a.m4 * b.m1 + a.m8 * b.m2 + a.m12 * b.m3,
   a.m1 * b.m0 + a.m5 * b.m1 + a.m9 * b.m2 + a.m13 * b.m3,
   a.m2 * b.m0 + a.m6 * b.m1 + a.m10 * b.m2 + a.m14 * b.m3,
   a.m3 * b.m0 + a.m7 * b.m1 + a.m11 * b.m2 + a.m15 * b.m3,
   a.m0 * b.m4 + a.m4 * b.m5 + a.m8 * b.m6 + a.m12 * b.m7,
   a.m1 * b.m4 + a.m5 * b.m5 + a.m9 * b.m6 + a.m13 * b.m7,
   a.m2 * b.m4 + a.m6 * b.m5 + a.m10 * b.m6 + a.m14 * b.m7,
   a.m3 * b.m4 + a.m7 * b.m5 + a.m11 * b.m6 + a.m15 * b.m7,
   a.m0 * b.m8 + a.m4 * b.m9 + a.m8 * b.m10 + a.m12 * b.m11,
   a.m1 * b.m8 + a.m5 * b.m9 + a.m9 * b.m10 + a.m13 * b.m11,
   a.m2 * b.m8 + a.m6 * b.m9 + a.m10 * b.m10 + a.m14 * b.m11,
   a.m3 * b.m8 + a.m7 * b.m9 + a.m11 * b.m10 + a.m15 * b.m11,
   a.m0 * b.m12 + a.m4 * b.m13 + a.m8 * b.m14 + a.m12 * b.m15,
   a.m1 * b.m12 + a.m5 * b.m13 + a.m9 * b.m14 + a.m13 * b.m15,
   a.m2 * b.m12 + a.m6 * b.m13 + a.m10 * b.m14 + a.m14 * b.m15,
   a.m3 * b.m12 + a.m7 * b.m13 + a.m11 * b.m14 + a.m15 * b.m15⟩

/-- The loop `for i in 0 .. 15: inverseM[i] *= determinate`. -/
def scaleAll [Mul F] (m : Matrix4 F) (s : F) : Matrix4 F :=
  ⟨m.m0 * s, m.m1 * s, m.m2 * s, m.m3 * s, m.m4 * s, m.m5 * s, m.m6 * s, m.m7 * s,
   m.m8 * s, m.m9 * s, m.m10 * s, m.m11 * s, m.m12 * s, m.m13 * s, m.m14 * s, m.m15 * s⟩

/-- The matrix read as a Mathlib matrix: row `i`, column `j` is element `i + 4 * j`. -/
def toMatrix (m : Matrix4 F) : Matrix (Fin 4) (Fin 4) F :=
  !![m.m0, m.m4, m.m8, m.m12;
     m.m1, m.m5, m.m9, m.m13;
     m.m2, m.m6, m.m10, m.m14;
     m.m3, m.m7, m.m11, m.m15]

/-- The sixteen terms `inverseM[0] .. inverseM[15]` of `Math::Inverse (const Matrix4&)` before
the division by the determinant. -/
def cofactors [Ring F] (m : Matrix4 F) : Matrix4 F :=
  ⟨m.m5 * m.m10 * m.m15 - m.m5 * m.m11 * m.m14 - m.m9 * m.m6 * m.m15 + m.m9 * m.m7 * m.m14
     + m.m13 * m.m6 * m.m11 - m.m13 * m.m7 * m.m10,
   -m.m1 * m.m10 * m.m15 + m.m1 * m.m11 * m.m14 + m.m9 * m.m2 * m.m15 - m.m9 * m.m3 * m.m14
     - m.m13 * m.m2 * m.m11 + m.m13 * m.m3 * m.m10,
   m.m1 * m.m6 * m.m15 - m.m1 * m.m7 * m.m14 - m.m5 * m.m2 * m.m15 + m.m5 * m.m3 * m.m14
     + m.m13 * m.m2 * m.m7 - m.m13 * m.m3 * m.m6,
   -m.m1 * m.m6 * m.m11 + m.m1 * m.m7 * m.m10 + m.m5 * m.m2 * m.m11 - m.m5 * m.m3 * m.m10
     - m.m9 * m.m2 * m.m7 + m.m9 * m.m3 * m.m6,
   -m.m4 * m.m10 * m.m15 + m.m4 * m.m11 * m.m14 + m.m8 * m.m6 * m.m15 - m.m8 * m.m7 * m.m14
     - m.m12 * m.m6 * m.m11 + m.m12 * m.m7 * m.m10,
   m.m0 * m.m10 * m.m15 - m.m0 * m.m11 * m.m14 - m.m8 * m.m2 * m.m15 + m.m8 * m.m3 * m.m14
     + m.m12 * m.m2 * m.m11 - m.m12 * m.m3 * m.m10,
   -m.m0 * m.m6 * m.m15 + m.m0 * m.m7 * m.m14 + m.m4 * m.m2 * m.m15 - m.m4 * m.m3 * m.m14
     - m.m12 * m.m2 * m.m7 + m.m12 * m.m3 * m.m6,
   m.m0 * m.m6 * m.m11 - m.m0 * m.m7 * m.m10 - m.m4 * m.m2 * m.m11 + m.m4 * m.m3 * m.m10
     + m.m8 * m.m2 * m.m7 - m.m8 * m.m3 * m.m6,
   m.m4 * m.m9 * m.m15 - m.m4 * m.m11 * m.m13 - m.m8 * m.m5 * m.m15 + m.m8 * m.m7 * m.m13
     + m.m12 * m.m5 * m.m11 - m.m12 * m.m7 * m.m9,
   -m.m0 * m.m9 * m.m15 + m.m0 * m.m11 * m.m13 + m.m8 * m.m1 * m.m15 - m.m8 * m.m3 * m.m13
     - m.m12 * m.m1 * m.m11 + m.m12 * m.m3 * m.m9,
   m.m0 * m.m5 * m.m15 - m.m0 * m.m7 * m.m13 - m.m4 * m.m1 * m.m15 + m.m4 * m.m3 * m.m13
     + m.m12 * m.m1 * m.m7 - m.m12 * m.m3 * m.m5,
   -m.m0 * m.m5 * m.m11 + m.m0 * m.m7 * m.m9 + m.m4 * m.m1 * m.m11 - m.m4 * m.m3 * m.m9
     - m.m8 * m.m1 * m.m7 + m.m8 * m.m3 * m.m5,
   -m.m4 * m.m9 * m.m14 + m.m4 * m.m10 * m.m13 + m.m8 * m.m5 * m.m14 - m.m8 * m.m6 * m.m13
     - m.m12 * m.m5 * m.m10 + m.m12 * m.m6 * m.m9,
   m.m0 * m.m9 * m.m14 - m.m0 * m.m10 * m.m13 - m.m8 * m.m1 * m.m14 + m.m8 * m.m2 * m.m13
     + m.m12 * m.m1 * m.m10 - m.m12 * m.m2 * m.m9,
   -m.m0 * m.m5 * m.m14 + m.m0 * m.m6 * m.m13 + m.m4 * m.m1 * m.m14 - m.m4 * m.m2 * m.m13
     - m.m12 * m.m1 * m.m6 + m.m12 * m.m2 * m.m5,
   m.m0 * m.m5 * m.m10 - m.m0 * m.m6 * m.m9 - m.m4 * m.m1 * m.m10 + m.m4 * m.m2 * m.m9
     + m.m8 * m.m1 * m.m6 - m.m8 * m.m2 * m.m5⟩

/-- The value `determinate` of `Math::Inverse (const Matrix4&)` before it is inverted:
`m[0] * inverseM[0] + m[1] * inverseM[4] + m[2] * inverseM[8] + m[3] * inverseM[12]`. -/
def determinate [Ring F] (m : Matrix4 F) : F :=
  m.m0 * (cofactors m).m0 + m.m1 * (cofactors m).m4 + m.m2 * (cofactors m).m8
    + m.m3 * (cofactors m).m12

/-- Function `Math::Inverse (const Matrix4&)`. -/
def Inverse [LinearOrderedField F] (VERY_SMALL : F) (m : Matrix4 F) :
    Except String (Matrix4 F) :=
  let inverseM := cofactors m
  let determinate := determinate m
  if |determinate| < VERY_SMALL then
    Except.error "Divide by nearly zero in Math::inverse!"
  else
    let determinate := 1 / determinate
    Except.ok (scaleAll inverseM determinate)

end Matrix4

/-- Vector3 of `Vector.h`: the components `x`, `y`, `z`. -/
@[ext] structure Vector3 (F : Type) where
  x : F
  y : F
  z : F
deriving DecidableEq, Repr

/-- Vector4 of `Vector.h`: the components `x`, `y`, `z`, `w`. -/
@[ext] structure Vector4 (F : Type) where
  x : F
  y : F
  z : F
  w : F
deriving DecidableEq, Repr

/-- Quaternion of `Quaternion.h`: the components `x`, `y`, `z` and the scalar part `w`. -/
@[ext] structure Quaternion (F : Type) where
  x : F
  y : F
  z : F
  w : F
deriving DecidableEq, Repr

/-- The selector `AngleUnitOfMeasurement` of the angle-returning functions. -/
inductive AngleUnitOfMeasurement where
  | Radians
  | Degrees
deriving DecidableEq, Repr

/-- The message thrown by the guards of the vector functions. -/
def divNearlyZero : String := "Error! Dividing nearly by zero!"

namespace Vector3

variable {F : Type}

/-- Modelled from the spec: `operator+` of `Vector3` (in `Vector.h`, not among the sources),
componentwise. -/
def add [Add F] (a b : Vector3 F) : Vector3 F := ⟨a.x + b.x, a.y + b.y, a.z + b.z⟩

/-- Modelled from the spec: `operator-` of `Vector3` (in `Vector.h`, not among the sources),
componentwise. -/
def sub [Sub F] (a b : Vector3 F) : Vector3 F := ⟨a.x - b.x, a.y - b.y, a.z - b.z⟩

/-- Modelled from the spec: the product of a `Vector3` and a scalar (`v * s` and `s * v` of
`Vector.h`, not among the sources), componentwise. -/
def smul [Mul F] (s : F) (a : Vector3 F) : Vector3 F := ⟨s * a.x, s * a.y, s * a.z⟩

/-- Modelled from the spec: `Vector3::magnitude` (in `Vector.h`, not among the sources) is the
Euclidean norm. -/
def magnitude [Ring F] (sqrt : F → F) (v : Vector3 F) : F :=
  sqrt (v.x ^ 2 + v.y ^ 2 + v.z ^ 2)

/-- Function `Math::normalize (const Vector3&)`. -/
def normalize [LinearOrderedField F] (sqrt : F → F) (VERY_SMALL : F) (v : Vector3 F) :
    Except String (Vector3 F) :=
  let a := sqrt (v.x ^ 2 + v.y ^ 2 + v.z ^ 2)
  if |a| < VERY_SMALL then
    Except.error divNearlyZero
  else
    Except.ok ⟨v.x / a, v.y / a, v.z / a⟩

/-- Function `Math::Dot (const Vector3&, const Vector3&)`. -/
def Dot [Add F] [Mul F] (v1 v2 : Vector3 F) : F :=
  v1.x * v2.x + v1.y * v2.y + v1.z * v2.z

/-- Function `Math::Angle (const Vector3&, const Vector3&, const AngleUnitOfMeasurement&)`. -/
def Angle [Field F] (sqrt acos : F → F) (RADIANS_TO_DEGREES : F) (v1 v2 : Vector3 F)
    (unit : AngleUnitOfMeasurement) : F :=
  let a := Dot v1 v2
  let b := magnitude sqrt v1 * magnitude sqrt v2
  if unit = AngleUnitOfMeasurement.Radians then
    acos (a / b)
  else
    RADIANS_TO_DEGREES * acos (a / b)

/-- Function `Math::Lerp (const Vector3&, const Vector3&, float)`. -/
def Lerp [Ring F] (v1 v2 : Vector3 F) (t : F) : Vector3 F :=
  add v1 (smul t (sub v2 v1))

/-- Function `Math::Cross`. -/
def Cross [Ring F] (a b : Vector3 F) : Vector3 F :=
  ⟨a.y * b.z - a.z * b.y, -(a.x * b.z - a.z * b.x), a.x * b.y - a.y * b.x⟩

/-- The local `angle` of `Math::SLerp (const Vector3&, ...)` as it stands after the test for
opposite directions: `Angle (n1, n2)` (the unit argument left to its default, radians),
overwritten with `-180.0f * DEGREES_TO_RADIANS` when `n1 == -n2` component by component. -/
def SLerpAngle [LinearOrderedField F] (sqrt acos : F → F)
    (DEGREES_TO_RADIANS RADIANS_TO_DEGREES : F) (n1 n2 : Vector3 F) : F :=
  let angle := Angle sqrt acos RADIANS_TO_DEGREES n1 n2 AngleUnitOfMeasurement.Radians
  if -n1.x = n2.x ∧ -n1.y = n2.y ∧ -n1.z = n2.z then
    -180 * DEGREES_TO_RADIANS
  else
    angle

/-- Function `Math::SLerp (const Vector3&, const Vector3&, float)`. -/
def SLerp [LinearOrderedField F] (sqrt acos sin : F → F)
    (VERY_SMALL DEGREES_TO_RADIANS RADIANS_TO_DEGREES : F)
    (v1 v2 : Vector3 F) (t : F) : Except String (Vector3 F) :=
  let a := sqrt (v1.x ^ 2 + v1.y ^ 2 + v1.z ^ 2)
  if |a| < VERY_SMALL then
    Except.error divNearlyZero
  else
    let n1 : Vector3 F := ⟨v1.x / a, v1.y / a, v1.z / a⟩
    let b := sqrt (v2.x ^ 2 + v2.y ^ 2 + v2.z ^ 2)
    if |b| < VERY_SMALL then
      Except.error divNearlyZero
    else
      let n2 : Vector3 F := ⟨v2.x / b, v2.y / b, v2.z / b⟩
      let angle := SLerpAngle sqrt acos DEGREES_TO_RADIANS RADIANS_TO_DEGREES n1 n2
      if |angle| < VERY_SMALL then
        Except.error divNearlyZero
      else if angle < 10 * DEGREES_TO_RADIANS then
        Except.ok (Lerp v1 v2 t)
      else
        let c := angle * (1 - t)
        let k1 := sin c / sin angle
        let d := angle * t
        let k2 := sin d / sin angle
        Except.ok (add (smul k1 n1) (smul k2 n2))

end Vector3

namespace Matrix4

variable {F : Type}

/-- Modelled from the spec: the product of a `Matrix4` and a homogeneous column vector
(`operator*` of `Matrix4.h` on `Vector4`, not among the sources), on the column-major layout,
where element `i + 4 * j` is row `i`, column `j`. -/
def mulVec [Add F] [Mul F] (m : Matrix4 F) (v : Vector4 F) : Vector4 F :=
  ⟨m.m0 * v.x + m.m4 * v.y + m.m8 * v.z + m.m12 * v.w,
   m.m1 * v.x + m.m5 * v.y + m.m9 * v.z + m.m13 * v.w,
   m.m2 * v.x + m.m6 * v.y + m.m10 * v.z + m.m14 * v.w,
   m.m3 * v.x + m.m7 * v.y + m.m11 * v.z + m.m15 * v.w⟩

/-- Function `Math::LookAt`. -/
def LookAt [LinearOrderedField F] (sqrt : F → F) (VERY_SMALL : F) (eye at_ up : Vector3 F) :
    Except String (Matrix4 F) :=
  match Vector3.normalize sqrt VERY_SMALL (Vector3.sub at_ eye) with
  | Except.error e => Except.error e
  | Except.ok forward =>
    match Vector3.normalize sqrt VERY_SMALL up with
    | Except.error e => Except.error e
    | Except.ok up1 =>
      match Vector3.normalize sqrt VERY_SMALL (Vector3.Cross forward up1) with
      | Except.error e => Except.error e
      | Except.ok side =>
        let up2 := Vector3.Cross side forward
        Except.ok
          ⟨side.x, side.y, side.z, 0,
           up2.x, up2.y, up2.z, 0,
           -forward.x, -forward.y, -forward.z, 0,
           -Vector3.Dot side eye, -Vector3.Dot up2 eye, Vector3.Dot forward eye, 1⟩

end Matrix4

namespace Quaternion

variable {F : Type}

/-- Modelled from the spec: `operator*` of `Quaternion` (in `Quaternion.h`, not among the
sources) is the Hamilton product, `w` being the scalar part. -/
def mul [Ring F] (p q : Quaternion F) : Quaternion F :=
  ⟨p.w * q.x + p.x * q.w + p.y * q.z - p.z * q.y,
   p.w * q.y - p.x * q.z + p.y * q.w + p.z * q.x,
   p.w * q.z + p.x * q.y - p.y * q.x + p.z * q.w,
   p.w * q.w - p.x * q.x - p.y * q.y - p.z * q.z⟩

/-- Modelled from the spec: the product of a `Quaternion` and a scalar (`q * s`, `s * q` and
`q *= s` of `Quaternion.h`, not among the sources), componentwise. -/
def smul [Mul F] (s : F) (q : Quaternion F) : Quaternion F :=
  ⟨s * q.x, s * q.y, s * q.z, s * q.w⟩

/-- Modelled from the spec: `operator+` of `Quaternion` (in `Quaternion.h`, not among the
sources), componentwise. -/
def add [Add F] (p q : Quaternion F) : Quaternion F :=
  ⟨p.x + q.x, p.y + q.y, p.z + q.z, p.w + q.w⟩

/-- Function `Math::Inverse (const Quaternion&)`. -/
def Inverse [LinearOrderedField F] (sqrt : F → F) (VERY_SMALL : F) (q : Quaternion F) :
    Except String (Quaternion F) :=
  let conj : Quaternion F := ⟨-q.x, -q.y, -q.z, q.w⟩
  let mag := sqrt (conj.x ^ 2 + conj.y ^ 2 + conj.z ^ 2 + conj.w ^ 2)
  if |mag| < VERY_SMALL then
    Except.error "Error! Dividing by nearly zero!"
  else
    Except.ok ⟨conj.x / mag, conj.y / mag, conj.z / mag, conj.w / mag⟩

/-- Function `Math::Conjugate`. -/
def Conjugate [Neg F] (q : Quaternion F) : Quaternion F := ⟨-q.x, -q.y, -q.z, q.w⟩

/-- Function `Math::Normalize`. -/
def Normalize [LinearOrderedField F] (sqrt : F → F) (VERY_SMALL : F) (q : Quaternion F) :
    Except String (Quaternion F) :=
  let mag := sqrt (q.x ^ 2 + q.y ^ 2 + q.z ^ 2 + q.w ^ 2)
  if |mag| < VERY_SMALL then
    Except.error "Error! Dividing by a magnitude of nearly zero!"
  else
    Except.ok ⟨q.x / mag, q.y / mag, q.z / mag, q.w / mag⟩

/-- Function `Math::Angle (const Quaternion&, const Quaternion&)`. -/
def Angle [Field F] (sqrt acos : F → F) (q1 q2 : Quaternion F) : F :=
  let a := q1.x * q2.x + q1.y * q2.y + q1.z * q2.z + q1.w * q2.w
  let b := sqrt (q1.x ^ 2 + q1.y ^ 2 + q1.z ^ 2 + q1.w ^ 2)
    * sqrt (q2.x ^ 2 + q2.y ^ 2 + q2.z ^ 2 + q2.w ^ 2)
  acos (a / b)

/-- Function `Math::Rotate (const Quaternion&, const Vector3&)`. -/
def Rotate [LinearOrderedField F] (sqrt : F → F) (VERY_SMALL : F) (q : Quaternion F)
    (v : Vector3 F) : Except String (Vector3 F) :=
  let q2 : Quaternion F := ⟨v.x, v.y, v.z, 0⟩
  match Inverse sqrt VERY_SMALL q with
  | Except.error e => Except.error e
  | Except.ok qInv =>
    let result := mul (mul q q2) qInv
    Except.ok ⟨result.x, result.y, result.z⟩

/-- Function `Math::Lerp (const Quaternion&, const Quaternion&, float)`. -/
def Lerp [LinearOrderedField F] (sqrt : F → F) (VERY_SMALL : F) (q1 q2 : Quaternion F) (t : F) :
    Except String (Quaternion F) :=
  Normalize sqrt VERY_SMALL (add (smul (1 - t) q1) (smul t q2))

/-- The divisor `a` that `Math::SLerp (const Quaternion&, ...)` applies to `q1`. -/
def SLerpDivisor [Ring F] (sqrt : F → F) (q1 q2 : Quaternion F) : F :=
  sqrt (q1.x ^ 2 + q1.y ^ 2 + q1.z ^ 2 + q2.w ^ 2)

/-- Function `Math::SLerp (const Quaternion&, const Quaternion&, float)`. -/
def SLerp [LinearOrderedField F] (sqrt acos sin : F → F) (VERY_SMALL DEGREES_TO_RADIANS : F)
    (q1 q2 : Quaternion F) (t : F) : Except String (Quaternion F) :=
  let a := SLerpDivisor sqrt q1 q2
  if |a| < VERY_SMALL then
    Except.error divNearlyZero
  else
    let n1 : Quaternion F := ⟨q1.x / a, q1.y / a, q1.z / a, q1.w / a⟩
    let b := sqrt (q2.x ^ 2 + q2.y ^ 2 + q2.z ^ 2 + q2.w ^ 2)
    if |b| < VERY_SMALL then
      Except.error divNearlyZero
    else
      let n2 : Quaternion F := ⟨q2.x / b, q2.y / b, q2.z / b, q2.w / b⟩
      let angle0 := Angle sqrt acos n1 n2
      let angle :=
        if -n1.x = n2.x ∧ -n1.y = n2.y ∧ -n1.z = n2.z ∧ -n1.w = n2.w then
          -180 * DEGREES_TO_RADIANS
        else
          angle0
      if |angle| < VERY_SMALL then
        Except.error divNearlyZero
      else if angle < 10 * DEGREES_TO_RADIANS then
        Lerp sqrt VERY_SMALL q1 q2 t
      else
        let c := angle * (1 - t)
        let k1 := sin c / sin angle
        let d := angle * t
        let k2 := sin d / sin angle
        Except.ok (add (smul k1 n1) (smul k2 n2))

/-- Function `Math::QuaternionToMatrix`. -/
def QuaternionToMatrix [Ring F] (q : Quaternion F) : Matrix4 F :=
  ⟨1 - 2 * q.y ^ 2 - 2 * q.z ^ 2,
   2 * q.x * q.y + 2 * q.w * q.z,
   2 * q.x * q.z - 2 * q.w * q.y,
   0,
   2 * q.x * q.y - 2 * q.w * q.z,
   1 - 2 * q.x ^ 2 - 2 * q.z ^ 2,
   2 * q.y * q.z + 2 * q.w * q.x,
   0,
   2 * q.x * q.z + 2 * q.w * q.y,
   2 * q.y * q.z - 2 * q.w * q.x,
   1 - 2 * q.x ^ 2 - 2 * q.y ^ 2,
   0,
   0, 0, 0, 1⟩

/-- Function `Math::MatrixToQuaternion`; `q.Load (x, y, z, w)` sets the four components and
`q *= s` scales them. -/
def MatrixToQuaternion [LinearOrderedField F] (sqrt : F → F) (m : Matrix4 F) : Quaternion F :=
  if m.m10 < 0 then
    if m.m0 > m.m5 then
      let t := 1 + m.m0 - m.m5 - m.m10
      smul (1 / 2 / sqrt t) ⟨t, m.m1 + m.m4, m.m8 + m.m2, m.m6 - m.m9⟩
    else
      let t := 1 - m.m0 + m.m5 - m.m10
      smul (1 / 2 / sqrt t) ⟨m.m1 + m.m4, t, m.m6 + m.m9, m.m8 - m.m2⟩
  else
    if m.m0 < -m.m5 then
      let t := 1 - m.m0 - m.m5 + m.m10
      smul (1 / 2 / sqrt t) ⟨m.m8 + m.m2, m.m6 + m.m9, t, m.m1 - m.m4⟩
    else
      let t := 1 + m.m0 + m.m5 + m.m10
      smul (1 / 2 / sqrt t) ⟨m.m6 - m.m9, m.m8 - m.m2, m.m1 - m.m4, t⟩

end Quaternion

/-- Vector2 of `Vector.h`: the components `x`, `y`. -/
@[ext] structure Vector2 (F : Type) where
  x : F
  y : F
deriving DecidableEq, Repr

/-- Euler of `Euler.h`: three angles in degrees; the constructor `Euler (pitch, yaw, roll)`
fills the members `x`, `y`, `z` in that order. -/
@[ext] structure Euler (F : Type) where
  x : F
  y : F
  z : F
deriving DecidableEq, Repr

namespace Vector2

variable {F : Type}

/-- Modelled from the spec: `operator+` of `Vector2` (in `Vector.h`, not among the sources),
componentwise. -/
def add [Add F] (a b : Vector2 F) : Vector2 F := ⟨a.x + b.x, a.y + b.y⟩

/-- Modelled from the spec: `operator-` of `Vector2` (in `Vector.h`, not among the sources),
componentwise. -/
def sub [Sub F] (a b : Vector2 F) : Vector2 F := ⟨a.x - b.x, a.y - b.y⟩

/-- Modelled from the spec: the product of a `Vector2` and a scalar (`v * s` and `s * v` of
`Vector.h`, not among the sources), componentwise. -/
def smul [Mul F] (s : F) (a : Vector2 F) : Vector2 F := ⟨s * a.x, s * a.y⟩

/-- Modelled from the spec: `Vector2::magnitude` (in `Vector.h`, not among the sources) is the
Euclidean norm. -/
def magnitude [Ring F] (sqrt : F → F) (v : Vector2 F) : F :=
  sqrt (v.x ^ 2 + v.y ^ 2)

/-- Function `Math::Dot (const Vector2&, const Vector2&)`. -/
def Dot [Add F] [Mul F] (v1 v2 : Vector2 F) : F :=
  v1.x * v2.x + v1.y * v2.y

/-- Function `Math::Lerp (const Vector2&, const Vector2&, float)`. -/
def Lerp [Ring F] (v1 v2 : Vector2 F) (t : F) : Vector2 F :=
  add v1 (smul t (sub v2 v1))

/-- Function `Math::Reflect (const Vector2&, const Vector2&)`. -/
def Reflect [Ring F] (v n : Vector2 F) : Vector2 F :=
  let s := 2 * Dot v n
  let proj := smul s n
  sub proj v

/-- Function `Math::Project (const Vector2&, const Vector2&)`; the local `normal` is computed
and never used. -/
def Project [LinearOrderedField F] (sqrt : F → F) (VERY_SMALL : F) (u v : Vector2 F) :
    Except String (Vector2 F) :=
  let mag := sqrt (v.x ^ 2 + v.y ^ 2)
  if |mag| < VERY_SMALL then
    Except.error divNearlyZero
  else
    let scalar := Dot u v / (mag * mag)
    Except.ok (smul scalar v)

end Vector2

namespace Vector3

variable {F : Type}

/-- Function `Math::Reflect (const Vector3&, const Vector3&)`. -/
def Reflect [Ring F] (v n : Vector3 F) : Vector3 F :=
  let s := 2 * Dot v n
  let proj := smul s n
  sub proj v

/-- Function `Math::Project (const Vector3&, const Vector3&)`; the local `normal` is computed
and never used. -/
def Project [LinearOrderedField F] (sqrt : F → F) (VERY_SMALL : F) (u v : Vector3 F) :
    Except String (Vector3 F) :=
  let mag := sqrt (v.x ^ 2 + v.y ^ 2 + v.z ^ 2)
  if |mag| < VERY_SMALL then
    Except.error divNearlyZero
  else
    let scalar := Dot u v / (mag * mag)
    Except.ok (smul scalar v)

end Vector3

namespace Vector4

variable {F : Type}

/-- Modelled from the spec: `operator+` of `Vector4` (in `Vector.h`, not among the sources),
componentwise. -/
def add [Add F] (a b : Vector4 F) : Vector4 F := ⟨a.x + b.x, a.y + b.y, a.z + b.z, a.w + b.w⟩

/-- Modelled from the spec: `operator-` of `Vector4` (in `Vector.h`, not among the sources),
componentwise. -/
def sub [Sub F] (a b : Vector4 F) : Vector4 F := ⟨a.x - b.x, a.y - b.y, a.z - b.z, a.w - b.w⟩

/-- Modelled from the spec: the product of a `Vector4` and a scalar (`v * s` and `s * v` of
`Vector.h`, not among the sources), componentwise. -/
def smul [Mul F] (s : F) (a : Vector4 F) : Vector4 F := ⟨s * a.x, s * a.y, s * a.z, s * a.w⟩

/-- Modelled from the spec: the magnitude of a `Vector4` is the Euclidean norm, the expression
`Math::Project (const Vector4&, ...)` and `Math::Distance` write out in place. -/
def magnitude [Ring F] (sqrt : F → F) (v : Vector4 F) : F :=
  sqrt (v.x ^ 2 + v.y ^ 2 + v.z ^ 2 + v.w ^ 2)

/-- Function `Math::Dot (const Vector4&, const Vector4&)`. -/
def Dot [Add F] [Mul F] (v1 v2 : Vector4 F) : F :=
  v1.x * v2.x + v1.y * v2.y + v1.z * v2.z + v1.w * v2.w

/-- Function `Math::Lerp (const Vector4&, const Vector4&, float)`. -/
def Lerp [Ring F] (v1 v2 : Vector4 F) (t : F) : Vector4 F :=
  add v1 (smul t (sub v2 v1))

/-- Function `Math::Project (const Vector4&, const Vector4&)`. -/
def Project [LinearOrderedField F] (sqrt : F → F) (VERY_SMALL : F) (u v : Vector4 F) :
    Except String (Vector4 F) :=
  let mag := sqrt (v.x ^ 2 + v.y ^ 2 + v.z ^ 2 + v.w ^ 2)
  if |mag| < VERY_SMALL then
    Except.error divNearlyZero
  else
    let normal : Vector4 F := ⟨v.x / mag, v.y / mag, v.z / mag, v.w / mag⟩
    let scalar := Dot u v / (mag * mag)
    Except.ok (smul scalar normal)

end Vector4

namespace Matrix4

variable {F : Type}

/-- The upper-left 3x3 block of a `Matrix4` applied to a column vector, on the column-major
layout: row `i` is made of the elements `i`, `i + 4`, `i + 8`. -/
def mulVec3 [Add F] [Mul F] (m : Matrix4 F) (v : Vector3 F) : Vector3 F :=
  ⟨m.m0 * v.x + m.m4 * v.y + m.m8 * v.z,
   m.m1 * v.x + m.m5 * v.y + m.m9 * v.z,
   m.m2 * v.x + m.m6 * v.y + m.m10 * v.z⟩

/-- Function `Math::Rotate (float degrees, float x, float y, float z)`. -/
def Rotate [LinearOrderedField F] (sqrt cos sin : F → F) (VERY_SMALL DEGREES_TO_RADIANS : F)
    (degrees x y z : F) : Except String (Matrix4 F) :=
  match Vector3.normalize sqrt VERY_SMALL ⟨x, y, z⟩ with
  | Except.error e => Except.error e
  | Except.ok rotateAxis =>
    let degrees := degrees * DEGREES_TO_RADIANS
    let cosAngle := cos degrees
    let sinAngle := sin degrees
    let cosm := 1 - cosAngle
    Except.ok
      ⟨rotateAxis.x * rotateAxis.x * cosm + cosAngle,
       rotateAxis.x * rotateAxis.y * cosm + rotateAxis.z * sinAngle,
       rotateAxis.x * rotateAxis.z * cosm - rotateAxis.y * sinAngle,
       0,
       rotateAxis.y * rotateAxis.x * cosm - rotateAxis.z * sinAngle,
       rotateAxis.y * rotateAxis.y * cosm + cosAngle,
       rotateAxis.y * rotateAxis.z * cosm + rotateAxis.x * sinAngle,
       0,
       rotateAxis.z * rotateAxis.x * cosm + rotateAxis.y * sinAngle,
       rotateAxis.z * rotateAxis.y * cosm - rotateAxis.x * sinAngle,
       rotateAxis.z * rotateAxis.z * cosm + cosAngle,
       0,
       0, 0, 0, 1⟩

/-- Function `Math::Rotate (const float degrees, const Vector3& axis)`, the overload on an axis
vector. -/
def RotateAxis [LinearOrderedField F] (sqrt cos sin : F → F)
    (VERY_SMALL DEGREES_TO_RADIANS : F) (degrees : F) (axis : Vector3 F) :
    Except String (Matrix4 F) :=
  Rotate sqrt cos sin VERY_SMALL DEGREES_TO_RADIANS degrees axis.x axis.y axis.z

end Matrix4

namespace Quaternion

variable {F : Type}

/-- Function `Math::QuaternionToEuler`; the literal `0.499f` is read as `499 / 1000`. -/
def QuaternionToEuler [LinearOrderedField F] (atan2 : F → F → F) (asin : F → F)
    (PI RADIANS_TO_DEGREES : F) (q : Quaternion F) : Euler F :=
  let sqw := q.w * q.w
  let sqx := q.x * q.x
  let sqy := q.y * q.y
  let sqz := q.z * q.z
  let sum := sqx + sqy + sqz + sqw
  let testCase := q.x * q.y + q.z * q.w
  if testCase > 499 / 1000 * sum then
    let yaw := 2 * atan2 q.x q.w
    let roll := PI / 2
    let pitch := 0
    ⟨pitch * RADIANS_TO_DEGREES, yaw * RADIANS_TO_DEGREES, roll * RADIANS_TO_DEGREES⟩
  else if testCase < -(499 / 1000) * sum then
    let yaw := -2 * atan2 q.x q.w
    let roll := -PI / 2
    let pitch := 0
    ⟨pitch * RADIANS_TO_DEGREES, yaw * RADIANS_TO_DEGREES, roll * RADIANS_TO_DEGREES⟩
  else
    let yaw := atan2 (2 * q.y * q.w - 2 * q.x * q.z) (sqx - sqy - sqz + sqw)
    let roll := asin (2 * testCase / sum)
    let pitch := atan2 (2 * q.x * q.w - 2 * q.y * q.z) (-sqx + sqy - sqz + sqw)
    ⟨pitch * RADIANS_TO_DEGREES, yaw * RADIANS_TO_DEGREES, roll * RADIANS_TO_DEGREES⟩

end Quaternion

namespace Vector3

variable {F : Type}

/-- Modelled from the spec: `Vector3::normalized` (in `Vector.h`, not among the sources) returns
a unit-length copy of the vector and has the contract of `Math::normalize`: it is defined only
when the magnitude reaches the epsilon threshold, and is an error below it. -/
def normalized [LinearOrderedField F] (sqrt : F → F) (VERY_SMALL : F) (v : Vector3 F) :
    Except String (Vector3 F) :=
  normalize sqrt VERY_SMALL v

/-- Function `Math::OrthoNormalize`. -/
def OrthoNormalize [LinearOrderedField F] (sqrt : F → F) (VERY_SMALL : F) (v : Vector3 F)
    (x_ y_ : F) : Except String (Vector3 F) :=
  let mag := sqrt (v.x ^ 2 + v.y ^ 2 + v.z ^ 2)
  if |mag| < VERY_SMALL then
    Except.error divNearlyZero
  else
    let normal : Vector3 F := ⟨v.x / mag, v.y / mag, v.z / mag⟩
    if |normal.z| < VERY_SMALL then
      Except.error divNearlyZero
    else
      let result : Vector3 F := ⟨x_, y_, (normal.x * x_ + normal.y * y_) / -normal.z⟩
      normalized sqrt VERY_SMALL result

end Vector3

namespace Matrix4

variable {F : Type}

/-- Function `Math::Transpose`; the constructor of `Matrix4` on sixteen numbers fills the
elements `0 .. 15` in the order of its arguments. -/
def Transpose (m : Matrix4 F) : Matrix4 F :=
  ⟨m.m0, m.m4, m.m8, m.m12,
   m.m1, m.m5, m.m9, m.m13,
   m.m2, m.m6, m.m10, m.m14,
   m.m3, m.m7, m.m11, m.m15⟩

/-- Function `Math::Scale (float, float, float)`. -/
def Scale [Zero F] [One F] (x y z : F) : Matrix4 F :=
  ⟨x, 0, 0, 0,
   0, y, 0, 0,
   0, 0, z, 0,
   0, 0, 0, 1⟩

/-- Function `Math::Translate (float, float, float)`. -/
def Translate [Zero F] [One F] (x_ y_ z_ : F) : Matrix4 F :=
  ⟨1, 0, 0, 0,
   0, 1, 0, 0,
   0, 0, 1, 0,
   x_, y_, z_, 1⟩

/-- Function `Math::Perspective`. -/
def Perspective [Field F] (tan : F → F) (DEGREES_TO_RADIANS : F)
    (fovy aspect zNear zFar : F) : Matrix4 F :=
  let cot := 1 / tan (fovy * (1 / 2) * DEGREES_TO_RADIANS)
  ⟨cot / aspect, 0, 0, 0,
   0, cot, 0, 0,
   0, 0, (zNear + zFar) / (zNear - zFar), -1,
   0, 0, (2 * zNear * zFar) / (zNear - zFar), 0⟩

/-- Function `Math::ViewportNDC (int width_, int height_)`. -/
def ViewportNDC [Field F] (width_ height_ : Int) : Matrix4 F :=
  let minZ : F := 0
  let maxZ : F := 1
  let m1 : Matrix4 F := Scale 1 (-1) 1
  let m2 : Matrix4 F := Scale ((width_ : F) / 2) ((height_ : F) / 2) (maxZ - minZ)
  let m3 : Matrix4 F := Translate ((width_ : F) / 2) ((height_ : F) / 2) minZ
  mul (mul m3 m2) m1

/-- Function `Math::Orthographic`. -/
def Orthographic [Field F] (xMin_ xMax_ yMin_ yMax_ zMin_ zMax_ : F) : Matrix4 F :=
  let m1 : Matrix4 F :=
    Scale (2 / (xMax_ - xMin_)) (2 / (yMax_ - yMin_)) (-2 / (zMax_ - zMin_))
  let m2 : Matrix4 F :=
    Translate (-(xMax_ + xMin_) / (xMax_ - xMin_)) (-(yMax_ + yMin_) / (yMax_ - yMin_))
      (-(zMax_ + zMin_) / (zMax_ - zMin_))
  mul m2 m1

/-- Function `Math::UnOrtho`: `m` starts as the identity and seven elements are assigned. -/
def UnOrtho [Field F] (ortho : Matrix4 F) : Matrix4 F :=
  let m0 := 1 / ortho.m0
  let m5 := 1 / ortho.m5
  let m10 := 1 / ortho.m10
  ⟨m0, 0, 0, 0,
   0, m5, 0, 0,
   0, 0, m10, 0,
   -ortho.m12 * m0, -ortho.m13 * m5, -ortho.m14 * m10, 1⟩

end Matrix4

namespace Binary32

/-- The number of low binary digits of `a` that do not fit in the 24-digit significand of
binary32: the number of halvings that bring `a` below `2 ^ 24`. The first argument bounds the
recursion; `a` itself is always enough. -/
def excess : Nat → Nat → Nat
  | 0, _ => 0
  | fuel + 1, a => if a < 2 ^ 24 then 0 else excess fuel (a / 2) + 1

/-- Rounding of `float` arithmetic (IEEE 754 binary32, round to nearest, ties to even). A finite
binary32 number is an integer multiple of `2 ^ (-149)` and is written as that integer `k`: it
has at most 24 significant binary digits and magnitude at most `(2 ^ 24 - 1) * 2 ^ 253`.
`roundNearestEven k` is the binary32 number nearest to the exact value `k`, and `none` when the
rounded value overflows to an infinity. The sign of a zero is not kept. -/
def roundNearestEven (k : Int) : Option Int :=
  let a := k.natAbs
  let s := excess a a
  let q := a / 2 ^ s
  let r := a % 2 ^ s
  let q1 := if 2 * r > 2 ^ s ∨ (2 * r = 2 ^ s ∧ q % 2 = 1) then q + 1 else q
  let b := q1 * 2 ^ s
  if b > (2 ^ 24 - 1) * 2 ^ 253 then none else some (if k < 0 then -(b : Int) else (b : Int))

/-- The literal `1.0f`. -/
def one : Int := 2 ^ 149

/-- The `float` operator `+` on finite numbers. -/
def add (a b : Int) : Option Int := roundNearestEven (a + b)

/-- The `float` operator `-` on finite numbers. -/
def sub (a b : Int) : Option Int := roundNearestEven (a - b)

end Binary32

namespace Quaternion

variable {F : Type}

/-- The scalar `t` of the branch that `Math::MatrixToQuaternion` selects, in exact arithmetic:
the three additions are not rounded. -/
def MatrixToQuaternionT [LinearOrderedField F] (m : Matrix4 F) : F :=
  if m.m10 < 0 then
    if m.m0 > m.m5 then
      1 + m.m0 - m.m5 - m.m10
    else
      1 - m.m0 + m.m5 - m.m10
  else
    if m.m0 < -m.m5 then
      1 - m.m0 - m.m5 + m.m10
    else
      1 + m.m0 + m.m5 + m.m10

/-- The quaternion `q.Load (...)` sets in the branch that `Math::MatrixToQuaternion` selects,
before the scaling by `0.5f / sqrt (t)`. -/
def MatrixToQuaternionLoad [LinearOrderedField F] (m : Matrix4 F) : Quaternion F :=
  if m.m10 < 0 then
    if m.m0 > m.m5 then
      ⟨1 + m.m0 - m.m5 - m.m10, m.m1 + m.m4, m.m8 + m.m2, m.m6 - m.m9⟩
    else
      ⟨m.m1 + m.m4, 1 - m.m0 + m.m5 - m.m10, m.m6 + m.m9, m.m8 - m.m2⟩
  else
    if m.m0 < -m.m5 then
      ⟨m.m8 + m.m2, m.m6 + m.m9, 1 - m.m0 - m.m5 + m.m10, m.m1 - m.m4⟩
    else
      ⟨m.m6 - m.m9, m.m8 - m.m2, m.m1 - m.m4, 1 + m.m0 + m.m5 + m.m10⟩

/-- The scalar `t` of the branch that `Math::MatrixToQuaternion` selects, in binary32: the
elements of `m` are finite binary32 numbers in units of `2 ^ (-149)`, the comparisons are exact
and each addition or subtraction, taken from left to right, is rounded. The result is `none`
when an addition overflows. -/
def MatrixToQuaternionTBinary32 (m : Matrix4 Int) : Option Int :=
  if m.m10 < 0 then
    if m.m0 > m.m5 then
      (Binary32.add Binary32.one m.m0).bind fun a =>
        (Binary32.sub a m.m5).bind fun b => Binary32.sub b m.m10
    else
      (Binary32.sub Binary32.one m.m0).bind fun a =>
        (Binary32.add a m.m5).bind fun b => Binary32.sub b m.m10
  else
    if m.m0 < -m.m5 then
      (Binary32.sub Binary32.one m.m0).bind fun a =>
        (Binary32.sub a m.m5).bind fun b => Binary32.add b m.m10
    else
      (Binary32.add Binary32.one m.m0).bind fun a =>
        (Binary32.add a m.m5).bind fun b => Binary32.add b m.m10

/-- Function `Math::EulerToQueaternion`. -/
def EulerToQueaternion [Field F] (cos sin : F → F) (DEGREES_TO_RADIANS : F) (e1 : Euler F) :
    Quaternion F :=
  let e : Euler F :=
    ⟨e1.x * DEGREES_TO_RADIANS, e1.y * DEGREES_TO_RADIANS, e1.z * DEGREES_TO_RADIANS⟩
  let c1 := cos (e.y / 2)
  let c2 := cos (e.z / 2)
  let c3 := cos (e.x / 2)
  let s1 := sin (e.y / 2)
  let s2 := sin (e.z / 2)
  let s3 := sin (e.x / 2)
  let c1c2 := c1 * c2
  let s1s2 := s1 * s2
  let w := c1c2 * c3 - s1s2 * s3
  let x := c1c2 * s3 + s1s2 * c3
  let y := s1 * c2 * c3 + c1 * s2 * s3
  let z := c1 * s2 * c3 - s1 * c2 * s3
  ⟨x, y, z, w⟩

end Quaternion

end Kobe

/-! ## Matrix4: the inverse -/

namespace Kobe

namespace Matrix4

variable {F : Type}

theorem cofactors_mul [CommRing F] (m : Matrix4 F) :
    mul (cofactors m) m = scaleAll identity (determinate m) := by
  ext <;> simp only [mul, cofactors, scaleAll, identity, determinate] <;> ring

theorem mul_cofactors [CommRing F] (m : Matrix4 F) :
    mul m (cofactors m) = scaleAll identity (determinate m) := by
  ext <;> simp only [mul, cofactors, scaleAll, identity, determinate] <;> ring

/-- The layout of `toMatrix`: row `i`, column `j` is element `i + 4 * j`. -/
theorem toMatrix_apply (m : Matrix4 F) (i j : Fin 4) :
    toMatrix m i j = m.get ⟨i.val + 4 * j.val, by omega⟩ := by
  fin_cases i <;> fin_cases j <;> rfl

/-- The product `mul` is the matrix product on that layout. -/
theorem toMatrix_mul [CommRing F] (a b : Matrix4 F) :
    toMatrix (mul a b) = toMatrix a * toMatrix b := by
  ext i j
  fin_cases i <;> fin_cases j <;>
    simp [toMatrix, mul, Matrix.mul_apply, Fin.sum_univ_four]

theorem toMatrix_identity [CommRing F] : toMatrix (identity : Matrix4 F) = 1 := by
  ext i j
  fin_cases i <;> fin_cases j <;> rfl

/-- The value `determinate` computed by the code is the determinant of the matrix. -/
theorem determinate_eq_det [CommRing F] (m : Matrix4 F) :
    determinate m = (toMatrix m).det := by
  have h1 : (Fin.succ 2 : Fin 4) = 3 := rfl
  have h2 : (Fin.castSucc 2 : Fin 4) = 2 := rfl
  have h3 : (1 : Fin 4) < 3 := by decide
  rw [Matrix.det_succ_row_zero]
  simp [Fin.sum_univ_succ, Matrix.det_fin_three, toMatrix, determinate, cofactors,
    Fin.succAbove, Matrix.submatrix_apply, h1, h2, h3]
  ring

theorem mul_assoc4 [CommRing F] (a b c : Matrix4 F) :
    mul (mul a b) c = mul a (mul b c) := by
  ext <;> simp only [mul] <;> ring

theorem mul_identity [CommRing F] (a : Matrix4 F) : mul a identity = a := by
  ext <;> simp [mul, identity]

theorem identity_mul [CommRing F] (a : Matrix4 F) : mul identity a = a := by
  ext <;> simp [mul, identity]

theorem determinate_mul [CommRing F] (a b : Matrix4 F) :
    determinate (mul a b) = determinate a * determinate b := by
  rw [determinate_eq_det, determinate_eq_det, determinate_eq_det, toMatrix_mul, Matrix.det_mul]

theorem determinate_identity [CommRing F] : determinate (identity : Matrix4 F) = 1 := by
  rw [determinate_eq_det, toMatrix_identity, Matrix.det_one]

theorem Inverse_of_guard [LinearOrderedField F] (VERY_SMALL : F) (m : Matrix4 F)
    (h : VERY_SMALL ≤ |determinate m|) :
    Inverse VERY_SMALL m = Except.ok (scaleAll (cofactors m) (1 / determinate m)) := by
  simp [Inverse, not_lt.mpr h]

theorem Inverse_of_small [LinearOrderedField F] (VERY_SMALL : F) (m : Matrix4 F)
    (h : |determinate m| < VERY_SMALL) :
    Inverse VERY_SMALL m = Except.error "Divide by nearly zero in Math::inverse!" := by
  simp [Inverse, h]

theorem scaled_cofactors_mul [Field F] (m : Matrix4 F) (h : determinate m ≠ 0) :
    mul (scaleAll (cofactors m) (1 / determinate m)) m = identity := by
  have e : mul (scaleAll (cofactors m) (1 / determinate m)) m
      = scaleAll (mul (cofactors m) m) (1 / determinate m) := by
    ext <;> simp only [mul, scaleAll] <;> ring
  rw [e, cofactors_mul m]
  ext <;> simp [scaleAll, identity, h]

theorem mul_scaled_cofactors [Field F] (m : Matrix4 F) (h : determinate m ≠ 0) :
    mul m (scaleAll (cofactors m) (1 / determinate m)) = identity := by
  have e : mul m (scaleAll (cofactors m) (1 / determinate m))
      = scaleAll (mul m (cofactors m)) (1 / determinate m) := by
    ext <;> simp only [mul, scaleAll] <;> ring
  rw [e, mul_cofactors m]
  ext <;> simp [scaleAll, identity, h]

theorem determinate_ne_zero_of_guard [LinearOrderedField F] (VERY_SMALL : F) (m : Matrix4 F)
    (hpos : 0 < VERY_SMALL) (hdet : VERY_SMALL ≤ |determinate m|) : determinate m ≠ 0 := by
  intro h0
  rw [h0, abs_zero] at hdet
  exact absurd hpos (not_lt.mpr hdet)

/-- The determinant of the matrix `Inverse` returns is the reciprocal of the determinant. -/
theorem determinate_scaled_cofactors [Field F] (m : Matrix4 F) (h : determinate m ≠ 0) :
    determinate (scaleAll (cofactors m) (1 / determinate m)) = 1 / determinate m := by
  have hd : determinate (scaleAll (cofactors m) (1 / determinate m)) * determinate m = 1 := by
    rw [← determinate_mul, scaled_cofactors_mul m h, determinate_identity]
  exact eq_one_div_of_mul_eq_one_left hd

/-- A left inverse is the right inverse's inverse: from `r2 * r = 1` and `r * m = 1`,
`r2 = m`. -/
theorem eq_of_mul_eq_identity [CommRing F] (r2 r m : Matrix4 F)
    (h1 : mul r2 r = identity) (h2 : mul r m = identity) : r2 = m := by
  calc r2 = mul r2 (mul r m) := by rw [h2, mul_identity]
    _ = mul (mul r2 r) m := (mul_assoc4 _ _ _).symm
    _ = m := by rw [h1, identity_mul]

/-- Claim C1: when the determinant the code computes has absolute value at least `VERY_SMALL`
(a positive threshold), `Inverse m` returns a matrix that is the two-sided inverse of `m` for
the 4x4 product on the column-major layout. -/
theorem Inverse_two_sided [LinearOrderedField F] (VERY_SMALL : F) (m : Matrix4 F)
    (hpos : 0 < VERY_SMALL) (hdet : VERY_SMALL ≤ |determinate m|) :
    ∃ r, Inverse VERY_SMALL m = Except.ok r ∧ mul r m = identity ∧ mul m r = identity :=
  ⟨_, Inverse_of_guard VERY_SMALL m hdet,
    scaled_cofactors_mul m (determinate_ne_zero_of_guard VERY_SMALL m hpos hdet),
    mul_scaled_cofactors m (determinate_ne_zero_of_guard VERY_SMALL m hpos hdet)⟩

/-- Claim C1 at a scale-and-translate matrix over the rationals. -/
theorem Inverse_two_sided_witness :
    (0 : ℚ) < 1 / 1000000 ∧
    (1 / 1000000 : ℚ) ≤ |determinate (⟨2, 0, 0, 0, 0, 4, 0, 0, 0, 0, 5, 0, 1, 2, 3, 1⟩ : Matrix4 ℚ)| ∧
    ∃ r, Inverse (1 / 1000000 : ℚ) ⟨2, 0, 0, 0, 0, 4, 0, 0, 0, 0, 5, 0, 1, 2, 3, 1⟩ = Except.ok r ∧
      mul r ⟨2, 0, 0, 0, 0, 4, 0, 0, 0, 0, 5, 0, 1, 2, 3, 1⟩ = identity ∧
      mul ⟨2, 0, 0, 0, 0, 4, 0, 0, 0, 0, 5, 0, 1, 2, 3, 1⟩ r = identity :=
  ⟨by norm_num, by norm_num [determinate, cofactors],
    Inverse_two_sided _ _ (by norm_num) (by norm_num [determinate, cofactors])⟩

/-- Claim C3 fails as stated: the uniform scale by 1000 passes the guard of `Inverse`, and its
inverse, of determinant `1 / 1000000000`, is rejected by the same guard. -/
theorem Inverse_Inverse_counterexample :
    ∃ r, Inverse (1 / 1000000 : ℚ) ⟨1000, 0, 0, 0, 0, 1000, 0, 0, 0, 0, 1000, 0, 0, 0, 0, 1⟩
        = Except.ok r ∧
      Inverse (1 / 1000000 : ℚ) r = Except.error "Divide by nearly zero in Math::inverse!" := by
  refine ⟨⟨1 / 1000, 0, 0, 0, 0, 1 / 1000, 0, 0, 0, 0, 1 / 1000, 0, 0, 0, 0, 1⟩, ?_, ?_⟩
  · norm_num [Inverse, determinate, cofactors, scaleAll, abs_lt]
  · norm_num [Inverse, determinate, cofactors, scaleAll, abs_lt]

/-- Once `Inverse m` has succeeded with result `r`, the guard of `Inverse r` passes exactly when
`VERY_SMALL * |determinate m| ≤ 1`. -/
theorem Inverse_Inverse_ok_iff [LinearOrderedField F] (VERY_SMALL : F) (m : Matrix4 F)
    (hpos : 0 < VERY_SMALL) (hdet : VERY_SMALL ≤ |determinate m|) :
    VERY_SMALL ≤ |determinate (scaleAll (cofactors m) (1 / determinate m))| ↔
      VERY_SMALL * |determinate m| ≤ 1 := by
  have hne := determinate_ne_zero_of_guard VERY_SMALL m hpos hdet
  rw [determinate_scaled_cofactors m hne, abs_div, abs_one, le_div_iff₀ (abs_pos.mpr hne)]

/-- Claim C3, amended: for a positive threshold and a matrix `m` whose determinant satisfies
`VERY_SMALL ≤ |det m|` and `VERY_SMALL * |det m| ≤ 1`, `Inverse m` succeeds, `Inverse` of its
result succeeds as well and returns `m` element for element. -/
theorem Inverse_Inverse [LinearOrderedField F] (VERY_SMALL : F) (m : Matrix4 F)
    (hpos : 0 < VERY_SMALL) (hdet : VERY_SMALL ≤ |determinate m|)
    (hle : VERY_SMALL * |determinate m| ≤ 1) :
    ∃ r, Inverse VERY_SMALL m = Except.ok r ∧ Inverse VERY_SMALL r = Except.ok m := by
  have hne := determinate_ne_zero_of_guard VERY_SMALL m hpos hdet
  have hg := (Inverse_Inverse_ok_iff VERY_SMALL m hpos hdet).mpr hle
  have hne2 := determinate_ne_zero_of_guard VERY_SMALL _ hpos hg
  refine ⟨_, Inverse_of_guard VERY_SMALL m hdet, ?_⟩
  rw [Inverse_of_guard _ _ hg]
  exact congrArg Except.ok
    (eq_of_mul_eq_identity _ _ m (scaled_cofactors_mul _ hne2) (scaled_cofactors_mul m hne))

/-- Claim C3, amended, at a scale-and-translate matrix over the rationals. -/
theorem Inverse_Inverse_witness :
    ∃ r, Inverse (1 / 1000000 : ℚ) ⟨2, 0, 0, 0, 0, 4, 0, 0, 0, 0, 5, 0, 1, 2, 3, 1⟩ = Except.ok r ∧
      Inverse (1 / 1000000 : ℚ) r
        = Except.ok ⟨2, 0, 0, 0, 0, 4, 0, 0, 0, 0, 5, 0, 1, 2, 3, 1⟩ :=
  Inverse_Inverse _ _ (by norm_num) (by norm_num [determinate, cofactors])
    (by norm_num [determinate, cofactors])

/-- Beyond that bound the second inversion is rejected: with `VERY_SMALL ≤ |det m|` and
`1 < VERY_SMALL * |det m|`, `Inverse` of the result of `Inverse m` throws. -/
theorem Inverse_Inverse_rejected [LinearOrderedField F] (VERY_SMALL : F) (m : Matrix4 F)
    (hpos : 0 < VERY_SMALL) (hdet : VERY_SMALL ≤ |determinate m|)
    (hgt : 1 < VERY_SMALL * |determinate m|) :
    Inverse VERY_SMALL (scaleAll (cofactors m) (1 / determinate m))
      = Except.error "Divide by nearly zero in Math::inverse!" := by
  apply Inverse_of_small
  by_contra h
  exact absurd ((Inverse_Inverse_ok_iff VERY_SMALL m hpos hdet).mp (not_lt.mp h)) (not_le.mpr hgt)

end Matrix4

end Kobe

/-! ## Quaternion: conversion to and from a matrix, rotation of a vector -/

namespace Kobe

namespace Quaternion

theorem half_div_sqrt_of_pos (s t : ℝ) (hs : 0 < s) (ht : t = 4 * s ^ 2) :
    1 / 2 / Real.sqrt t = 1 / (4 * s) := by
  have h : Real.sqrt t = 2 * s := by
    rw [ht, show 4 * s ^ 2 = (2 * s) ^ 2 by ring]
    exact Real.sqrt_sq (by linarith)
  rw [h]
  field_simp
  ring

theorem half_div_sqrt_of_neg (s t : ℝ) (hs : s < 0) (ht : t = 4 * s ^ 2) :
    1 / 2 / Real.sqrt t = -(1 / (4 * s)) := by
  have h : Real.sqrt t = 2 * (-s) := by
    rw [ht, show 4 * s ^ 2 = (2 * (-s)) ^ 2 by ring]
    exact Real.sqrt_sq (by linarith)
  rw [h]
  have : s ≠ 0 := ne_of_lt hs
  field_simp
  ring

theorem QuaternionToMatrix_neg (q : Quaternion ℝ) :
    QuaternionToMatrix (smul (-1) q) = QuaternionToMatrix q := by
  ext <;> simp only [QuaternionToMatrix, smul] <;> ring

/-- On the matrix of a unit quaternion `q`, each of the four branches of `MatrixToQuaternion`
finds `t = 4 * c ^ 2` for a non-zero component `c` of `q` and returns `q` or `-q`. -/
theorem MatrixToQuaternion_QuaternionToMatrix (q : Quaternion ℝ)
    (hq : q.x ^ 2 + q.y ^ 2 + q.z ^ 2 + q.w ^ 2 = 1) :
    MatrixToQuaternion Real.sqrt (QuaternionToMatrix q) = q ∨
      MatrixToQuaternion Real.sqrt (QuaternionToMatrix q) = smul (-1) q := by
  obtain ⟨x, y, z, w⟩ := q
  simp only at hq
  unfold MatrixToQuaternion
  simp only [QuaternionToMatrix]
  split_ifs with h10 h05 h05'
  · have ht : 1 + (1 - 2 * y ^ 2 - 2 * z ^ 2) - (1 - 2 * x ^ 2 - 2 * z ^ 2)
        - (1 - 2 * x ^ 2 - 2 * y ^ 2) = 4 * x ^ 2 := by ring
    have hx : x ≠ 0 := by
      rintro rfl
      nlinarith [sq_nonneg y]
    rcases lt_or_gt_of_ne hx with hneg | hpos
    · right
      rw [half_div_sqrt_of_neg x _ hneg ht]
      ext <;> simp only [smul] <;> field_simp <;> ring
    · left
      rw [half_div_sqrt_of_pos x _ hpos ht]
      ext <;> simp only [smul] <;> field_simp <;> ring
  · have ht : 1 - (1 - 2 * y ^ 2 - 2 * z ^ 2) + (1 - 2 * x ^ 2 - 2 * z ^ 2)
        - (1 - 2 * x ^ 2 - 2 * y ^ 2) = 4 * y ^ 2 := by ring
    have hy : y ≠ 0 := by
      rintro rfl
      nlinarith [sq_nonneg x]
    rcases lt_or_gt_of_ne hy with hneg | hpos
    · right
      rw [half_div_sqrt_of_neg y _ hneg ht]
      ext <;> simp only [smul] <;> field_simp <;> ring
    · left
      rw [half_div_sqrt_of_pos y _ hpos ht]
      ext <;> simp only [smul] <;> field_simp <;> ring
  · have ht : 1 - (1 - 2 * y ^ 2 - 2 * z ^ 2) - (1 - 2 * x ^ 2 - 2 * z ^ 2)
        + (1 - 2 * x ^ 2 - 2 * y ^ 2) = 4 * z ^ 2 := by ring
    have hz : z ≠ 0 := by
      rintro rfl
      nlinarith [sq_nonneg w]
    rcases lt_or_gt_of_ne hz with hneg | hpos
    · right
      rw [half_div_sqrt_of_neg z _ hneg ht]
      ext <;> simp only [smul] <;> field_simp <;> ring
    · left
      rw [half_div_sqrt_of_pos z _ hpos ht]
      ext <;> simp only [smul] <;> field_simp <;> ring
  · have ht : 1 + (1 - 2 * y ^ 2 - 2 * z ^ 2) + (1 - 2 * x ^ 2 - 2 * z ^ 2)
        + (1 - 2 * x ^ 2 - 2 * y ^ 2) = 4 * w ^ 2 := by linear_combination (-4) * hq
    have hw : w ≠ 0 := by
      rintro rfl
      nlinarith [sq_nonneg z]
    rcases lt_or_gt_of_ne hw with hneg | hpos
    · right
      rw [half_div_sqrt_of_neg w _ hneg ht]
      ext <;> simp only [smul] <;> field_simp <;>
        first | ring1 | linear_combination 4 * hq
    · left
      rw [half_div_sqrt_of_pos w _ hpos ht]
      ext <;> simp only [smul] <;> field_simp <;>
        first | ring1 | linear_combination (-4) * hq

/-- Claim C4: for a unit quaternion `q` (sum of the squared components 1), whichever branch
`MatrixToQuaternion` takes on `QuaternionToMatrix q`, it returns `q` or `-q`, and converting
that back gives `QuaternionToMatrix q` again. -/
theorem QuaternionToMatrix_round_trip (q : Quaternion ℝ)
    (hq : q.x ^ 2 + q.y ^ 2 + q.z ^ 2 + q.w ^ 2 = 1) :
    QuaternionToMatrix (MatrixToQuaternion Real.sqrt (QuaternionToMatrix q))
        = QuaternionToMatrix q ∧
      (MatrixToQuaternion Real.sqrt (QuaternionToMatrix q) = q ∨
        MatrixToQuaternion Real.sqrt (QuaternionToMatrix q) = smul (-1) q) := by
  refine ⟨?_, MatrixToQuaternion_QuaternionToMatrix q hq⟩
  rcases MatrixToQuaternion_QuaternionToMatrix q hq with h | h
  · rw [h]
  · rw [h, QuaternionToMatrix_neg]

/-- Claim C4 at the unit quaternion `(1/2, -1/2, 1/2, -1/2)`. -/
theorem QuaternionToMatrix_round_trip_witness :
    QuaternionToMatrix (MatrixToQuaternion Real.sqrt
        (QuaternionToMatrix (⟨1 / 2, -1 / 2, 1 / 2, -1 / 2⟩ : Quaternion ℝ)))
        = QuaternionToMatrix ⟨1 / 2, -1 / 2, 1 / 2, -1 / 2⟩ ∧
      (MatrixToQuaternion Real.sqrt
          (QuaternionToMatrix (⟨1 / 2, -1 / 2, 1 / 2, -1 / 2⟩ : Quaternion ℝ))
          = ⟨1 / 2, -1 / 2, 1 / 2, -1 / 2⟩ ∨
        MatrixToQuaternion Real.sqrt
          (QuaternionToMatrix (⟨1 / 2, -1 / 2, 1 / 2, -1 / 2⟩ : Quaternion ℝ))
          = smul (-1) ⟨1 / 2, -1 / 2, 1 / 2, -1 / 2⟩) :=
  QuaternionToMatrix_round_trip ⟨1 / 2, -1 / 2, 1 / 2, -1 / 2⟩ (by norm_num)

theorem Inverse_of_unit (VERY_SMALL : ℝ) (q : Quaternion ℝ) (heps : VERY_SMALL ≤ 1)
    (hq : q.x ^ 2 + q.y ^ 2 + q.z ^ 2 + q.w ^ 2 = 1) :
    Inverse Real.sqrt VERY_SMALL q = Except.ok (Conjugate q) := by
  simp [Inverse, Conjugate, hq, not_lt.mpr heps]

/-- The squared length of the vector part of `q * (v, 0) * Conjugate q`. -/
theorem sandwich_sq (q : Quaternion ℝ) (v : Vector3 ℝ) :
    (mul (mul q ⟨v.x, v.y, v.z, 0⟩) (Conjugate q)).x ^ 2
      + (mul (mul q ⟨v.x, v.y, v.z, 0⟩) (Conjugate q)).y ^ 2
      + (mul (mul q ⟨v.x, v.y, v.z, 0⟩) (Conjugate q)).z ^ 2
      = (q.x ^ 2 + q.y ^ 2 + q.z ^ 2 + q.w ^ 2) ^ 2 * (v.x ^ 2 + v.y ^ 2 + v.z ^ 2) := by
  simp only [mul, Conjugate]
  ring

theorem Rotate_of_unit (VERY_SMALL : ℝ) (q : Quaternion ℝ) (v : Vector3 ℝ)
    (heps : VERY_SMALL ≤ 1) (hq : q.x ^ 2 + q.y ^ 2 + q.z ^ 2 + q.w ^ 2 = 1) :
    Rotate Real.sqrt VERY_SMALL q v = Except.ok
      ⟨(mul (mul q ⟨v.x, v.y, v.z, 0⟩) (Conjugate q)).x,
       (mul (mul q ⟨v.x, v.y, v.z, 0⟩) (Conjugate q)).y,
       (mul (mul q ⟨v.x, v.y, v.z, 0⟩) (Conjugate q)).z⟩ := by
  simp only [Rotate, Inverse_of_unit VERY_SMALL q heps hq]

/-- Claim C5: for a unit quaternion `q` (sum of the squared components 1) and a threshold
`VERY_SMALL ≤ 1`, `Rotate (q, v)` returns a vector of the same Euclidean length as `v`. -/
theorem Rotate_preserves_length (VERY_SMALL : ℝ) (q : Quaternion ℝ) (v : Vector3 ℝ)
    (heps : VERY_SMALL ≤ 1) (hq : q.x ^ 2 + q.y ^ 2 + q.z ^ 2 + q.w ^ 2 = 1) :
    ∃ r, Rotate Real.sqrt VERY_SMALL q v = Except.ok r ∧
      Vector3.magnitude Real.sqrt r = Vector3.magnitude Real.sqrt v := by
  refine ⟨_, Rotate_of_unit VERY_SMALL q v heps hq, ?_⟩
  simp only [Vector3.magnitude]
  rw [sandwich_sq, hq]
  simp

/-- Claim C5 at the unit quaternion `(1/2, -1/2, 1/2, -1/2)` and the vector `(1, 2, 3)`. -/
theorem Rotate_preserves_length_witness :
    ∃ r, Rotate Real.sqrt (1 / 1000000) (⟨1 / 2, -1 / 2, 1 / 2, -1 / 2⟩ : Quaternion ℝ) ⟨1, 2, 3⟩
        = Except.ok r ∧
      Vector3.magnitude Real.sqrt r = Vector3.magnitude Real.sqrt ⟨1, 2, 3⟩ :=
  Rotate_preserves_length (1 / 1000000) ⟨1 / 2, -1 / 2, 1 / 2, -1 / 2⟩ ⟨1, 2, 3⟩
    (by norm_num) (by norm_num)

end Quaternion

end Kobe

/-! ## Vector3: spherical interpolation -/

namespace Kobe

namespace Vector3

open AngleUnitOfMeasurement

/-- What a successful `normalize` says: the guard passed and the result is `v / |v|`. -/
theorem normalize_eq_ok (VERY_SMALL : ℝ) (v n : Vector3 ℝ)
    (h : normalize Real.sqrt VERY_SMALL v = Except.ok n) :
    VERY_SMALL ≤ Real.sqrt (v.x ^ 2 + v.y ^ 2 + v.z ^ 2) ∧
      n = ⟨v.x / Real.sqrt (v.x ^ 2 + v.y ^ 2 + v.z ^ 2),
           v.y / Real.sqrt (v.x ^ 2 + v.y ^ 2 + v.z ^ 2),
           v.z / Real.sqrt (v.x ^ 2 + v.y ^ 2 + v.z ^ 2)⟩ := by
  unfold normalize at h
  simp only [abs_of_nonneg (Real.sqrt_nonneg _)] at h
  split_ifs at h with hg
  exact ⟨not_lt.mp hg, (Except.ok.inj h).symm⟩

theorem normalize_of_guard (VERY_SMALL : ℝ) (v : Vector3 ℝ)
    (h : VERY_SMALL ≤ Real.sqrt (v.x ^ 2 + v.y ^ 2 + v.z ^ 2)) :
    normalize Real.sqrt VERY_SMALL v = Except.ok
      ⟨v.x / Real.sqrt (v.x ^ 2 + v.y ^ 2 + v.z ^ 2),
       v.y / Real.sqrt (v.x ^ 2 + v.y ^ 2 + v.z ^ 2),
       v.z / Real.sqrt (v.x ^ 2 + v.y ^ 2 + v.z ^ 2)⟩ := by
  unfold normalize
  simp only [abs_of_nonneg (Real.sqrt_nonneg _), not_lt.mpr h, if_false]

/-- A vector divided by its positive length has squared length 1. -/
theorem unit_of_div (v : Vector3 ℝ) (h : 0 < Real.sqrt (v.x ^ 2 + v.y ^ 2 + v.z ^ 2)) :
    (v.x / Real.sqrt (v.x ^ 2 + v.y ^ 2 + v.z ^ 2)) ^ 2
      + (v.y / Real.sqrt (v.x ^ 2 + v.y ^ 2 + v.z ^ 2)) ^ 2
      + (v.z / Real.sqrt (v.x ^ 2 + v.y ^ 2 + v.z ^ 2)) ^ 2 = 1 := by
  have hS : 0 ≤ v.x ^ 2 + v.y ^ 2 + v.z ^ 2 := by positivity
  have hsq : Real.sqrt (v.x ^ 2 + v.y ^ 2 + v.z ^ 2) ^ 2 = v.x ^ 2 + v.y ^ 2 + v.z ^ 2 :=
    Real.sq_sqrt hS
  have hne : Real.sqrt (v.x ^ 2 + v.y ^ 2 + v.z ^ 2) ≠ 0 := ne_of_gt h
  have hS0 : v.x ^ 2 + v.y ^ 2 + v.z ^ 2 ≠ 0 := ne_of_gt (Real.sqrt_pos.mp h)
  rw [div_pow, div_pow, div_pow, hsq, ← add_div, ← add_div]
  exact div_self hS0

theorem normalize_unit (VERY_SMALL : ℝ) (v n : Vector3 ℝ) (hpos : 0 < VERY_SMALL)
    (h : normalize Real.sqrt VERY_SMALL v = Except.ok n) :
    n.x ^ 2 + n.y ^ 2 + n.z ^ 2 = 1 := by
  obtain ⟨hg, rfl⟩ := normalize_eq_ok VERY_SMALL v n h
  exact unit_of_div v (lt_of_lt_of_le hpos hg)

/-- The angle in radians between unit vectors is the arc cosine of their dot product. -/
theorem Angle_of_unit (r2d : ℝ) (n1 n2 : Vector3 ℝ)
    (h1 : n1.x ^ 2 + n1.y ^ 2 + n1.z ^ 2 = 1) (h2 : n2.x ^ 2 + n2.y ^ 2 + n2.z ^ 2 = 1) :
    Angle Real.sqrt Real.arccos r2d n1 n2 Radians = Real.arccos (Dot n1 n2) := by
  simp [Angle, magnitude, h1, h2]

/-- Unit vectors that are not opposite have a dot product above `-1`. -/
theorem neg_one_lt_Dot (n1 n2 : Vector3 ℝ)
    (h1 : n1.x ^ 2 + n1.y ^ 2 + n1.z ^ 2 = 1) (h2 : n2.x ^ 2 + n2.y ^ 2 + n2.z ^ 2 = 1)
    (hanti : ¬(-n1.x = n2.x ∧ -n1.y = n2.y ∧ -n1.z = n2.z)) : -1 < Dot n1 n2 := by
  by_contra hcon
  have hle : Dot n1 n2 ≤ -1 := not_lt.mp hcon
  simp only [Dot] at hle
  have hx : n1.x + n2.x = 0 := by
    nlinarith [sq_nonneg (n1.x + n2.x), sq_nonneg (n1.y + n2.y), sq_nonneg (n1.z + n2.z)]
  have hy : n1.y + n2.y = 0 := by
    nlinarith [sq_nonneg (n1.x + n2.x), sq_nonneg (n1.y + n2.y), sq_nonneg (n1.z + n2.z)]
  have hz : n1.z + n2.z = 0 := by
    nlinarith [sq_nonneg (n1.x + n2.x), sq_nonneg (n1.y + n2.y), sq_nonneg (n1.z + n2.z)]
  exact hanti ⟨by linarith, by linarith, by linarith⟩

theorem Lerp_zero (a b : Vector3 ℝ) : Lerp a b 0 = a := by
  ext <;> simp [Lerp, add, smul, sub]

theorem Lerp_one (a b : Vector3 ℝ) : Lerp a b 1 = b := by
  ext <;> simp [Lerp, add, smul, sub]

/-- The body of `SLerp` once both magnitudes have passed their guards. -/
theorem SLerp_of_normalize (VERY_SMALL d2r r2d : ℝ) (a b n1 n2 : Vector3 ℝ) (t : ℝ)
    (hn1 : normalize Real.sqrt VERY_SMALL a = Except.ok n1)
    (hn2 : normalize Real.sqrt VERY_SMALL b = Except.ok n2) :
    SLerp Real.sqrt Real.arccos Real.sin VERY_SMALL d2r r2d a b t =
      if |SLerpAngle Real.sqrt Real.arccos d2r r2d n1 n2| < VERY_SMALL then
        Except.error divNearlyZero
      else if SLerpAngle Real.sqrt Real.arccos d2r r2d n1 n2 < 10 * d2r then
        Except.ok (Lerp a b t)
      else
        Except.ok (add
          (smul (Real.sin (SLerpAngle Real.sqrt Real.arccos d2r r2d n1 n2 * (1 - t))
            / Real.sin (SLerpAngle Real.sqrt Real.arccos d2r r2d n1 n2)) n1)
          (smul (Real.sin (SLerpAngle Real.sqrt Real.arccos d2r r2d n1 n2 * t)
            / Real.sin (SLerpAngle Real.sqrt Real.arccos d2r r2d n1 n2)) n2)) := by
  obtain ⟨hg1, rfl⟩ := normalize_eq_ok VERY_SMALL a n1 hn1
  obtain ⟨hg2, rfl⟩ := normalize_eq_ok VERY_SMALL b n2 hn2
  unfold SLerp
  simp only [abs_of_nonneg (Real.sqrt_nonneg _), not_lt.mpr hg1, not_lt.mpr hg2, if_false]

theorem SLerp_eq_Lerp_of_angle (VERY_SMALL d2r r2d : ℝ) (a b n1 n2 : Vector3 ℝ) (t : ℝ)
    (hn1 : normalize Real.sqrt VERY_SMALL a = Except.ok n1)
    (hn2 : normalize Real.sqrt VERY_SMALL b = Except.ok n2)
    (hguard : VERY_SMALL ≤ |SLerpAngle Real.sqrt Real.arccos d2r r2d n1 n2|)
    (hlt : SLerpAngle Real.sqrt Real.arccos d2r r2d n1 n2 < 10 * d2r) :
    SLerp Real.sqrt Real.arccos Real.sin VERY_SMALL d2r r2d a b t = Except.ok (Lerp a b t) := by
  rw [SLerp_of_normalize VERY_SMALL d2r r2d a b n1 n2 t hn1 hn2, if_neg (not_lt.mpr hguard),
    if_pos hlt]

theorem SLerp_error_of_angle (VERY_SMALL d2r r2d : ℝ) (a b n1 n2 : Vector3 ℝ) (t : ℝ)
    (hn1 : normalize Real.sqrt VERY_SMALL a = Except.ok n1)
    (hn2 : normalize Real.sqrt VERY_SMALL b = Except.ok n2)
    (hguard : |SLerpAngle Real.sqrt Real.arccos d2r r2d n1 n2| < VERY_SMALL) :
    SLerp Real.sqrt Real.arccos Real.sin VERY_SMALL d2r r2d a b t
      = Except.error divNearlyZero := by
  rw [SLerp_of_normalize VERY_SMALL d2r r2d a b n1 n2 t hn1 hn2, if_pos hguard]

/-- The test for opposite directions overwrites the angle with `-180 * DEGREES_TO_RADIANS`. -/
theorem SLerpAngle_of_opposite (d2r r2d : ℝ) (n1 n2 : Vector3 ℝ)
    (h : -n1.x = n2.x ∧ -n1.y = n2.y ∧ -n1.z = n2.z) :
    SLerpAngle Real.sqrt Real.arccos d2r r2d n1 n2 = -180 * d2r := by
  simp only [SLerpAngle, if_pos h]

theorem SLerpAngle_of_not_opposite (d2r r2d : ℝ) (n1 n2 : Vector3 ℝ)
    (h : ¬(-n1.x = n2.x ∧ -n1.y = n2.y ∧ -n1.z = n2.z)) :
    SLerpAngle Real.sqrt Real.arccos d2r r2d n1 n2
      = Angle Real.sqrt Real.arccos r2d n1 n2 Radians := by
  simp only [SLerpAngle, if_neg h]

/-- A unit vector passes the guard of `normalize` and is returned unchanged. -/
theorem normalize_of_unit (VERY_SMALL : ℝ) (v : Vector3 ℝ) (heps : VERY_SMALL ≤ 1)
    (hv : v.x ^ 2 + v.y ^ 2 + v.z ^ 2 = 1) :
    normalize Real.sqrt VERY_SMALL v = Except.ok v := by
  simp [normalize, hv, not_lt.mpr heps]

theorem sqrt_four : Real.sqrt ((2 : ℝ) ^ 2 + 0 ^ 2 + 0 ^ 2) = 2 := by
  rw [show (2 : ℝ) ^ 2 + 0 ^ 2 + 0 ^ 2 = 2 ^ 2 by norm_num]
  exact Real.sqrt_sq (by norm_num)

theorem normalize_two : normalize Real.sqrt (1 / 1000000) (⟨2, 0, 0⟩ : Vector3 ℝ)
    = Except.ok ⟨1, 0, 0⟩ := by
  have h := normalize_of_guard (1 / 1000000) (⟨2, 0, 0⟩ : Vector3 ℝ)
    (by rw [sqrt_four]; norm_num)
  rw [h, sqrt_four]
  norm_num

/-- Numeric bound: `cos (10 degrees) < 84/85`. -/
theorem cos_ten_degrees_lt : Real.cos (10 * (Real.pi / 180)) < 84 / 85 := by
  have hlo : (0.1744 : ℝ) < 10 * (Real.pi / 180) := by
    have := Real.pi_gt_d2
    norm_num at this ⊢
    linarith
  have hhi : 10 * (Real.pi / 180) < (0.175 : ℝ) := by
    have := Real.pi_lt_d2
    norm_num at this ⊢
    linarith
  set x := 10 * (Real.pi / 180) with hx
  have hx0 : 0 ≤ x := by linarith
  have habs : |x| ≤ 1 := by
    rw [abs_of_nonneg hx0]; linarith
  have hb := Real.cos_bound habs
  rw [abs_of_nonneg hx0] at hb
  have h2 : (0.1744 : ℝ) ^ 2 < x ^ 2 := pow_lt_pow_left₀ hlo (by norm_num) (by norm_num)
  have h4 : x ^ 4 < (0.175 : ℝ) ^ 4 := pow_lt_pow_left₀ hhi hx0 (by norm_num)
  have hc := (abs_le.mp hb).2
  norm_num at h2 h4 ⊢
  linarith

/-- The angle `arccos (84/85)`, about 8.8 degrees, is below the 10 degree threshold. -/
theorem arccos_lt_ten_degrees : Real.arccos (84 / 85) < 10 * (Real.pi / 180) := by
  have hx0 : (0 : ℝ) ≤ 10 * (Real.pi / 180) := by positivity
  have hxpi : 10 * (Real.pi / 180) ≤ Real.pi := by
    have := Real.pi_pos
    linarith
  have h := Real.strictAntiOn_arccos
    (show Real.cos (10 * (Real.pi / 180)) ∈ Set.Icc (-1 : ℝ) 1 from
      ⟨Real.neg_one_le_cos _, Real.cos_le_one _⟩)
    (show (84 / 85 : ℝ) ∈ Set.Icc (-1 : ℝ) 1 from ⟨by norm_num, by norm_num⟩)
    cos_ten_degrees_lt
  rwa [Real.arccos_cos hx0 hxpi] at h

/-- The angle `arccos (84/85)` is above the threshold `1/1000000`. -/
theorem le_arccos_small : (1 / 1000000 : ℝ) ≤ Real.arccos (84 / 85) := by
  have hx0 : (0 : ℝ) ≤ 1 / 1000000 := by norm_num
  have hxpi : (1 / 1000000 : ℝ) ≤ Real.pi := by
    have := Real.pi_gt_d2
    linarith
  have hcos : (84 / 85 : ℝ) < Real.cos (1 / 1000000) := by
    have := Real.one_sub_sq_div_two_le_cos (x := (1 / 1000000 : ℝ))
    norm_num at this ⊢
    linarith
  have h := Real.strictAntiOn_arccos
    (show (84 / 85 : ℝ) ∈ Set.Icc (-1 : ℝ) 1 from ⟨by norm_num, by norm_num⟩)
    (show Real.cos (1 / 1000000) ∈ Set.Icc (-1 : ℝ) 1 from
      ⟨Real.neg_one_le_cos _, Real.cos_le_one _⟩)
    hcos
  rw [Real.arccos_cos hx0 hxpi] at h
  exact le_of_lt h


theorem Angle_small_pair :
    Angle Real.sqrt Real.arccos (180 / Real.pi) (⟨1, 0, 0⟩ : Vector3 ℝ) ⟨84 / 85, 13 / 85, 0⟩
      Radians = Real.arccos (84 / 85) := by
  rw [Angle_of_unit _ _ _ (by norm_num) (by norm_num)]
  norm_num [Dot]

theorem SLerpAngle_small_pair :
    SLerpAngle Real.sqrt Real.arccos (Real.pi / 180) (180 / Real.pi)
      (⟨1, 0, 0⟩ : Vector3 ℝ) ⟨84 / 85, 13 / 85, 0⟩ = Real.arccos (84 / 85) := by
  rw [SLerpAngle_of_not_opposite _ _ _ _ (by norm_num), Angle_small_pair]

/-- Claim C6 fails as stated: for `a = (2, 0, 0)` and the unit vector `b = (84/85, 13/85, 0)`,
about 8.8 degrees apart, `SLerp (a, b, 0)` returns `a` itself, which is not
`normalize a = (1, 0, 0)`. -/
theorem SLerp_endpoints_counterexample :
    SLerp Real.sqrt Real.arccos Real.sin (1 / 1000000) (Real.pi / 180) (180 / Real.pi)
        (⟨2, 0, 0⟩ : Vector3 ℝ) ⟨84 / 85, 13 / 85, 0⟩ 0 = Except.ok ⟨2, 0, 0⟩ ∧
      normalize Real.sqrt (1 / 1000000) (⟨2, 0, 0⟩ : Vector3 ℝ) = Except.ok ⟨1, 0, 0⟩ ∧
      (⟨2, 0, 0⟩ : Vector3 ℝ) ≠ ⟨1, 0, 0⟩ := by
  refine ⟨?_, normalize_two, ?_⟩
  · rw [SLerp_eq_Lerp_of_angle (1 / 1000000) _ _ _ _ ⟨1, 0, 0⟩ ⟨84 / 85, 13 / 85, 0⟩ 0
      normalize_two (normalize_of_unit _ _ (by norm_num) (by norm_num))
      (by rw [SLerpAngle_small_pair]; exact le_trans le_arccos_small (le_abs_self _))
      (by rw [SLerpAngle_small_pair]; exact arccos_lt_ten_degrees), Lerp_zero]
  · intro h
    have := congrArg Vector3.x h
    norm_num at this

/-- Claim C6, amended: let `n1 = normalize a`, `n2 = normalize b` (both magnitudes pass the
guard, positive threshold), not opposite, with `VERY_SMALL ≤ |angle|` so that `SLerp` returns a
result. At or above the 10 degree threshold `SLerp (a, b, 0) = n1` and `SLerp (a, b, 1) = n2`;
below it `SLerp (a, b, 0) = a` and `SLerp (a, b, 1) = b`, the inputs themselves. -/
theorem SLerp_endpoints (VERY_SMALL : ℝ) (a b n1 n2 : Vector3 ℝ) (hpos : 0 < VERY_SMALL)
    (hn1 : normalize Real.sqrt VERY_SMALL a = Except.ok n1)
    (hn2 : normalize Real.sqrt VERY_SMALL b = Except.ok n2)
    (hanti : ¬(-n1.x = n2.x ∧ -n1.y = n2.y ∧ -n1.z = n2.z))
    (hguard : VERY_SMALL ≤ |Angle Real.sqrt Real.arccos (180 / Real.pi) n1 n2 Radians|) :
    (10 * (Real.pi / 180) ≤ Angle Real.sqrt Real.arccos (180 / Real.pi) n1 n2 Radians →
      SLerp Real.sqrt Real.arccos Real.sin VERY_SMALL (Real.pi / 180) (180 / Real.pi) a b 0
          = Except.ok n1 ∧
        SLerp Real.sqrt Real.arccos Real.sin VERY_SMALL (Real.pi / 180) (180 / Real.pi) a b 1
          = Except.ok n2) ∧
    (Angle Real.sqrt Real.arccos (180 / Real.pi) n1 n2 Radians < 10 * (Real.pi / 180) →
      SLerp Real.sqrt Real.arccos Real.sin VERY_SMALL (Real.pi / 180) (180 / Real.pi) a b 0
          = Except.ok a ∧
        SLerp Real.sqrt Real.arccos Real.sin VERY_SMALL (Real.pi / 180) (180 / Real.pi) a b 1
          = Except.ok b) := by
  have hu1 := normalize_unit VERY_SMALL a n1 hpos hn1
  have hu2 := normalize_unit VERY_SMALL b n2 hpos hn2
  have hA : SLerpAngle Real.sqrt Real.arccos (Real.pi / 180) (180 / Real.pi) n1 n2
      = Angle Real.sqrt Real.arccos (180 / Real.pi) n1 n2 Radians := by
    simp only [SLerpAngle, if_neg hanti]
  have hS := fun t => SLerp_of_normalize VERY_SMALL (Real.pi / 180) (180 / Real.pi) a b n1 n2 t
    hn1 hn2
  simp only [hA, if_neg (not_lt.mpr hguard)] at hS
  constructor
  · intro hge
    have hlt : Angle Real.sqrt Real.arccos (180 / Real.pi) n1 n2 Radians < Real.pi := by
      rw [Angle_of_unit _ n1 n2 hu1 hu2]
      refine lt_of_le_of_ne (Real.arccos_le_pi _) ?_
      intro h
      exact absurd (neg_one_lt_Dot n1 n2 hu1 hu2 hanti) (not_lt.mpr (Real.arccos_eq_pi.mp h))
    have h0 : 0 < Angle Real.sqrt Real.arccos (180 / Real.pi) n1 n2 Radians :=
      lt_of_lt_of_le (by positivity) hge
    have hsin : Real.sin (Angle Real.sqrt Real.arccos (180 / Real.pi) n1 n2 Radians) ≠ 0 :=
      ne_of_gt (Real.sin_pos_of_pos_of_lt_pi h0 hlt)
    rw [hS 0, hS 1]
    simp only [if_neg (not_lt.mpr hge)]
    constructor
    · congr 1
      ext <;> simp [add, smul, hsin]
    · congr 1
      ext <;> simp [add, smul, hsin]
  · intro hlt
    rw [hS 0, hS 1]
    simp only [if_pos hlt, Lerp_zero, Lerp_one, and_self]

/-- Claim C6, amended, at `a = (2, 0, 0)`, `b = (84/85, 13/85, 0)`, below the threshold. -/
theorem SLerp_endpoints_witness :
    SLerp Real.sqrt Real.arccos Real.sin (1 / 1000000) (Real.pi / 180) (180 / Real.pi)
        (⟨2, 0, 0⟩ : Vector3 ℝ) ⟨84 / 85, 13 / 85, 0⟩ 0 = Except.ok ⟨2, 0, 0⟩ ∧
      SLerp Real.sqrt Real.arccos Real.sin (1 / 1000000) (Real.pi / 180) (180 / Real.pi)
        (⟨2, 0, 0⟩ : Vector3 ℝ) ⟨84 / 85, 13 / 85, 0⟩ 1 = Except.ok ⟨84 / 85, 13 / 85, 0⟩ :=
  (SLerp_endpoints (1 / 1000000) ⟨2, 0, 0⟩ ⟨84 / 85, 13 / 85, 0⟩ ⟨1, 0, 0⟩ ⟨84 / 85, 13 / 85, 0⟩
    (by norm_num) normalize_two (normalize_of_unit _ _ (by norm_num) (by norm_num))
    (by norm_num)
    (by rw [Angle_small_pair]; exact le_trans le_arccos_small (le_abs_self _))).2
    (by rw [Angle_small_pair]; exact arccos_lt_ten_degrees)

/-- Claim C7 fails as stated: for the unit vectors `a = b = (1, 0, 0)` the angle is `0`, inside
`[0, 10 degrees)`, and `SLerp` throws at the guard `fabs (angle) < VERY_SMALL`. -/
theorem SLerp_equal_inputs_counterexample :
    Angle Real.sqrt Real.arccos (180 / Real.pi) (⟨1, 0, 0⟩ : Vector3 ℝ) ⟨1, 0, 0⟩ Radians = 0 ∧
      SLerp Real.sqrt Real.arccos Real.sin (1 / 1000000) (Real.pi / 180) (180 / Real.pi)
        (⟨1, 0, 0⟩ : Vector3 ℝ) ⟨1, 0, 0⟩ (1 / 2) = Except.error divNearlyZero := by
  have hA : Angle Real.sqrt Real.arccos (180 / Real.pi) (⟨1, 0, 0⟩ : Vector3 ℝ) ⟨1, 0, 0⟩
      Radians = 0 := by
    rw [Angle_of_unit _ _ _ (by norm_num) (by norm_num)]
    norm_num [Dot]
  refine ⟨hA, ?_⟩
  have hn := normalize_of_unit (1 / 1000000) (⟨1, 0, 0⟩ : Vector3 ℝ) (by norm_num) (by norm_num)
  apply SLerp_error_of_angle (1 / 1000000) _ _ _ _ ⟨1, 0, 0⟩ ⟨1, 0, 0⟩ _ hn hn
  rw [SLerpAngle_of_not_opposite _ _ _ _ (by norm_num), hA]
  norm_num

/-- Claim C7, amended: for unit `a`, `b` whose angle lies in `[VERY_SMALL, 10 degrees)` (in
radians, threshold at most 1) and every `t`, `SLerp (a, b, t)` returns `Lerp (a, b, t)`. -/
theorem SLerp_eq_Lerp_below_threshold (VERY_SMALL : ℝ) (a b : Vector3 ℝ) (t : ℝ)
    (heps : VERY_SMALL ≤ 1)
    (ha : a.x ^ 2 + a.y ^ 2 + a.z ^ 2 = 1) (hb : b.x ^ 2 + b.y ^ 2 + b.z ^ 2 = 1)
    (hlo : VERY_SMALL ≤ Angle Real.sqrt Real.arccos (180 / Real.pi) a b Radians)
    (hhi : Angle Real.sqrt Real.arccos (180 / Real.pi) a b Radians < 10 * (Real.pi / 180)) :
    SLerp Real.sqrt Real.arccos Real.sin VERY_SMALL (Real.pi / 180) (180 / Real.pi) a b t
      = Except.ok (Lerp a b t) := by
  have hanti : ¬(-a.x = b.x ∧ -a.y = b.y ∧ -a.z = b.z) := by
    rintro ⟨hx, hy, hz⟩
    rw [Angle_of_unit _ a b ha hb] at hhi
    have hd : Dot a b = -1 := by
      simp only [Dot, ← hx, ← hy, ← hz]
      linear_combination (-1) * ha
    rw [hd, Real.arccos_neg_one] at hhi
    have := Real.pi_pos
    linarith
  have hA := SLerpAngle_of_not_opposite (Real.pi / 180) (180 / Real.pi) a b hanti
  exact SLerp_eq_Lerp_of_angle VERY_SMALL _ _ a b a b t
    (normalize_of_unit VERY_SMALL a heps ha) (normalize_of_unit VERY_SMALL b heps hb)
    (by rw [hA]; exact le_trans hlo (le_abs_self _)) (by rw [hA]; exact hhi)

/-- Claim C7, amended, at `a = (1, 0, 0)`, `b = (84/85, 13/85, 0)`, `t = 1/2`. -/
theorem SLerp_eq_Lerp_below_threshold_witness :
    SLerp Real.sqrt Real.arccos Real.sin (1 / 1000000) (Real.pi / 180) (180 / Real.pi)
        (⟨1, 0, 0⟩ : Vector3 ℝ) ⟨84 / 85, 13 / 85, 0⟩ (1 / 2)
      = Except.ok (Lerp ⟨1, 0, 0⟩ ⟨84 / 85, 13 / 85, 0⟩ (1 / 2)) :=
  SLerp_eq_Lerp_below_threshold (1 / 1000000) ⟨1, 0, 0⟩ ⟨84 / 85, 13 / 85, 0⟩ (1 / 2)
    (by norm_num) (by norm_num) (by norm_num)
    (by rw [Angle_small_pair]; exact le_arccos_small)
    (by rw [Angle_small_pair]; exact arccos_lt_ten_degrees)

/-- Claim C8 against the code, at `v1 = (1, 0, 0)`, `v2 = (-1, 0, 0)`: the angle used after the
test for opposite directions is `-π`, not `+π`; it passes the guard on `fabs (angle)`, is
below the 10 degree threshold, and `SLerp` falls back to `Lerp`, the zero vector at `t = 1/2`. -/
theorem SLerp_opposite_angle :
    SLerpAngle Real.sqrt Real.arccos (Real.pi / 180) (180 / Real.pi)
        (⟨1, 0, 0⟩ : Vector3 ℝ) ⟨-1, 0, 0⟩ = -Real.pi ∧
      SLerp Real.sqrt Real.arccos Real.sin (1 / 1000000) (Real.pi / 180) (180 / Real.pi)
        (⟨1, 0, 0⟩ : Vector3 ℝ) ⟨-1, 0, 0⟩ (1 / 2) = Except.ok ⟨0, 0, 0⟩ := by
  have hA : SLerpAngle Real.sqrt Real.arccos (Real.pi / 180) (180 / Real.pi)
      (⟨1, 0, 0⟩ : Vector3 ℝ) ⟨-1, 0, 0⟩ = -Real.pi := by
    rw [SLerpAngle_of_opposite _ _ _ _ (by norm_num)]
    ring
  refine ⟨hA, ?_⟩
  have hpi := Real.pi_gt_d2
  rw [SLerp_eq_Lerp_of_angle (1 / 1000000) _ _ _ _ ⟨1, 0, 0⟩ ⟨-1, 0, 0⟩ (1 / 2)
    (normalize_of_unit _ _ (by norm_num) (by norm_num))
    (normalize_of_unit _ _ (by norm_num) (by norm_num))
    (by rw [hA, abs_neg, abs_of_pos Real.pi_pos]; norm_num at hpi ⊢; linarith)
    (by rw [hA]; linarith)]
  congr 1
  ext <;> norm_num [Lerp, add, smul, sub]

end Vector3

end Kobe

/-! ## Quaternion: spherical interpolation -/

namespace Kobe

namespace Quaternion

theorem sqrt_twenty_five : Real.sqrt 25 = 5 := by
  rw [show (25 : ℝ) = 5 ^ 2 by norm_num]
  exact Real.sqrt_sq (by norm_num)

theorem sqrt_sixteen : Real.sqrt 16 = 4 := by
  rw [show (16 : ℝ) = 4 ^ 2 by norm_num]
  exact Real.sqrt_sq (by norm_num)

/-- A second input for claim C9, above the 10 degree threshold: for `q1 = (3, 0, 0, 0)` and
`q2 = (0, 0, 0, 4)` the divisor is `5`, and `SLerp (q1, q2, 0)` is `(3/5, 0, 0, 0)`, not the
unit quaternion `Normalize q1 = (1, 0, 0, 0)`. -/
theorem SLerp_start_not_normalized :
    SLerp Real.sqrt Real.arccos Real.sin (1 / 1000000) (Real.pi / 180)
        (⟨3, 0, 0, 0⟩ : Quaternion ℝ) ⟨0, 0, 0, 4⟩ 0 = Except.ok ⟨3 / 5, 0, 0, 0⟩ ∧
      Normalize Real.sqrt (1 / 1000000) (⟨3, 0, 0, 0⟩ : Quaternion ℝ)
        = Except.ok ⟨1, 0, 0, 0⟩ := by
  have h9 : Real.sqrt 9 = 3 := by
    rw [show (9 : ℝ) = 3 ^ 2 by norm_num]
    exact Real.sqrt_sq (by norm_num)
  have hpi := Real.pi_gt_d2
  have hpos := Real.pi_pos
  constructor
  · have hg : ¬ |Real.pi / 2| < 1 / 1000000 := by
      rw [abs_of_pos (by positivity)]
      norm_num at hpi ⊢
      linarith
    have hth : ¬ Real.pi / 2 < 10 * (Real.pi / 180) := by
      rw [not_lt]
      linarith
    norm_num [SLerp, SLerpDivisor, Angle, sqrt_twenty_five, sqrt_sixteen, hg, hth, add, smul]
  · norm_num [Normalize, h9]

/-- Claim C9 against the code, at the unit quaternions `q1 = (0, 0, 0, 1)`, `q2 = (1, 0, 0, 0)`:
the divisor applied to `q1` is `sqrt (q1.x² + q1.y² + q1.z² + q2.w²) = 0`, not `|q1| = 1`;
`Normalize` accepts both inputs, and `SLerp` throws at the guard on that divisor. -/
theorem SLerp_divisor_from_q2 :
    SLerpDivisor Real.sqrt (⟨0, 0, 0, 1⟩ : Quaternion ℝ) ⟨1, 0, 0, 0⟩ = 0 ∧
      Normalize Real.sqrt (1 / 1000000) (⟨0, 0, 0, 1⟩ : Quaternion ℝ) = Except.ok ⟨0, 0, 0, 1⟩ ∧
      Normalize Real.sqrt (1 / 1000000) (⟨1, 0, 0, 0⟩ : Quaternion ℝ) = Except.ok ⟨1, 0, 0, 0⟩ ∧
      SLerp Real.sqrt Real.arccos Real.sin (1 / 1000000) (Real.pi / 180)
        (⟨0, 0, 0, 1⟩ : Quaternion ℝ) ⟨1, 0, 0, 0⟩ (1 / 2) = Except.error divNearlyZero := by
  refine ⟨?_, ?_, ?_, ?_⟩
  · norm_num [SLerpDivisor]
  · norm_num [Normalize]
  · norm_num [Normalize]
  · norm_num [SLerp, SLerpDivisor]

/-- General form: the divisor applied to `q1` is read off `q2.w`, whatever `q1.w` is. -/
theorem SLerpDivisor_indep_w (q1 q2 : Quaternion ℝ) (w : ℝ) :
    SLerpDivisor Real.sqrt ⟨q1.x, q1.y, q1.z, w⟩ q2 = SLerpDivisor Real.sqrt q1 q2 := rfl

end Quaternion

end Kobe

/-! ## Matrix4: the view matrix -/

namespace Kobe

namespace Matrix4

/-- Claim C10 against the code, at `eye = (5, 0, 0)`, `at = (0, 0, 0)`, `up = (0, 1, 0)`: the
matrix `LookAt` returns stores `side`, `up`, `-forward` in elements `0..2`, `4..6`, `8..10`,
and as a column-major matrix it sends `(eye, 1)` to `(0, 0, -10, 1)`, not to the origin. -/
theorem LookAt_eye_not_origin :
    LookAt Real.sqrt (1 / 1000000) (⟨5, 0, 0⟩ : Vector3 ℝ) ⟨0, 0, 0⟩ ⟨0, 1, 0⟩
        = Except.ok ⟨0, 0, -1, 0, 0, 1, 0, 0, 1, 0, 0, 0, 0, 0, -5, 1⟩ ∧
      mulVec (⟨0, 0, -1, 0, 0, 1, 0, 0, 1, 0, 0, 0, 0, 0, -5, 1⟩ : Matrix4 ℝ) ⟨5, 0, 0, 1⟩
        = ⟨0, 0, -10, 1⟩ := by
  constructor
  · have h1 : Vector3.normalize Real.sqrt (1 / 1000000)
        (Vector3.sub (⟨0, 0, 0⟩ : Vector3 ℝ) ⟨5, 0, 0⟩) = Except.ok ⟨-1, 0, 0⟩ := by
      norm_num [Vector3.normalize, Vector3.sub, Quaternion.sqrt_twenty_five]
    have h2 : Vector3.normalize Real.sqrt (1 / 1000000) (⟨0, 1, 0⟩ : Vector3 ℝ)
        = Except.ok ⟨0, 1, 0⟩ := by
      norm_num [Vector3.normalize]
    have h3 : Vector3.normalize Real.sqrt (1 / 1000000)
        (Vector3.Cross (⟨-1, 0, 0⟩ : Vector3 ℝ) ⟨0, 1, 0⟩) = Except.ok ⟨0, 0, -1⟩ := by
      norm_num [Vector3.normalize, Vector3.Cross]
    simp only [LookAt, h1, h2, h3]
    norm_num [Vector3.Cross, Vector3.Dot]
  · norm_num [mulVec]

end Matrix4

end Kobe

/-! ## Matrix4: elements of the view matrix, rotation about an axis -/

namespace Kobe

namespace Vector3

theorem normalize_of_magnitude (VERY_SMALL : ℝ) (v : Vector3 ℝ)
    (h : VERY_SMALL ≤ magnitude Real.sqrt v) :
    normalize Real.sqrt VERY_SMALL v = Except.ok
      ⟨v.x / magnitude Real.sqrt v, v.y / magnitude Real.sqrt v, v.z / magnitude Real.sqrt v⟩ := by
  unfold magnitude at h ⊢
  unfold normalize
  simp only [abs_of_nonneg (Real.sqrt_nonneg _), not_lt.mpr h, if_false]

theorem normalize_of_small (VERY_SMALL : ℝ) (v : Vector3 ℝ)
    (h : magnitude Real.sqrt v < VERY_SMALL) :
    normalize Real.sqrt VERY_SMALL v = Except.error divNearlyZero := by
  unfold magnitude at h
  unfold normalize
  simp only [abs_of_nonneg (Real.sqrt_nonneg _), h, if_true]

end Vector3

namespace Matrix4

/-- The matrix `LookAt` assembles once its three normalisations have passed their guards. -/
theorem LookAt_of_normalize (VERY_SMALL : ℝ) (eye at_ up forward up1 side : Vector3 ℝ)
    (hf : Vector3.normalize Real.sqrt VERY_SMALL (Vector3.sub at_ eye) = Except.ok forward)
    (hu : Vector3.normalize Real.sqrt VERY_SMALL up = Except.ok up1)
    (hs : Vector3.normalize Real.sqrt VERY_SMALL (Vector3.Cross forward up1) = Except.ok side) :
    LookAt Real.sqrt VERY_SMALL eye at_ up = Except.ok
      ⟨side.x, side.y, side.z, 0,
       (Vector3.Cross side forward).x, (Vector3.Cross side forward).y,
       (Vector3.Cross side forward).z, 0,
       -forward.x, -forward.y, -forward.z, 0,
       -Vector3.Dot side eye, -Vector3.Dot (Vector3.Cross side forward) eye,
       Vector3.Dot forward eye, 1⟩ := by
  simp only [LookAt, hf, hu, hs]

/-- Claim C11 fails as stated: for `eye = (0, 0, 0)`, `at = (1/1000000000, 0, 0)`,
`up = (0, 1, 0)`, where `at ≠ eye` and `up` is not parallel to `at - eye`, `LookAt` returns no
matrix: `normalize (at - eye)` throws at its guard. -/
theorem LookAt_tiny_counterexample :
    (⟨1 / 1000000000, 0, 0⟩ : Vector3 ℝ) ≠ ⟨0, 0, 0⟩ ∧
      Vector3.Cross (Vector3.sub (⟨1 / 1000000000, 0, 0⟩ : Vector3 ℝ) ⟨0, 0, 0⟩) ⟨0, 1, 0⟩
        ≠ ⟨0, 0, 0⟩ ∧
      LookAt Real.sqrt (1 / 1000000) (⟨0, 0, 0⟩ : Vector3 ℝ) ⟨1 / 1000000000, 0, 0⟩ ⟨0, 1, 0⟩
        = Except.error divNearlyZero := by
  refine ⟨?_, ?_, ?_⟩
  · intro h
    have := congrArg Vector3.x h
    norm_num at this
  · intro h
    have := congrArg Vector3.z h
    norm_num [Vector3.Cross, Vector3.sub] at this
  · have hs : Real.sqrt ((1 / 1000000000 - 0 : ℝ) ^ 2 + (0 - 0) ^ 2 + (0 - 0) ^ 2)
        = 1 / 1000000000 := by
      rw [show (1 / 1000000000 - 0 : ℝ) ^ 2 + (0 - 0) ^ 2 + (0 - 0) ^ 2 = (1 / 1000000000) ^ 2 by
        norm_num]
      exact Real.sqrt_sq (by norm_num)
    have h1 : Vector3.normalize Real.sqrt (1 / 1000000)
        (Vector3.sub (⟨1 / 1000000000, 0, 0⟩ : Vector3 ℝ) ⟨0, 0, 0⟩)
        = Except.error divNearlyZero := by
      simp only [Vector3.normalize, Vector3.sub, hs]
      rw [if_pos]
      rw [abs_of_pos (by norm_num)]
      norm_num
    simp only [LookAt, h1]

/-- Claim C11, amended: whenever the three normalisations of `LookAt` pass their guards, with
`forward = normalize (at - eye)`, `LookAt` returns a matrix whose elements 8, 9, 10 are
`-forward`. -/
theorem LookAt_forward_elements (VERY_SMALL : ℝ) (eye at_ up forward up1 side : Vector3 ℝ)
    (hf : Vector3.normalize Real.sqrt VERY_SMALL (Vector3.sub at_ eye) = Except.ok forward)
    (hu : Vector3.normalize Real.sqrt VERY_SMALL up = Except.ok up1)
    (hs : Vector3.normalize Real.sqrt VERY_SMALL (Vector3.Cross forward up1) = Except.ok side) :
    ∃ M, LookAt Real.sqrt VERY_SMALL eye at_ up = Except.ok M ∧
      M.m8 = -forward.x ∧ M.m9 = -forward.y ∧ M.m10 = -forward.z :=
  ⟨_, LookAt_of_normalize VERY_SMALL eye at_ up forward up1 side hf hu hs, rfl, rfl, rfl⟩

/-- Claim C11, amended, at `eye = (0, 0, 5)`, `at = (0, 0, 0)`, `up = (0, 1, 0)`: the forward
vector is `(0, 0, -1)` and elements 8, 9, 10 are `(0, 0, 1)`. -/
theorem LookAt_forward_elements_witness :
    Vector3.normalize Real.sqrt (1 / 1000000)
        (Vector3.sub (⟨0, 0, 0⟩ : Vector3 ℝ) ⟨0, 0, 5⟩) = Except.ok ⟨0, 0, -1⟩ ∧
      ∃ M, LookAt Real.sqrt (1 / 1000000) (⟨0, 0, 5⟩ : Vector3 ℝ) ⟨0, 0, 0⟩ ⟨0, 1, 0⟩
          = Except.ok M ∧ M.m8 = 0 ∧ M.m9 = 0 ∧ M.m10 = 1 := by
  have h1 : Vector3.normalize Real.sqrt (1 / 1000000)
      (Vector3.sub (⟨0, 0, 0⟩ : Vector3 ℝ) ⟨0, 0, 5⟩) = Except.ok ⟨0, 0, -1⟩ := by
    norm_num [Vector3.normalize, Vector3.sub, Quaternion.sqrt_twenty_five]
  have h2 : Vector3.normalize Real.sqrt (1 / 1000000) (⟨0, 1, 0⟩ : Vector3 ℝ)
      = Except.ok ⟨0, 1, 0⟩ := by
    norm_num [Vector3.normalize]
  have h3 : Vector3.normalize Real.sqrt (1 / 1000000)
      (Vector3.Cross (⟨0, 0, -1⟩ : Vector3 ℝ) ⟨0, 1, 0⟩) = Except.ok ⟨1, 0, 0⟩ := by
    norm_num [Vector3.normalize, Vector3.Cross]
  obtain ⟨M, hM, h8, h9, h10⟩ := LookAt_forward_elements (1 / 1000000) ⟨0, 0, 5⟩ ⟨0, 0, 0⟩
    ⟨0, 1, 0⟩ ⟨0, 0, -1⟩ ⟨0, 1, 0⟩ ⟨1, 0, 0⟩ h1 h2 h3
  exact ⟨h1, M, hM, by rw [h8]; norm_num, by rw [h9]; norm_num, by rw [h10]; norm_num⟩

/-- The matrix `Rotate` assembles from the normalised axis `n` and the angle in radians. -/
theorem Rotate_of_normalize (VERY_SMALL degrees : ℝ) (axis n : Vector3 ℝ)
    (hn : Vector3.normalize Real.sqrt VERY_SMALL axis = Except.ok n) :
    RotateAxis Real.sqrt Real.cos Real.sin VERY_SMALL (Real.pi / 180) degrees axis = Except.ok
      ⟨n.x * n.x * (1 - Real.cos (degrees * (Real.pi / 180)))
         + Real.cos (degrees * (Real.pi / 180)),
       n.x * n.y * (1 - Real.cos (degrees * (Real.pi / 180)))
         + n.z * Real.sin (degrees * (Real.pi / 180)),
       n.x * n.z * (1 - Real.cos (degrees * (Real.pi / 180)))
         - n.y * Real.sin (degrees * (Real.pi / 180)),
       0,
       n.y * n.x * (1 - Real.cos (degrees * (Real.pi / 180)))
         - n.z * Real.sin (degrees * (Real.pi / 180)),
       n.y * n.y * (1 - Real.cos (degrees * (Real.pi / 180)))
         + Real.cos (degrees * (Real.pi / 180)),
       n.y * n.z * (1 - Real.cos (degrees * (Real.pi / 180)))
         + n.x * Real.sin (degrees * (Real.pi / 180)),
       0,
       n.z * n.x * (1 - Real.cos (degrees * (Real.pi / 180)))
         + n.y * Real.sin (degrees * (Real.pi / 180)),
       n.z * n.y * (1 - Real.cos (degrees * (Real.pi / 180)))
         - n.x * Real.sin (degrees * (Real.pi / 180)),
       n.z * n.z * (1 - Real.cos (degrees * (Real.pi / 180)))
         + Real.cos (degrees * (Real.pi / 180)),
       0,
       0, 0, 0, 1⟩ := by
  have hn2 : Vector3.normalize Real.sqrt VERY_SMALL ⟨axis.x, axis.y, axis.z⟩ = Except.ok n := hn
  simp only [RotateAxis, Rotate, hn2]

/-- Claim C12: for an axis of magnitude at least `VERY_SMALL`, with `n = normalize axis` and
`θ = degrees * π / 180`, `Rotate (degrees, axis)` returns a matrix whose upper-left 3x3 block
sends a column vector `v` to `v cos θ + Cross (n, v) sin θ + n Dot (n, v) (1 - cos θ)`, and
whose row 3 and column 3 are those of the identity. -/
theorem RotateAxis_rodrigues (VERY_SMALL degrees : ℝ) (axis v : Vector3 ℝ)
    (h : VERY_SMALL ≤ Vector3.magnitude Real.sqrt axis) :
    ∃ n M, Vector3.normalize Real.sqrt VERY_SMALL axis = Except.ok n ∧
      RotateAxis Real.sqrt Real.cos Real.sin VERY_SMALL (Real.pi / 180) degrees axis
        = Except.ok M ∧
      mulVec3 M v = Vector3.add
        (Vector3.add (Vector3.smul (Real.cos (degrees * (Real.pi / 180))) v)
          (Vector3.smul (Real.sin (degrees * (Real.pi / 180))) (Vector3.Cross n v)))
        (Vector3.smul (Vector3.Dot n v * (1 - Real.cos (degrees * (Real.pi / 180)))) n) ∧
      M.m3 = 0 ∧ M.m7 = 0 ∧ M.m11 = 0 ∧ M.m12 = 0 ∧ M.m13 = 0 ∧ M.m14 = 0 ∧ M.m15 = 1 := by
  have hn := Vector3.normalize_of_magnitude VERY_SMALL axis h
  refine ⟨_, _, hn, Rotate_of_normalize VERY_SMALL degrees axis _ hn, ?_,
    rfl, rfl, rfl, rfl, rfl, rfl, rfl⟩
  ext <;> simp only [mulVec3, Vector3.add, Vector3.smul, Vector3.Cross, Vector3.Dot] <;> ring

/-- Claim C12 at the axis `(0, 0, 2)`, 90 degrees, and the vector `(1, 0, 0)`. -/
theorem RotateAxis_rodrigues_witness :
    ∃ n M, Vector3.normalize Real.sqrt (1 / 1000000) (⟨0, 0, 2⟩ : Vector3 ℝ) = Except.ok n ∧
      RotateAxis Real.sqrt Real.cos Real.sin (1 / 1000000) (Real.pi / 180) 90 ⟨0, 0, 2⟩
        = Except.ok M ∧
      mulVec3 M ⟨1, 0, 0⟩ = Vector3.add
        (Vector3.add (Vector3.smul (Real.cos (90 * (Real.pi / 180))) ⟨1, 0, 0⟩)
          (Vector3.smul (Real.sin (90 * (Real.pi / 180))) (Vector3.Cross n ⟨1, 0, 0⟩)))
        (Vector3.smul (Vector3.Dot n ⟨1, 0, 0⟩ * (1 - Real.cos (90 * (Real.pi / 180)))) n) ∧
      M.m3 = 0 ∧ M.m7 = 0 ∧ M.m11 = 0 ∧ M.m12 = 0 ∧ M.m13 = 0 ∧ M.m14 = 0 ∧ M.m15 = 1 :=
  RotateAxis_rodrigues (1 / 1000000) 90 ⟨0, 0, 2⟩ ⟨1, 0, 0⟩
    (by
      unfold Vector3.magnitude
      exact Real.le_sqrt_of_sq_le (by norm_num))

end Matrix4

end Kobe

/-! ## Quaternion: the inverse, conversion to Euler angles -/

namespace Kobe

namespace Quaternion

theorem Inverse_of_magnitude (VERY_SMALL : ℝ) (q : Quaternion ℝ)
    (h : VERY_SMALL ≤ Real.sqrt (q.x ^ 2 + q.y ^ 2 + q.z ^ 2 + q.w ^ 2)) :
    Inverse Real.sqrt VERY_SMALL q = Except.ok
      ⟨-q.x / Real.sqrt (q.x ^ 2 + q.y ^ 2 + q.z ^ 2 + q.w ^ 2),
       -q.y / Real.sqrt (q.x ^ 2 + q.y ^ 2 + q.z ^ 2 + q.w ^ 2),
       -q.z / Real.sqrt (q.x ^ 2 + q.y ^ 2 + q.z ^ 2 + q.w ^ 2),
       q.w / Real.sqrt (q.x ^ 2 + q.y ^ 2 + q.z ^ 2 + q.w ^ 2)⟩ := by
  unfold Inverse
  simp only [neg_sq, abs_of_nonneg (Real.sqrt_nonneg _), not_lt.mpr h, if_false]

/-- The Hamilton product of `q` and its conjugate divided by `m`, where `m * m` is the sum of
the squared components of `q`. -/
theorem mul_conj_div (q : Quaternion ℝ) (m : ℝ) (hm : m ≠ 0)
    (hsq : m * m = q.x ^ 2 + q.y ^ 2 + q.z ^ 2 + q.w ^ 2) :
    mul q ⟨-q.x / m, -q.y / m, -q.z / m, q.w / m⟩ = ⟨0, 0, 0, m⟩ := by
  ext
  · simp only [mul]; field_simp; ring
  · simp only [mul]; field_simp; ring
  · simp only [mul]; field_simp; ring
  · simp only [mul]
    field_simp
    linear_combination -hsq

/-- Claim C13 fails as stated: for `q = (0, 0, 0, 2)`, `Inverse q` is `(0, 0, 0, 1)` and
`q * Inverse q` is `(0, 0, 0, 2)`, not the identity quaternion. -/
theorem mul_Inverse_counterexample :
    ∃ r, Inverse Real.sqrt (1 / 1000000) (⟨0, 0, 0, 2⟩ : Quaternion ℝ) = Except.ok r ∧
      mul ⟨0, 0, 0, 2⟩ r = ⟨0, 0, 0, 2⟩ ∧ mul ⟨0, 0, 0, 2⟩ r ≠ ⟨0, 0, 0, 1⟩ := by
  have h4 : Real.sqrt ((0 : ℝ) ^ 2 + 0 ^ 2 + 0 ^ 2 + 2 ^ 2) = 2 := by
    rw [show (0 : ℝ) ^ 2 + 0 ^ 2 + 0 ^ 2 + 2 ^ 2 = 2 ^ 2 by norm_num]
    exact Real.sqrt_sq (by norm_num)
  have hI := Inverse_of_magnitude (1 / 1000000) (⟨0, 0, 0, 2⟩ : Quaternion ℝ)
    (by rw [h4]; norm_num)
  simp only [h4] at hI
  refine ⟨_, hI, ?_, ?_⟩
  · ext <;> norm_num [mul]
  · intro h
    have := congrArg Quaternion.w h
    norm_num [mul] at this

/-- Claim C13, amended: for a positive threshold and `q` of magnitude at least `VERY_SMALL`,
`Inverse q` is the conjugate divided by the magnitude, so `q * Inverse q = (0, 0, 0, |q|)`; it
is the identity quaternion `(0, 0, 0, 1)` when `q` is a unit quaternion. -/
theorem mul_Inverse (VERY_SMALL : ℝ) (q : Quaternion ℝ) (hpos : 0 < VERY_SMALL)
    (h : VERY_SMALL ≤ Real.sqrt (q.x ^ 2 + q.y ^ 2 + q.z ^ 2 + q.w ^ 2)) :
    ∃ r, Inverse Real.sqrt VERY_SMALL q = Except.ok r ∧
      mul q r = ⟨0, 0, 0, Real.sqrt (q.x ^ 2 + q.y ^ 2 + q.z ^ 2 + q.w ^ 2)⟩ ∧
      (q.x ^ 2 + q.y ^ 2 + q.z ^ 2 + q.w ^ 2 = 1 → mul q r = ⟨0, 0, 0, 1⟩) := by
  have hne : Real.sqrt (q.x ^ 2 + q.y ^ 2 + q.z ^ 2 + q.w ^ 2) ≠ 0 :=
    ne_of_gt (lt_of_lt_of_le hpos h)
  have hmul := mul_conj_div q _ hne (Real.mul_self_sqrt (by positivity))
  refine ⟨_, Inverse_of_magnitude VERY_SMALL q h, hmul, fun h1 => ?_⟩
  rw [hmul, h1, Real.sqrt_one]

/-- Claim C13, amended, at `q = (0, 3, 0, 4)`, of magnitude 5: `q * Inverse q = (0, 0, 0, 5)`. -/
theorem mul_Inverse_witness :
    ∃ r, Inverse Real.sqrt (1 / 1000000) (⟨0, 3, 0, 4⟩ : Quaternion ℝ) = Except.ok r ∧
      mul ⟨0, 3, 0, 4⟩ r = ⟨0, 0, 0, 5⟩ := by
  have h25 : Real.sqrt ((0 : ℝ) ^ 2 + 3 ^ 2 + 0 ^ 2 + 4 ^ 2) = 5 := by
    rw [show (0 : ℝ) ^ 2 + 3 ^ 2 + 0 ^ 2 + 4 ^ 2 = 5 ^ 2 by norm_num]
    exact Real.sqrt_sq (by norm_num)
  obtain ⟨r, hr, hm, _⟩ := mul_Inverse (1 / 1000000) ⟨0, 3, 0, 4⟩ (by norm_num)
    (by rw [h25]; norm_num)
  exact ⟨r, hr, by rw [hm, h25]⟩

/-- Claim C14: with `testCase = q.x * q.y + q.z * q.w` and `sum` the sum of the squared
components, `QuaternionToEuler q` has roll `+90` and pitch `0` when `testCase > 0.499 * sum`,
roll `-90` and pitch `0` when `testCase < -0.499 * sum`, and roll
`asin (2 * testCase / sum)` in degrees in every other case, that is when
`|testCase| > 0.499 * sum` does not hold. Pitch is the member `x`, roll the member `z`. -/
theorem QuaternionToEuler_gimbal (atan2 : ℝ → ℝ → ℝ) (q : Quaternion ℝ) :
    (q.x * q.y + q.z * q.w > 499 / 1000 * (q.x * q.x + q.y * q.y + q.z * q.z + q.w * q.w) →
      (QuaternionToEuler atan2 Real.arcsin Real.pi (180 / Real.pi) q).z = 90 ∧
      (QuaternionToEuler atan2 Real.arcsin Real.pi (180 / Real.pi) q).x = 0) ∧
    (q.x * q.y + q.z * q.w < -(499 / 1000) * (q.x * q.x + q.y * q.y + q.z * q.z + q.w * q.w) →
      (QuaternionToEuler atan2 Real.arcsin Real.pi (180 / Real.pi) q).z = -90 ∧
      (QuaternionToEuler atan2 Real.arcsin Real.pi (180 / Real.pi) q).x = 0) ∧
    (¬(|q.x * q.y + q.z * q.w|
        > 499 / 1000 * (q.x * q.x + q.y * q.y + q.z * q.z + q.w * q.w)) →
      (QuaternionToEuler atan2 Real.arcsin Real.pi (180 / Real.pi) q).z
        = Real.arcsin (2 * (q.x * q.y + q.z * q.w)
            / (q.x * q.x + q.y * q.y + q.z * q.z + q.w * q.w)) * (180 / Real.pi)) := by
  have hpi : Real.pi ≠ 0 := Real.pi_ne_zero
  have hsum : 0 ≤ q.x * q.x + q.y * q.y + q.z * q.z + q.w * q.w := by
    nlinarith [mul_self_nonneg q.x, mul_self_nonneg q.y, mul_self_nonneg q.z,
      mul_self_nonneg q.w]
  refine ⟨fun h => ?_, fun h => ?_, fun h => ?_⟩
  · simp only [QuaternionToEuler, if_pos h]
    constructor
    · field_simp
      ring
    · simp
  · have h1 : ¬(q.x * q.y + q.z * q.w
        > 499 / 1000 * (q.x * q.x + q.y * q.y + q.z * q.z + q.w * q.w)) := by
      rw [not_lt]
      linarith
    simp only [QuaternionToEuler, if_neg h1, if_pos h]
    constructor
    · field_simp
      ring
    · simp
  · rw [gt_iff_lt, lt_abs, not_or] at h
    have h1 : ¬(q.x * q.y + q.z * q.w
        > 499 / 1000 * (q.x * q.x + q.y * q.y + q.z * q.z + q.w * q.w)) := h.1
    have h2 : ¬(q.x * q.y + q.z * q.w
        < -(499 / 1000) * (q.x * q.x + q.y * q.y + q.z * q.z + q.w * q.w)) := by
      intro hc
      apply h.2
      linarith
    simp only [QuaternionToEuler, if_neg h1, if_neg h2]

/-- Claim C14 at `q = (1, 1, 0, 0)`, where `testCase = 1 > 0.499 * 2`: roll 90, pitch 0. -/
theorem QuaternionToEuler_gimbal_witness :
    (QuaternionToEuler (fun _ _ => 0) Real.arcsin Real.pi (180 / Real.pi)
        (⟨1, 1, 0, 0⟩ : Quaternion ℝ)).z = 90 ∧
      (QuaternionToEuler (fun _ _ => 0) Real.arcsin Real.pi (180 / Real.pi)
        (⟨1, 1, 0, 0⟩ : Quaternion ℝ)).x = 0 :=
  (QuaternionToEuler_gimbal (fun _ _ => 0) ⟨1, 1, 0, 0⟩).1 (by norm_num)

end Quaternion

end Kobe

/-! ## Vectors: projection, reflection, linear interpolation, normalisation, dot product -/

namespace Kobe

theorem Vector2.magnitude2_sq (v : Vector2 ℝ) :
    Vector2.magnitude Real.sqrt v ^ 2 = v.x ^ 2 + v.y ^ 2 :=
  Real.sq_sqrt (by positivity)

theorem Vector3.magnitude3_sq (v : Vector3 ℝ) :
    Vector3.magnitude Real.sqrt v ^ 2 = v.x ^ 2 + v.y ^ 2 + v.z ^ 2 :=
  Real.sq_sqrt (by positivity)

theorem Vector4.magnitude4_sq (v : Vector4 ℝ) :
    Vector4.magnitude Real.sqrt v ^ 2 = v.x ^ 2 + v.y ^ 2 + v.z ^ 2 + v.w ^ 2 :=
  Real.sq_sqrt (by positivity)

/-- Claim C15: for `Vector2` and for `Vector3`, `Project (u, v)` returns
`v * (Dot (u, v) / |v|²)` when the magnitude of `v` is at least `VERY_SMALL`, and throws when
it is below. -/
theorem Project_spec (VERY_SMALL : ℝ) (u2 v2 : Vector2 ℝ) (u3 v3 : Vector3 ℝ) :
    (VERY_SMALL ≤ Vector2.magnitude Real.sqrt v2 →
      Vector2.Project Real.sqrt VERY_SMALL u2 v2 = Except.ok
        (Vector2.smul (Vector2.Dot u2 v2 / Vector2.magnitude Real.sqrt v2 ^ 2) v2)) ∧
    (Vector2.magnitude Real.sqrt v2 < VERY_SMALL →
      Vector2.Project Real.sqrt VERY_SMALL u2 v2 = Except.error divNearlyZero) ∧
    (VERY_SMALL ≤ Vector3.magnitude Real.sqrt v3 →
      Vector3.Project Real.sqrt VERY_SMALL u3 v3 = Except.ok
        (Vector3.smul (Vector3.Dot u3 v3 / Vector3.magnitude Real.sqrt v3 ^ 2) v3)) ∧
    (Vector3.magnitude Real.sqrt v3 < VERY_SMALL →
      Vector3.Project Real.sqrt VERY_SMALL u3 v3 = Except.error divNearlyZero) := by
  refine ⟨fun h => ?_, fun h => ?_, fun h => ?_, fun h => ?_⟩
  · unfold Vector2.magnitude at h
    simp only [Vector2.Project, Vector2.magnitude, abs_of_nonneg (Real.sqrt_nonneg _),
      not_lt.mpr h, if_false, ← pow_two]
  · unfold Vector2.magnitude at h
    simp only [Vector2.Project, abs_of_nonneg (Real.sqrt_nonneg _), h, if_true]
  · unfold Vector3.magnitude at h
    simp only [Vector3.Project, Vector3.magnitude, abs_of_nonneg (Real.sqrt_nonneg _),
      not_lt.mpr h, if_false, ← pow_two]
  · unfold Vector3.magnitude at h
    simp only [Vector3.Project, abs_of_nonneg (Real.sqrt_nonneg _), h, if_true]

/-- Claim C15 at `u = (1, 1, 0)`, `v = (2, 0, 0)`: the projection is `(1, 0, 0)`. -/
theorem Project_spec_witness :
    Vector3.Project Real.sqrt (1 / 1000000) (⟨1, 1, 0⟩ : Vector3 ℝ) ⟨2, 0, 0⟩
      = Except.ok ⟨1, 0, 0⟩ := by
  have h := (Project_spec (1 / 1000000) ⟨1, 1⟩ ⟨2, 0⟩ ⟨1, 1, 0⟩ ⟨2, 0, 0⟩).2.2.1
    (by unfold Vector3.magnitude; exact Real.le_sqrt_of_sq_le (by norm_num))
  rw [h, Vector3.magnitude3_sq]
  congr 1
  ext <;> norm_num [Vector3.smul, Vector3.Dot]

/-- Claim C16 against the code, at `u = (1, 0, 0, 0)`, `v = (2, 0, 0, 0)`: the `Vector4`
overload returns `normal * scalar = (1/2, 0, 0, 0)`, while `v * (Dot (u, v) / |v|²)` is
`(1, 0, 0, 0)`, which is also what the `Vector3` overload returns on `(1, 0, 0)`,
`(2, 0, 0)`. -/
theorem Project_not_projection :
    Vector4.Project Real.sqrt (1 / 1000000) (⟨1, 0, 0, 0⟩ : Vector4 ℝ) ⟨2, 0, 0, 0⟩
        = Except.ok ⟨1 / 2, 0, 0, 0⟩ ∧
      Vector4.smul (Vector4.Dot (⟨1, 0, 0, 0⟩ : Vector4 ℝ) ⟨2, 0, 0, 0⟩
          / Vector4.magnitude Real.sqrt ⟨2, 0, 0, 0⟩ ^ 2) ⟨2, 0, 0, 0⟩ = ⟨1, 0, 0, 0⟩ ∧
      Vector3.Project Real.sqrt (1 / 1000000) (⟨1, 0, 0⟩ : Vector3 ℝ) ⟨2, 0, 0⟩
        = Except.ok ⟨1, 0, 0⟩ := by
  have h4 : Real.sqrt ((2 : ℝ) ^ 2 + 0 ^ 2 + 0 ^ 2 + 0 ^ 2) = 2 := by
    rw [show (2 : ℝ) ^ 2 + 0 ^ 2 + 0 ^ 2 + 0 ^ 2 = 2 ^ 2 by norm_num]
    exact Real.sqrt_sq (by norm_num)
  have ha : ¬ |(2 : ℝ)| < 1 / 1000000 := by
    rw [abs_of_pos (by norm_num)]
    norm_num
  refine ⟨?_, ?_, ?_⟩
  · simp only [Vector4.Project, h4, if_neg ha]
    congr 1
    ext <;> norm_num [Vector4.smul, Vector4.Dot]
  · rw [Vector4.magnitude4_sq]
    ext <;> norm_num [Vector4.smul, Vector4.Dot]
  · simp only [Vector3.Project, Vector3.sqrt_four, if_neg ha]
    congr 1
    ext <;> norm_num [Vector3.smul, Vector3.Dot]

/-- In general the `Vector4` overload returns the projection of `u` onto `v` divided once more
by the magnitude of `v`. -/
theorem Vector4.Project_of_guard (VERY_SMALL : ℝ) (u v : Vector4 ℝ)
    (h : VERY_SMALL ≤ Vector4.magnitude Real.sqrt v) :
    Vector4.Project Real.sqrt VERY_SMALL u v = Except.ok
      (Vector4.smul (Vector4.Dot u v / Vector4.magnitude Real.sqrt v ^ 2
        / Vector4.magnitude Real.sqrt v) v) := by
  unfold Vector4.magnitude at h
  simp only [Vector4.Project, Vector4.magnitude, abs_of_nonneg (Real.sqrt_nonneg _),
    not_lt.mpr h, if_false]
  congr 1
  ext <;> simp only [Vector4.smul] <;> ring

/-- Claim C17 fails as stated: for the unit normal `n = (1, 0, 0)` and `v = (1, 1, 0)`,
`Reflect (v, n) = (1, -1, 0)`; its component along `n` is that of `v`, not the negated one,
and its component in the plane is not that of `v`. -/
theorem Reflect_counterexample :
    Vector3.Dot (⟨1, 0, 0⟩ : Vector3 ℚ) ⟨1, 0, 0⟩ = 1 ∧
      Vector3.Reflect (⟨1, 1, 0⟩ : Vector3 ℚ) ⟨1, 0, 0⟩ = ⟨1, -1, 0⟩ ∧
      Vector3.Dot (Vector3.Reflect (⟨1, 1, 0⟩ : Vector3 ℚ) ⟨1, 0, 0⟩) ⟨1, 0, 0⟩
        ≠ -Vector3.Dot (⟨1, 1, 0⟩ : Vector3 ℚ) ⟨1, 0, 0⟩ ∧
      Vector3.sub (Vector3.Reflect (⟨1, 1, 0⟩ : Vector3 ℚ) ⟨1, 0, 0⟩)
          (Vector3.smul
            (Vector3.Dot (Vector3.Reflect (⟨1, 1, 0⟩ : Vector3 ℚ) ⟨1, 0, 0⟩) ⟨1, 0, 0⟩)
            ⟨1, 0, 0⟩)
        ≠ Vector3.sub (⟨1, 1, 0⟩ : Vector3 ℚ)
          (Vector3.smul (Vector3.Dot (⟨1, 1, 0⟩ : Vector3 ℚ) ⟨1, 0, 0⟩) ⟨1, 0, 0⟩) := by
  refine ⟨by norm_num [Vector3.Dot], ?_, ?_, ?_⟩
  · ext <;> norm_num [Vector3.Reflect, Vector3.Dot, Vector3.smul, Vector3.sub]
  · norm_num [Vector3.Reflect, Vector3.Dot, Vector3.smul, Vector3.sub]
  · intro h
    have := congrArg Vector3.y h
    norm_num [Vector3.Reflect, Vector3.Dot, Vector3.smul, Vector3.sub] at this

/-- Claim C17, amended: for `Vector3` and `Vector2` and a unit `n`, `Reflect (v, n)` keeps the
component of `v` along `n` and negates the component lying in the plane of normal `n`. -/
theorem Reflect_about_normal {F : Type} [CommRing F] (v3 n3 : Vector3 F) (v2 n2 : Vector2 F)
    (h3 : Vector3.Dot n3 n3 = 1) (h2 : Vector2.Dot n2 n2 = 1) :
    Vector3.Dot (Vector3.Reflect v3 n3) n3 = Vector3.Dot v3 n3 ∧
      Vector3.sub (Vector3.Reflect v3 n3)
          (Vector3.smul (Vector3.Dot (Vector3.Reflect v3 n3) n3) n3)
        = Vector3.smul (-1) (Vector3.sub v3 (Vector3.smul (Vector3.Dot v3 n3) n3)) ∧
      Vector2.Dot (Vector2.Reflect v2 n2) n2 = Vector2.Dot v2 n2 ∧
      Vector2.sub (Vector2.Reflect v2 n2)
          (Vector2.smul (Vector2.Dot (Vector2.Reflect v2 n2) n2) n2)
        = Vector2.smul (-1) (Vector2.sub v2 (Vector2.smul (Vector2.Dot v2 n2) n2)) := by
  have e3 : Vector3.Dot (Vector3.Reflect v3 n3) n3 = Vector3.Dot v3 n3 := by
    simp only [Vector3.Dot] at h3
    simp only [Vector3.Reflect, Vector3.Dot, Vector3.smul, Vector3.sub]
    linear_combination (2 * (v3.x * n3.x + v3.y * n3.y + v3.z * n3.z)) * h3
  have e2 : Vector2.Dot (Vector2.Reflect v2 n2) n2 = Vector2.Dot v2 n2 := by
    simp only [Vector2.Dot] at h2
    simp only [Vector2.Reflect, Vector2.Dot, Vector2.smul, Vector2.sub]
    linear_combination (2 * (v2.x * n2.x + v2.y * n2.y)) * h2
  refine ⟨e3, ?_, e2, ?_⟩
  · rw [e3]
    ext <;> simp only [Vector3.Reflect, Vector3.Dot, Vector3.smul, Vector3.sub] <;> ring
  · rw [e2]
    ext <;> simp only [Vector2.Reflect, Vector2.Dot, Vector2.smul, Vector2.sub] <;> ring

/-- Claim C17, amended, at `v = (1, 2, 3)`, `n = (3/5, 0, 4/5)` and at `v = (1, 2)`,
`n = (3/5, 4/5)`. -/
theorem Reflect_about_normal_witness :
    Vector3.Dot (Vector3.Reflect (⟨1, 2, 3⟩ : Vector3 ℚ) ⟨3 / 5, 0, 4 / 5⟩) ⟨3 / 5, 0, 4 / 5⟩
        = Vector3.Dot (⟨1, 2, 3⟩ : Vector3 ℚ) ⟨3 / 5, 0, 4 / 5⟩ ∧
      Vector3.sub (Vector3.Reflect (⟨1, 2, 3⟩ : Vector3 ℚ) ⟨3 / 5, 0, 4 / 5⟩)
          (Vector3.smul
            (Vector3.Dot (Vector3.Reflect (⟨1, 2, 3⟩ : Vector3 ℚ) ⟨3 / 5, 0, 4 / 5⟩)
              ⟨3 / 5, 0, 4 / 5⟩) ⟨3 / 5, 0, 4 / 5⟩)
        = Vector3.smul (-1) (Vector3.sub (⟨1, 2, 3⟩ : Vector3 ℚ)
            (Vector3.smul (Vector3.Dot (⟨1, 2, 3⟩ : Vector3 ℚ) ⟨3 / 5, 0, 4 / 5⟩)
              ⟨3 / 5, 0, 4 / 5⟩)) ∧
      Vector2.Dot (Vector2.Reflect (⟨1, 2⟩ : Vector2 ℚ) ⟨3 / 5, 4 / 5⟩) ⟨3 / 5, 4 / 5⟩
        = Vector2.Dot (⟨1, 2⟩ : Vector2 ℚ) ⟨3 / 5, 4 / 5⟩ ∧
      Vector2.sub (Vector2.Reflect (⟨1, 2⟩ : Vector2 ℚ) ⟨3 / 5, 4 / 5⟩)
          (Vector2.smul
            (Vector2.Dot (Vector2.Reflect (⟨1, 2⟩ : Vector2 ℚ) ⟨3 / 5, 4 / 5⟩) ⟨3 / 5, 4 / 5⟩)
            ⟨3 / 5, 4 / 5⟩)
        = Vector2.smul (-1) (Vector2.sub (⟨1, 2⟩ : Vector2 ℚ)
            (Vector2.smul (Vector2.Dot (⟨1, 2⟩ : Vector2 ℚ) ⟨3 / 5, 4 / 5⟩) ⟨3 / 5, 4 / 5⟩)) :=
  Reflect_about_normal ⟨1, 2, 3⟩ ⟨3 / 5, 0, 4 / 5⟩ ⟨1, 2⟩ ⟨3 / 5, 4 / 5⟩
    (by norm_num [Vector3.Dot]) (by norm_num [Vector2.Dot])

/-- Claim C18: for `Vector2`, `Vector3` and `Vector4`, `Lerp (a, b, t)` is `a + t * (b - a)`
component by component; at `t = 0` it is `a`, at `t = 1` it is `b`, at `t = 1/2` the
midpoint `(a + b) / 2`. -/
theorem Lerp_spec {F : Type} [LinearOrderedField F] (a2 b2 : Vector2 F) (a3 b3 : Vector3 F)
    (a4 b4 : Vector4 F) (t : F) :
    (Vector2.Lerp a2 b2 t = ⟨a2.x + t * (b2.x - a2.x), a2.y + t * (b2.y - a2.y)⟩ ∧
      Vector2.Lerp a2 b2 0 = a2 ∧ Vector2.Lerp a2 b2 1 = b2 ∧
      Vector2.Lerp a2 b2 (1 / 2) = ⟨(a2.x + b2.x) / 2, (a2.y + b2.y) / 2⟩) ∧
    (Vector3.Lerp a3 b3 t
        = ⟨a3.x + t * (b3.x - a3.x), a3.y + t * (b3.y - a3.y), a3.z + t * (b3.z - a3.z)⟩ ∧
      Vector3.Lerp a3 b3 0 = a3 ∧ Vector3.Lerp a3 b3 1 = b3 ∧
      Vector3.Lerp a3 b3 (1 / 2)
        = ⟨(a3.x + b3.x) / 2, (a3.y + b3.y) / 2, (a3.z + b3.z) / 2⟩) ∧
    (Vector4.Lerp a4 b4 t
        = ⟨a4.x + t * (b4.x - a4.x), a4.y + t * (b4.y - a4.y), a4.z + t * (b4.z - a4.z),
           a4.w + t * (b4.w - a4.w)⟩ ∧
      Vector4.Lerp a4 b4 0 = a4 ∧ Vector4.Lerp a4 b4 1 = b4 ∧
      Vector4.Lerp a4 b4 (1 / 2)
        = ⟨(a4.x + b4.x) / 2, (a4.y + b4.y) / 2, (a4.z + b4.z) / 2, (a4.w + b4.w) / 2⟩) := by
  refine ⟨⟨rfl, ?_, ?_, ?_⟩, ⟨rfl, ?_, ?_, ?_⟩, ⟨rfl, ?_, ?_, ?_⟩⟩
  · ext <;> simp [Vector2.Lerp, Vector2.add, Vector2.smul, Vector2.sub]
  · ext <;> simp [Vector2.Lerp, Vector2.add, Vector2.smul, Vector2.sub]
  · ext <;> simp only [Vector2.Lerp, Vector2.add, Vector2.smul, Vector2.sub] <;> ring
  · ext <;> simp [Vector3.Lerp, Vector3.add, Vector3.smul, Vector3.sub]
  · ext <;> simp [Vector3.Lerp, Vector3.add, Vector3.smul, Vector3.sub]
  · ext <;> simp only [Vector3.Lerp, Vector3.add, Vector3.smul, Vector3.sub] <;> ring
  · ext <;> simp [Vector4.Lerp, Vector4.add, Vector4.smul, Vector4.sub]
  · ext <;> simp [Vector4.Lerp, Vector4.add, Vector4.smul, Vector4.sub]
  · ext <;> simp only [Vector4.Lerp, Vector4.add, Vector4.smul, Vector4.sub] <;> ring

/-- Claim C19: for a positive threshold, `normalize v` returns, when the magnitude of `v` is
at least `VERY_SMALL`, a vector of magnitude exactly 1 that is a positive multiple of `v`,
and throws when the magnitude of `v` is below `VERY_SMALL`. -/
theorem normalize_spec (VERY_SMALL : ℝ) (v : Vector3 ℝ) (hpos : 0 < VERY_SMALL) :
    (VERY_SMALL ≤ Vector3.magnitude Real.sqrt v →
      ∃ n, Vector3.normalize Real.sqrt VERY_SMALL v = Except.ok n ∧
        Vector3.magnitude Real.sqrt n = 1 ∧ ∃ k, 0 < k ∧ n = Vector3.smul k v) ∧
    (Vector3.magnitude Real.sqrt v < VERY_SMALL →
      Vector3.normalize Real.sqrt VERY_SMALL v = Except.error divNearlyZero) := by
  refine ⟨fun h => ?_, Vector3.normalize_of_small VERY_SMALL v⟩
  have hm : 0 < Vector3.magnitude Real.sqrt v := lt_of_lt_of_le hpos h
  refine ⟨_, Vector3.normalize_of_magnitude VERY_SMALL v h, ?_,
    1 / Vector3.magnitude Real.sqrt v, by positivity, ?_⟩
  · have hsq := Vector3.magnitude3_sq v
    have e : (v.x / Vector3.magnitude Real.sqrt v) ^ 2
        + (v.y / Vector3.magnitude Real.sqrt v) ^ 2
        + (v.z / Vector3.magnitude Real.sqrt v) ^ 2 = 1 := by
      rw [div_pow, div_pow, div_pow, ← add_div, ← add_div, ← hsq]
      exact div_self (pow_ne_zero 2 (ne_of_gt hm))
    show Real.sqrt ((v.x / Vector3.magnitude Real.sqrt v) ^ 2
        + (v.y / Vector3.magnitude Real.sqrt v) ^ 2
        + (v.z / Vector3.magnitude Real.sqrt v) ^ 2) = 1
    rw [e, Real.sqrt_one]
  · ext <;> simp only [Vector3.smul] <;> ring

/-- Claim C19 at `v = (0, 3, 4)`, of magnitude 5. -/
theorem normalize_spec_witness :
    ∃ n, Vector3.normalize Real.sqrt (1 / 1000000) (⟨0, 3, 4⟩ : Vector3 ℝ) = Except.ok n ∧
      Vector3.magnitude Real.sqrt n = 1 ∧ ∃ k, 0 < k ∧ n = Vector3.smul k ⟨0, 3, 4⟩ :=
  (normalize_spec (1 / 1000000) ⟨0, 3, 4⟩ (by norm_num)).1
    (by unfold Vector3.magnitude; exact Real.le_sqrt_of_sq_le (by norm_num))

theorem Vector2.Dot2_self_eq (v : Vector2 ℝ) : Vector2.Dot v v = v.x ^ 2 + v.y ^ 2 := by
  simp only [Vector2.Dot]; ring

theorem Vector3.Dot3_self_eq (v : Vector3 ℝ) :
    Vector3.Dot v v = v.x ^ 2 + v.y ^ 2 + v.z ^ 2 := by
  simp only [Vector3.Dot]; ring

theorem Vector4.Dot4_self_eq (v : Vector4 ℝ) :
    Vector4.Dot v v = v.x ^ 2 + v.y ^ 2 + v.z ^ 2 + v.w ^ 2 := by
  simp only [Vector4.Dot]; ring

theorem Vector2.Dot2_self_eq_zero (v : Vector2 ℝ) : Vector2.Dot v v = 0 ↔ v = ⟨0, 0⟩ := by
  rw [Vector2.Dot2_self_eq]
  constructor
  · intro h
    have hx : v.x ^ 2 = 0 := by linarith [sq_nonneg v.x, sq_nonneg v.y]
    have hy : v.y ^ 2 = 0 := by linarith [sq_nonneg v.x, sq_nonneg v.y]
    exact Vector2.ext ((pow_eq_zero_iff two_ne_zero).mp hx)
      ((pow_eq_zero_iff two_ne_zero).mp hy)
  · rintro rfl
    norm_num

theorem Vector3.Dot3_self_eq_zero (v : Vector3 ℝ) :
    Vector3.Dot v v = 0 ↔ v = ⟨0, 0, 0⟩ := by
  rw [Vector3.Dot3_self_eq]
  constructor
  · intro h
    have hx : v.x ^ 2 = 0 := by linarith [sq_nonneg v.x, sq_nonneg v.y, sq_nonneg v.z]
    have hy : v.y ^ 2 = 0 := by linarith [sq_nonneg v.x, sq_nonneg v.y, sq_nonneg v.z]
    have hz : v.z ^ 2 = 0 := by linarith [sq_nonneg v.x, sq_nonneg v.y, sq_nonneg v.z]
    exact Vector3.ext ((pow_eq_zero_iff two_ne_zero).mp hx)
      ((pow_eq_zero_iff two_ne_zero).mp hy) ((pow_eq_zero_iff two_ne_zero).mp hz)
  · rintro rfl
    norm_num

theorem Vector4.Dot4_self_eq_zero (v : Vector4 ℝ) :
    Vector4.Dot v v = 0 ↔ v = ⟨0, 0, 0, 0⟩ := by
  rw [Vector4.Dot4_self_eq]
  constructor
  · intro h
    have hx : v.x ^ 2 = 0 := by
      linarith [sq_nonneg v.x, sq_nonneg v.y, sq_nonneg v.z, sq_nonneg v.w]
    have hy : v.y ^ 2 = 0 := by
      linarith [sq_nonneg v.x, sq_nonneg v.y, sq_nonneg v.z, sq_nonneg v.w]
    have hz : v.z ^ 2 = 0 := by
      linarith [sq_nonneg v.x, sq_nonneg v.y, sq_nonneg v.z, sq_nonneg v.w]
    have hw : v.w ^ 2 = 0 := by
      linarith [sq_nonneg v.x, sq_nonneg v.y, sq_nonneg v.z, sq_nonneg v.w]
    exact Vector4.ext ((pow_eq_zero_iff two_ne_zero).mp hx)
      ((pow_eq_zero_iff two_ne_zero).mp hy) ((pow_eq_zero_iff two_ne_zero).mp hz)
      ((pow_eq_zero_iff two_ne_zero).mp hw)
  · rintro rfl
    norm_num

/-- Claim C20: for `Vector2`, `Vector3` and `Vector4`, `Dot (v, v)` is the square of the
Euclidean magnitude of `v`, the sum of its squared components; it is non-negative and is zero
only for the zero vector. -/
theorem Dot_self (v2 : Vector2 ℝ) (v3 : Vector3 ℝ) (v4 : Vector4 ℝ) :
    (Vector2.Dot v2 v2 = Vector2.magnitude Real.sqrt v2 ^ 2 ∧
      Vector2.Dot v2 v2 = v2.x ^ 2 + v2.y ^ 2 ∧ 0 ≤ Vector2.Dot v2 v2 ∧
      (Vector2.Dot v2 v2 = 0 ↔ v2 = ⟨0, 0⟩)) ∧
    (Vector3.Dot v3 v3 = Vector3.magnitude Real.sqrt v3 ^ 2 ∧
      Vector3.Dot v3 v3 = v3.x ^ 2 + v3.y ^ 2 + v3.z ^ 2 ∧ 0 ≤ Vector3.Dot v3 v3 ∧
      (Vector3.Dot v3 v3 = 0 ↔ v3 = ⟨0, 0, 0⟩)) ∧
    (Vector4.Dot v4 v4 = Vector4.magnitude Real.sqrt v4 ^ 2 ∧
      Vector4.Dot v4 v4 = v4.x ^ 2 + v4.y ^ 2 + v4.z ^ 2 + v4.w ^ 2 ∧ 0 ≤ Vector4.Dot v4 v4 ∧
      (Vector4.Dot v4 v4 = 0 ↔ v4 = ⟨0, 0, 0, 0⟩)) := by
  refine ⟨⟨?_, Vector2.Dot2_self_eq v2, ?_, Vector2.Dot2_self_eq_zero v2⟩,
    ⟨?_, Vector3.Dot3_self_eq v3, ?_, Vector3.Dot3_self_eq_zero v3⟩,
    ⟨?_, Vector4.Dot4_self_eq v4, ?_, Vector4.Dot4_self_eq_zero v4⟩⟩
  · rw [Vector2.Dot2_self_eq, Vector2.magnitude2_sq]
  · rw [Vector2.Dot2_self_eq]; positivity
  · rw [Vector3.Dot3_self_eq, Vector3.magnitude3_sq]
  · rw [Vector3.Dot3_self_eq]; positivity
  · rw [Vector4.Dot4_self_eq, Vector4.magnitude4_sq]
  · rw [Vector4.Dot4_self_eq]; positivity

end Kobe

/-! ## Matrix4: transpose, orthographic and perspective projections, viewport -/

namespace Kobe

namespace Matrix4

variable {F : Type}

/-- On the column-major layout `Transpose` swaps the row and the column index. -/
theorem toMatrix_Transpose (m : Matrix4 F) (i j : Fin 4) :
    toMatrix (Transpose m) i j = toMatrix m j i := by
  fin_cases i <;> fin_cases j <;> simp [toMatrix, Transpose]

/-- Claim C21: for every matrix `m`, transposing twice gives back `m` exactly, and the element
`i + 4 j` of `Transpose m` is the element `j + 4 i` of `m`, for all `i`, `j` in `0 .. 3`. -/
theorem Transpose_Transpose (m : Matrix4 F) :
    Transpose (Transpose m) = m ∧
      ∀ i j : Fin 4, (Transpose m).get ⟨i.val + 4 * j.val, by omega⟩
        = m.get ⟨j.val + 4 * i.val, by omega⟩ :=
  ⟨rfl, fun i j => (toMatrix_apply (Transpose m) i j).symm.trans
    ((toMatrix_Transpose m i j).trans (toMatrix_apply m j i))⟩

/-- The sixteen elements of `Orthographic`: the product of the translation and the scale. -/
theorem Orthographic_eq [Field F] (xMin xMax yMin yMax zMin zMax : F) :
    Orthographic xMin xMax yMin yMax zMin zMax =
      ⟨2 / (xMax - xMin), 0, 0, 0,
       0, 2 / (yMax - yMin), 0, 0,
       0, 0, -2 / (zMax - zMin), 0,
       -(xMax + xMin) / (xMax - xMin), -(yMax + yMin) / (yMax - yMin),
       -(zMax + zMin) / (zMax - zMin), 1⟩ := by
  ext <;> simp [Orthographic, Scale, Translate, mul]

/-- Claim C22: for a box with `xMin ≠ xMax`, `yMin ≠ yMax`, `zMin ≠ zMax`, `Orthographic` has the
elements `[0] = 2/(xMax-xMin)`, `[5] = 2/(yMax-yMin)`, `[10] = -2/(zMax-zMin)`,
`[12] = -(xMax+xMin)/(xMax-xMin)`, `[13] = -(yMax+yMin)/(yMax-yMin)`,
`[14] = -(zMax+zMin)/(zMax-zMin)`, `[15] = 1` and zero elsewhere; on column vectors it sends the
corner `(xMin, yMin, -zMin)` to `(-1, -1, -1)` and `(xMax, yMax, -zMax)` to `(1, 1, 1)`. -/
theorem Orthographic_box [LinearOrderedField F] (xMin xMax yMin yMax zMin zMax : F)
    (hx : xMin ≠ xMax) (hy : yMin ≠ yMax) (hz : zMin ≠ zMax) :
    Orthographic xMin xMax yMin yMax zMin zMax =
      ⟨2 / (xMax - xMin), 0, 0, 0,
       0, 2 / (yMax - yMin), 0, 0,
       0, 0, -2 / (zMax - zMin), 0,
       -(xMax + xMin) / (xMax - xMin), -(yMax + yMin) / (yMax - yMin),
       -(zMax + zMin) / (zMax - zMin), 1⟩ ∧
    mulVec (Orthographic xMin xMax yMin yMax zMin zMax) ⟨xMin, yMin, -zMin, 1⟩
      = ⟨-1, -1, -1, 1⟩ ∧
    mulVec (Orthographic xMin xMax yMin yMax zMin zMax) ⟨xMax, yMax, -zMax, 1⟩
      = ⟨1, 1, 1, 1⟩ := by
  have hx' : xMax - xMin ≠ 0 := sub_ne_zero.mpr (Ne.symm hx)
  have hy' : yMax - yMin ≠ 0 := sub_ne_zero.mpr (Ne.symm hy)
  have hz' : zMax - zMin ≠ 0 := sub_ne_zero.mpr (Ne.symm hz)
  refine ⟨Orthographic_eq _ _ _ _ _ _, ?_, ?_⟩
  · rw [Orthographic_eq]
    ext <;> simp only [mulVec] <;> field_simp <;> ring
  · rw [Orthographic_eq]
    ext <;> simp only [mulVec] <;> field_simp <;> ring

/-- The box `[0, 800] x [0, 600] x [1, 100]`. -/
theorem Orthographic_box_witness :
    Orthographic (0 : ℚ) 800 0 600 1 100 =
      ⟨2 / (800 - 0), 0, 0, 0,
       0, 2 / (600 - 0), 0, 0,
       0, 0, -2 / (100 - 1), 0,
       -(800 + 0) / (800 - 0), -(600 + 0) / (600 - 0), -(100 + 1) / (100 - 1), 1⟩ ∧
    mulVec (Orthographic (0 : ℚ) 800 0 600 1 100) ⟨0, 0, -1, 1⟩ = ⟨-1, -1, -1, 1⟩ ∧
    mulVec (Orthographic (0 : ℚ) 800 0 600 1 100) ⟨800, 600, -100, 1⟩ = ⟨1, 1, 1, 1⟩ :=
  Orthographic_box 0 800 0 600 1 100 (by norm_num) (by norm_num) (by norm_num)

/-- On a scale-and-translate matrix with non-zero scale terms `UnOrtho` is the inverse, on both
sides. -/
theorem UnOrtho_mul_aux [Field F] (o0 o5 o10 o12 o13 o14 : F)
    (h0 : o0 ≠ 0) (h5 : o5 ≠ 0) (h10 : o10 ≠ 0) :
    mul (UnOrtho ⟨o0, 0, 0, 0, 0, o5, 0, 0, 0, 0, o10, 0, o12, o13, o14, 1⟩)
        ⟨o0, 0, 0, 0, 0, o5, 0, 0, 0, 0, o10, 0, o12, o13, o14, 1⟩ = identity ∧
      mul ⟨o0, 0, 0, 0, 0, o5, 0, 0, 0, 0, o10, 0, o12, o13, o14, 1⟩
        (UnOrtho ⟨o0, 0, 0, 0, 0, o5, 0, 0, 0, 0, o10, 0, o12, o13, o14, 1⟩) = identity := by
  constructor
  · ext <;> simp [mul, UnOrtho, identity, h0, h5, h10] <;> field_simp
  · ext <;> simp [mul, UnOrtho, identity, h0, h5, h10] <;> field_simp

/-- Claim C23: for a box with `xMin ≠ xMax`, `yMin ≠ yMax`, `zMin ≠ zMax` and
`O = Orthographic ...`, both `UnOrtho O * O` and `O * UnOrtho O` are the identity; the same holds
for every axis-aligned scale-and-translate matrix `O` with non-zero `O[0]`, `O[5]`, `O[10]`. -/
theorem UnOrtho_inverse [LinearOrderedField F]
    (xMin xMax yMin yMax zMin zMax o0 o5 o10 o12 o13 o14 : F)
    (hx : xMin ≠ xMax) (hy : yMin ≠ yMax) (hz : zMin ≠ zMax)
    (h0 : o0 ≠ 0) (h5 : o5 ≠ 0) (h10 : o10 ≠ 0) :
    (mul (UnOrtho (Orthographic xMin xMax yMin yMax zMin zMax))
        (Orthographic xMin xMax yMin yMax zMin zMax) = identity ∧
      mul (Orthographic xMin xMax yMin yMax zMin zMax)
        (UnOrtho (Orthographic xMin xMax yMin yMax zMin zMax)) = identity) ∧
    (mul (UnOrtho ⟨o0, 0, 0, 0, 0, o5, 0, 0, 0, 0, o10, 0, o12, o13, o14, 1⟩)
        ⟨o0, 0, 0, 0, 0, o5, 0, 0, 0, 0, o10, 0, o12, o13, o14, 1⟩ = identity ∧
      mul ⟨o0, 0, 0, 0, 0, o5, 0, 0, 0, 0, o10, 0, o12, o13, o14, 1⟩
        (UnOrtho ⟨o0, 0, 0, 0, 0, o5, 0, 0, 0, 0, o10, 0, o12, o13, o14, 1⟩) = identity) := by
  have hx' : xMax - xMin ≠ 0 := sub_ne_zero.mpr (Ne.symm hx)
  have hy' : yMax - yMin ≠ 0 := sub_ne_zero.mpr (Ne.symm hy)
  have hz' : zMax - zMin ≠ 0 := sub_ne_zero.mpr (Ne.symm hz)
  refine ⟨?_, UnOrtho_mul_aux o0 o5 o10 o12 o13 o14 h0 h5 h10⟩
  rw [Orthographic_eq]
  exact UnOrtho_mul_aux _ _ _ _ _ _ (div_ne_zero two_ne_zero hx')
    (div_ne_zero two_ne_zero hy') (div_ne_zero (neg_ne_zero.mpr two_ne_zero) hz')

/-- The box `[0, 800] x [0, 600] x [1, 100]` and the matrix with scale `(2, 3, -4)` and
translation `(5, 6, 7)`. -/
theorem UnOrtho_inverse_witness :
    (mul (UnOrtho (Orthographic (0 : ℚ) 800 0 600 1 100)) (Orthographic (0 : ℚ) 800 0 600 1 100)
        = identity ∧
      mul (Orthographic (0 : ℚ) 800 0 600 1 100) (UnOrtho (Orthographic (0 : ℚ) 800 0 600 1 100))
        = identity) ∧
    (mul (UnOrtho (⟨2, 0, 0, 0, 0, 3, 0, 0, 0, 0, -4, 0, 5, 6, 7, 1⟩ : Matrix4 ℚ))
        ⟨2, 0, 0, 0, 0, 3, 0, 0, 0, 0, -4, 0, 5, 6, 7, 1⟩ = identity ∧
      mul (⟨2, 0, 0, 0, 0, 3, 0, 0, 0, 0, -4, 0, 5, 6, 7, 1⟩ : Matrix4 ℚ)
        (UnOrtho ⟨2, 0, 0, 0, 0, 3, 0, 0, 0, 0, -4, 0, 5, 6, 7, 1⟩) = identity) :=
  UnOrtho_inverse 0 800 0 600 1 100 2 3 (-4) 5 6 7 (by norm_num) (by norm_num) (by norm_num)
    (by norm_num) (by norm_num) (by norm_num)

/-- The sixteen elements of `ViewportNDC`. -/
theorem ViewportNDC_eq [Field F] (w h : Int) :
    (ViewportNDC w h : Matrix4 F) =
      ⟨(w : F) / 2, 0, 0, 0,
       0, -((h : F) / 2), 0, 0,
       0, 0, 1, 0,
       (w : F) / 2, (h : F) / 2, 0, 1⟩ := by
  ext <;> simp [ViewportNDC, Scale, Translate, mul]

/-- Claim C24: for every width `w` and height `h`, `ViewportNDC w h` is
`Translate (w/2, h/2, 0) * Scale (w/2, h/2, 1) * Scale (1, -1, 1)` and sends the point
`(x, y, z, 1)` to `((x+1) w/2, (1-y) h/2, z, 1)`; in particular `(-1, 1)` goes to the pixel
`(0, 0)`, `(1, -1)` goes to the pixel `(w, h)`, and `z` is unchanged. -/
theorem ViewportNDC_maps [LinearOrderedField F] (w h : Int) (x y z : F) :
    (ViewportNDC w h : Matrix4 F)
        = mul (mul (Translate ((w : F) / 2) ((h : F) / 2) 0) (Scale ((w : F) / 2) ((h : F) / 2) 1))
            (Scale 1 (-1) 1) ∧
      mulVec (ViewportNDC w h : Matrix4 F) ⟨x, y, z, 1⟩
        = ⟨(x + 1) * (w : F) / 2, (1 - y) * (h : F) / 2, z, 1⟩ ∧
      mulVec (ViewportNDC w h : Matrix4 F) ⟨-1, 1, z, 1⟩ = ⟨0, 0, z, 1⟩ ∧
      mulVec (ViewportNDC w h : Matrix4 F) ⟨1, -1, z, 1⟩ = ⟨(w : F), (h : F), z, 1⟩ := by
  refine ⟨?_, ?_, ?_, ?_⟩
  · simp [ViewportNDC]
  · rw [ViewportNDC_eq]
    ext <;> simp only [mulVec] <;> ring
  · rw [ViewportNDC_eq]
    ext <;> simp only [mulVec] <;> ring
  · rw [ViewportNDC_eq]
    ext <;> simp only [mulVec] <;> ring

/-- Claim C25: `Perspective fovy aspect zNear zFar`, `fovy` in degrees, has element
`[0] = cot (fovy/2) / aspect` and element `[5] = cot (fovy/2)`; for `fovy = 90` and `aspect = 1`
element `[0]` is exactly `1`; elements `[10]`, `[11]`, `[14]`, `[15]` are
`(zNear+zFar)/(zNear-zFar)`, `-1`, `2 zNear zFar/(zNear-zFar)`, `0`. -/
theorem Perspective_elements (fovy aspect zNear zFar : ℝ) :
    (Perspective Real.tan (Real.pi / 180) fovy aspect zNear zFar).m0
        = Real.cot (fovy / 2 * (Real.pi / 180)) / aspect ∧
      (Perspective Real.tan (Real.pi / 180) fovy aspect zNear zFar).m5
        = Real.cot (fovy / 2 * (Real.pi / 180)) ∧
      (Perspective Real.tan (Real.pi / 180) 90 1 zNear zFar).m0 = 1 ∧
      (Perspective Real.tan (Real.pi / 180) fovy aspect zNear zFar).m10
        = (zNear + zFar) / (zNear - zFar) ∧
      (Perspective Real.tan (Real.pi / 180) fovy aspect zNear zFar).m11 = -1 ∧
      (Perspective Real.tan (Real.pi / 180) fovy aspect zNear zFar).m14
        = 2 * zNear * zFar / (zNear - zFar) ∧
      (Perspective Real.tan (Real.pi / 180) fovy aspect zNear zFar).m15 = 0 := by
  have hcot : ∀ θ : ℝ, 1 / Real.tan θ = Real.cot θ := by
    intro θ
    rw [Real.tan_eq_sin_div_cos, Real.cot_eq_cos_div_sin, one_div_div]
  have harg : fovy * (1 / 2) * (Real.pi / 180) = fovy / 2 * (Real.pi / 180) := by ring
  refine ⟨?_, ?_, ?_, rfl, rfl, rfl, rfl⟩
  · simp only [Perspective, hcot, harg]
  · simp only [Perspective, hcot, harg]
  · have h45 : (90 : ℝ) * (1 / 2) * (Real.pi / 180) = Real.pi / 4 := by ring
    simp only [Perspective, h45, Real.tan_pi_div_four]
    norm_num

end Matrix4

end Kobe

/-! ## Vector3: the orthogonal unit vector -/

namespace Kobe

namespace Vector3


/-- With both guards and the final normalisation passing, `OrthoNormalize` divides the solved
vector by its magnitude. -/
theorem OrthoNormalize_of_guards (VERY_SMALL : ℝ) (v : Vector3 ℝ) (x y : ℝ)
    (hv : VERY_SMALL ≤ magnitude Real.sqrt v)
    (hz : VERY_SMALL ≤ |v.z / magnitude Real.sqrt v|)
    (hr : VERY_SMALL ≤ magnitude Real.sqrt ⟨x, y,
      (v.x / magnitude Real.sqrt v * x + v.y / magnitude Real.sqrt v * y)
        / -(v.z / magnitude Real.sqrt v)⟩) :
    OrthoNormalize Real.sqrt VERY_SMALL v x y = Except.ok
      (smul (1 / magnitude Real.sqrt ⟨x, y,
        (v.x / magnitude Real.sqrt v * x + v.y / magnitude Real.sqrt v * y)
          / -(v.z / magnitude Real.sqrt v)⟩)
        ⟨x, y, (v.x / magnitude Real.sqrt v * x + v.y / magnitude Real.sqrt v * y)
          / -(v.z / magnitude Real.sqrt v)⟩) := by
  unfold magnitude at hv hz hr ⊢
  unfold OrthoNormalize normalized normalize
  simp only [abs_of_nonneg (Real.sqrt_nonneg _), not_lt.mpr hv, not_lt.mpr hz, not_lt.mpr hr,
    if_false, smul]
  congr 1
  ext <;> simp only <;> ring

/-- The final normalisation of `OrthoNormalize` fails when the solved vector is shorter than
the threshold. -/
theorem OrthoNormalize_of_short (VERY_SMALL : ℝ) (v : Vector3 ℝ) (x y : ℝ)
    (hv : VERY_SMALL ≤ magnitude Real.sqrt v)
    (hz : VERY_SMALL ≤ |v.z / magnitude Real.sqrt v|)
    (hr : magnitude Real.sqrt ⟨x, y,
      (v.x / magnitude Real.sqrt v * x + v.y / magnitude Real.sqrt v * y)
        / -(v.z / magnitude Real.sqrt v)⟩ < VERY_SMALL) :
    OrthoNormalize Real.sqrt VERY_SMALL v x y = Except.error divNearlyZero := by
  unfold magnitude at hv hz hr
  unfold OrthoNormalize normalized normalize
  simp only [abs_of_nonneg (Real.sqrt_nonneg _), not_lt.mpr hv, not_lt.mpr hz, hr,
    if_false, if_true]

/-- The magnitude of `(0, 0, 1)`. -/
theorem sqrt_unit_z : Real.sqrt ((0 : ℝ) ^ 2 + 0 ^ 2 + 1 ^ 2) = 1 := by
  rw [show (0 : ℝ) ^ 2 + 0 ^ 2 + 1 ^ 2 = 1 by norm_num]
  exact Real.sqrt_one

/-- The magnitude of `(3, 0, 4)`. -/
theorem sqrt_three_four : Real.sqrt ((3 : ℝ) ^ 2 + 0 ^ 2 + 4 ^ 2) = 5 := by
  rw [show (3 : ℝ) ^ 2 + 0 ^ 2 + 4 ^ 2 = 5 ^ 2 by norm_num]
  exact Real.sqrt_sq (by norm_num)

/-- The magnitude of `(4, 0, -3)`. -/
theorem sqrt_four_three : Real.sqrt ((4 : ℝ) ^ 2 + 0 ^ 2 + (-3) ^ 2) = 5 := by
  rw [show (4 : ℝ) ^ 2 + 0 ^ 2 + (-3) ^ 2 = 5 ^ 2 by norm_num]
  exact Real.sqrt_sq (by norm_num)

/-- Claim C26 fails as stated: for `v = (0, 0, 1)`, whose magnitude and normalised `z` are `1`,
and `x = 10⁻⁹`, `y = 0` (not both zero), the solved vector `(10⁻⁹, 0, 0)` is shorter than the
threshold `10⁻⁶` and the final normalisation is an error. -/
theorem OrthoNormalize_tiny_counterexample :
    (1 / 1000000 : ℝ) ≤ magnitude Real.sqrt (⟨0, 0, 1⟩ : Vector3 ℝ) ∧
    (1 / 1000000 : ℝ) ≤ |(1 : ℝ) / magnitude Real.sqrt (⟨0, 0, 1⟩ : Vector3 ℝ)| ∧
    ((1 / 1000000000 : ℝ) ≠ 0 ∨ (0 : ℝ) ≠ 0) ∧
    OrthoNormalize Real.sqrt (1 / 1000000) (⟨0, 0, 1⟩ : Vector3 ℝ) (1 / 1000000000) 0
      = Except.error divNearlyZero := by
  have hm : magnitude Real.sqrt (⟨0, 0, 1⟩ : Vector3 ℝ) = 1 := sqrt_unit_z
  refine ⟨by rw [hm]; norm_num, by rw [hm]; norm_num, Or.inl (by norm_num), ?_⟩
  apply OrthoNormalize_of_short
  · rw [hm]; norm_num
  · rw [hm]; norm_num
  · rw [hm]
    have h0 : ((0 : ℝ) / 1 * (1 / 1000000000) + 0 / 1 * 0) / -(1 / 1) = 0 := by norm_num
    simp only [h0]
    unfold magnitude
    rw [show (1 / 1000000000 : ℝ) ^ 2 + 0 ^ 2 + 0 ^ 2 = (1 / 1000000000) ^ 2 by norm_num,
      Real.sqrt_sq (by norm_num)]
    norm_num

/-- Claim C26, amended: for every `v` with magnitude at least epsilon whose normalised `z`
component has absolute value at least epsilon, and every `x`, `y` such that the vector
`(x, y, z)`, `z` solving `Dot (normalize v, (x, y, z)) = 0`, has magnitude at least epsilon,
`r = OrthoNormalize (v, x, y)` is a positive multiple of `(x, y, z)`, perpendicular to `v` and
of unit length. -/
theorem OrthoNormalize_spec (VERY_SMALL : ℝ) (v : Vector3 ℝ) (x y z : ℝ)
    (heps : 0 < VERY_SMALL)
    (hv : VERY_SMALL ≤ magnitude Real.sqrt v)
    (hz : VERY_SMALL ≤ |v.z / magnitude Real.sqrt v|)
    (hsol : Dot (⟨v.x / magnitude Real.sqrt v, v.y / magnitude Real.sqrt v,
      v.z / magnitude Real.sqrt v⟩ : Vector3 ℝ) ⟨x, y, z⟩ = 0)
    (hr : VERY_SMALL ≤ magnitude Real.sqrt (⟨x, y, z⟩ : Vector3 ℝ)) :
    normalize Real.sqrt VERY_SMALL v = Except.ok ⟨v.x / magnitude Real.sqrt v,
      v.y / magnitude Real.sqrt v, v.z / magnitude Real.sqrt v⟩ ∧
    ∃ r k, OrthoNormalize Real.sqrt VERY_SMALL v x y = Except.ok r ∧
      0 < k ∧ r = smul k ⟨x, y, z⟩ ∧ Dot v r = 0 ∧
      r.x ^ 2 + r.y ^ 2 + r.z ^ 2 = 1 ∧ magnitude Real.sqrt r = 1 := by
  have hmag : 0 < magnitude Real.sqrt v := lt_of_lt_of_le heps hv
  have hnz : v.z / magnitude Real.sqrt v ≠ 0 := by
    intro h0
    rw [h0, abs_zero] at hz
    linarith
  have hzeq : (v.x / magnitude Real.sqrt v * x + v.y / magnitude Real.sqrt v * y)
      / -(v.z / magnitude Real.sqrt v) = z := by
    unfold Dot at hsol
    simp only at hsol
    rw [div_eq_iff (neg_ne_zero.mpr hnz)]
    linarith
  have hR : 0 < magnitude Real.sqrt (⟨x, y, z⟩ : Vector3 ℝ) := lt_of_lt_of_le heps hr
  have hRsq : magnitude Real.sqrt (⟨x, y, z⟩ : Vector3 ℝ) ^ 2 = x ^ 2 + y ^ 2 + z ^ 2 := by
    unfold magnitude
    exact Real.sq_sqrt (by positivity)
  have hsum : (1 / magnitude Real.sqrt (⟨x, y, z⟩ : Vector3 ℝ) * x) ^ 2
      + (1 / magnitude Real.sqrt (⟨x, y, z⟩ : Vector3 ℝ) * y) ^ 2
      + (1 / magnitude Real.sqrt (⟨x, y, z⟩ : Vector3 ℝ) * z) ^ 2 = 1 := by
    have hne := ne_of_gt hR
    field_simp
    linarith
  refine ⟨?_, smul (1 / magnitude Real.sqrt (⟨x, y, z⟩ : Vector3 ℝ)) ⟨x, y, z⟩,
    1 / magnitude Real.sqrt (⟨x, y, z⟩ : Vector3 ℝ), ?_, by positivity, rfl, ?_, hsum, ?_⟩
  · unfold magnitude at hv ⊢
    unfold normalize
    simp only [abs_of_nonneg (Real.sqrt_nonneg _), not_lt.mpr hv, if_false]
  · have h := OrthoNormalize_of_guards VERY_SMALL v x y hv hz (by rw [hzeq]; exact hr)
    rw [hzeq] at h
    exact h
  · unfold Dot at hsol ⊢
    simp only [smul] at hsol ⊢
    have hne := ne_of_gt hmag
    have hne2 := ne_of_gt hR
    field_simp at hsol ⊢
    linarith
  · show Real.sqrt ((1 / magnitude Real.sqrt (⟨x, y, z⟩ : Vector3 ℝ) * x) ^ 2
      + (1 / magnitude Real.sqrt (⟨x, y, z⟩ : Vector3 ℝ) * y) ^ 2
      + (1 / magnitude Real.sqrt (⟨x, y, z⟩ : Vector3 ℝ) * z) ^ 2) = 1
    rw [hsum, Real.sqrt_one]

/-- The normal `(3, 0, 4)` with `x = 4`, `y = 0`, where `z = -3`. -/
theorem OrthoNormalize_spec_witness :
    normalize Real.sqrt (1 / 1000000) (⟨3, 0, 4⟩ : Vector3 ℝ)
      = Except.ok ⟨3 / magnitude Real.sqrt (⟨3, 0, 4⟩ : Vector3 ℝ),
        0 / magnitude Real.sqrt (⟨3, 0, 4⟩ : Vector3 ℝ),
        4 / magnitude Real.sqrt (⟨3, 0, 4⟩ : Vector3 ℝ)⟩ ∧
    ∃ r k, OrthoNormalize Real.sqrt (1 / 1000000) (⟨3, 0, 4⟩ : Vector3 ℝ) 4 0 = Except.ok r ∧
      0 < k ∧ r = smul k ⟨4, 0, -3⟩ ∧ Dot (⟨3, 0, 4⟩ : Vector3 ℝ) r = 0 ∧
      r.x ^ 2 + r.y ^ 2 + r.z ^ 2 = 1 ∧ magnitude Real.sqrt r = 1 := by
  have hm : magnitude Real.sqrt (⟨3, 0, 4⟩ : Vector3 ℝ) = 5 := sqrt_three_four
  have hm2 : magnitude Real.sqrt (⟨4, 0, -3⟩ : Vector3 ℝ) = 5 := sqrt_four_three
  exact OrthoNormalize_spec (1 / 1000000) ⟨3, 0, 4⟩ 4 0 (-3) (by norm_num)
    (by rw [hm]; norm_num) (by simp only [hm]; rw [abs_of_nonneg] <;> norm_num)
    (by simp only [hm, Dot]; norm_num) (by rw [hm2]; norm_num)

end Vector3

end Kobe

/-! ## Binary32: rounding to nearest -/

namespace Kobe

namespace Binary32

/-- The recursion bound `a` is enough: after the shift the significand has at most 24 binary
digits. -/
theorem excess_lt (fuel a : Nat) (h : a ≤ fuel) : a / 2 ^ excess fuel a < 2 ^ 24 := by
  induction fuel generalizing a with
  | zero =>
    have h0 : a = 0 := Nat.le_zero.mp h
    subst h0
    simp [excess]
  | succ f ih =>
    unfold excess
    split_ifs with hlt
    · simpa using hlt
    · have hle : a / 2 ≤ f := by omega
      have := ih (a / 2) hle
      rw [pow_succ, mul_comm, ← Nat.div_div_eq_div_mul]
      exact this

/-- A number of at most 24 binary digits is not shifted. -/
theorem excess_of_lt (fuel a : Nat) (h : a < 2 ^ 24) : excess fuel a = 0 := by
  cases fuel with
  | zero => rfl
  | succ f =>
    unfold excess
    rw [if_pos h]

/-- A number of at most 24 binary digits is a binary32 number: rounding leaves it as it is. -/
theorem roundNearestEven_of_lt (k : Int) (h : k.natAbs < 2 ^ 24) :
    roundNearestEven k = some k := by
  have hs := excess_of_lt k.natAbs k.natAbs h
  have hb : ¬ (k.natAbs > (2 ^ 24 - 1) * 2 ^ 253) := by
    have : (2 : Nat) ^ 24 ≤ (2 ^ 24 - 1) * 2 ^ 253 := by norm_num
    omega
  simp only [roundNearestEven, hs, pow_zero, Nat.div_one, Nat.mod_one, Nat.mul_one]
  simp only [Nat.mul_zero, gt_iff_lt, Nat.not_lt_zero, false_or, Nat.zero_ne_one, false_and,
    if_false]
  rw [if_neg (by simpa using hb)]
  congr 1
  split_ifs with hk
  · omega
  · omega

end Binary32

end Kobe

/-! ## Quaternion: matrix and Euler conversions, the two rotation paths -/

namespace Kobe

namespace Quaternion

/-- The result of `MatrixToQuaternion` is the loaded quaternion scaled by `0.5 / sqrt t`. -/
theorem MatrixToQuaternion_eq (sqrt : ℝ → ℝ) (m : Matrix4 ℝ) :
    MatrixToQuaternion sqrt m
      = smul (1 / 2 / sqrt (MatrixToQuaternionT m)) (MatrixToQuaternionLoad m) := by
  unfold MatrixToQuaternion MatrixToQuaternionT MatrixToQuaternionLoad
  split_ifs <;> rfl

/-- In each of the four branches the scalar `t` is at least one. -/
theorem one_le_MatrixToQuaternionT (m : Matrix4 ℝ) : 1 ≤ MatrixToQuaternionT m := by
  unfold MatrixToQuaternionT
  split_ifs with h1 h2 h3 <;> linarith

set_option maxRecDepth 100000 in
/-- Claim C27 fails as stated, the sums being `float` sums. With `m[0] = 10⁸`,
`m[5] = -10⁸`, `m[10] = 0`, all binary32 numbers, the fourth branch is selected and
`1.0f + m[0]` rounds to `10⁸`, so `t = 0`: not `t ≥ 1`, and `0.5f / sqrt (t)` divides by zero.
With `m[0] = 11258999 * 2 ^ (-48)` (the binary32 number nearest to `4 * 10⁻⁸`) and
`m[5] = -m[0]` the same branch gives `t = 1 - 2 ^ (-24) < 1`. -/
theorem MatrixToQuaternion_rounding_counterexample :
    Binary32.roundNearestEven (10 ^ 8 * 2 ^ 149) = some (10 ^ 8 * 2 ^ 149) ∧
    MatrixToQuaternionTBinary32
      ⟨10 ^ 8 * 2 ^ 149, 0, 0, 0, 0, -(10 ^ 8 * 2 ^ 149), 0, 0, 0, 0, 0, 0, 0, 0, 0, 2 ^ 149⟩
      = some 0 ∧
    (0 : Int) < Binary32.one ∧
    Binary32.roundNearestEven (11258999 * 2 ^ 101) = some (11258999 * 2 ^ 101) ∧
    MatrixToQuaternionTBinary32
      ⟨11258999 * 2 ^ 101, 0, 0, 0, 0, -(11258999 * 2 ^ 101), 0, 0, 0, 0, 0, 0, 0, 0, 0, 2 ^ 149⟩
      = some (2 ^ 149 - 2 ^ 125) ∧
    (2 ^ 149 - 2 ^ 125 : Int) < Binary32.one := by
  decide

/-- Claim C27, amended: for every matrix `m`, in exact arithmetic (the additions not rounded),
the scalar `t` of the branch that `MatrixToQuaternion` selects satisfies `t ≥ 1`; hence
`sqrt t ≥ 1` and the scaling factor `0.5 / sqrt t` is defined and lies in `(0, 0.5]`. -/
theorem MatrixToQuaternion_scale (m : Matrix4 ℝ) :
    MatrixToQuaternion Real.sqrt m
        = smul (1 / 2 / Real.sqrt (MatrixToQuaternionT m)) (MatrixToQuaternionLoad m) ∧
      1 ≤ MatrixToQuaternionT m ∧ 1 ≤ Real.sqrt (MatrixToQuaternionT m) ∧
      0 < 1 / 2 / Real.sqrt (MatrixToQuaternionT m) ∧
      1 / 2 / Real.sqrt (MatrixToQuaternionT m) ≤ 1 / 2 := by
  have ht := one_le_MatrixToQuaternionT m
  have hs : 1 ≤ Real.sqrt (MatrixToQuaternionT m) := by
    rw [← Real.sqrt_one]
    exact Real.sqrt_le_sqrt ht
  refine ⟨MatrixToQuaternion_eq Real.sqrt m, ht, hs, by positivity, ?_⟩
  rw [div_le_iff₀ (by linarith)]
  linarith

/-- The sandwich product of a unit quaternion is the 3x3 block of its matrix. -/
theorem Rotate_eq_mulVec3 (VERY_SMALL : ℝ) (q : Quaternion ℝ) (v : Vector3 ℝ)
    (heps : VERY_SMALL ≤ 1) (hq : q.x ^ 2 + q.y ^ 2 + q.z ^ 2 + q.w ^ 2 = 1) :
    Rotate Real.sqrt VERY_SMALL q v
      = Except.ok (Matrix4.mulVec3 (QuaternionToMatrix q) v) := by
  have hI : Inverse Real.sqrt VERY_SMALL q = Except.ok (Conjugate q) := by
    simp [Inverse, Conjugate, hq, not_lt.mpr heps]
  simp only [Rotate, hI]
  congr 1
  ext
  · simp only [mul, Conjugate, Matrix4.mulVec3, QuaternionToMatrix]
    linear_combination (v.x) * hq
  · simp only [mul, Conjugate, Matrix4.mulVec3, QuaternionToMatrix]
    linear_combination (v.y) * hq
  · simp only [mul, Conjugate, Matrix4.mulVec3, QuaternionToMatrix]
    linear_combination (v.z) * hq

/-- Claim C28: for every unit quaternion `q` and every `v`, `Rotate (q, v)` equals the upper-left
3x3 block of `m = QuaternionToMatrix q` applied to `v` as a column vector on the column-major
layout: `x' = m[0] v.x + m[4] v.y + m[8] v.z`, `y' = m[1] v.x + m[5] v.y + m[9] v.z`,
`z' = m[2] v.x + m[6] v.y + m[10] v.z`. -/
theorem Rotate_agrees_with_matrix (VERY_SMALL : ℝ) (q : Quaternion ℝ) (v : Vector3 ℝ)
    (heps : VERY_SMALL ≤ 1) (hq : q.x ^ 2 + q.y ^ 2 + q.z ^ 2 + q.w ^ 2 = 1) :
    Rotate Real.sqrt VERY_SMALL q v = Except.ok
      ⟨(QuaternionToMatrix q).m0 * v.x + (QuaternionToMatrix q).m4 * v.y
        + (QuaternionToMatrix q).m8 * v.z,
       (QuaternionToMatrix q).m1 * v.x + (QuaternionToMatrix q).m5 * v.y
        + (QuaternionToMatrix q).m9 * v.z,
       (QuaternionToMatrix q).m2 * v.x + (QuaternionToMatrix q).m6 * v.y
        + (QuaternionToMatrix q).m10 * v.z⟩ :=
  Rotate_eq_mulVec3 VERY_SMALL q v heps hq

/-- The unit quaternion `(1/2, -1/2, 1/2, -1/2)` and the vector `(1, 2, 3)`. -/
theorem Rotate_agrees_with_matrix_witness :
    Rotate Real.sqrt (1 / 1000000) (⟨1 / 2, -1 / 2, 1 / 2, -1 / 2⟩ : Quaternion ℝ) ⟨1, 2, 3⟩
      = Except.ok
      ⟨(QuaternionToMatrix (⟨1 / 2, -1 / 2, 1 / 2, -1 / 2⟩ : Quaternion ℝ)).m0 * 1
        + (QuaternionToMatrix (⟨1 / 2, -1 / 2, 1 / 2, -1 / 2⟩ : Quaternion ℝ)).m4 * 2
        + (QuaternionToMatrix (⟨1 / 2, -1 / 2, 1 / 2, -1 / 2⟩ : Quaternion ℝ)).m8 * 3,
       (QuaternionToMatrix (⟨1 / 2, -1 / 2, 1 / 2, -1 / 2⟩ : Quaternion ℝ)).m1 * 1
        + (QuaternionToMatrix (⟨1 / 2, -1 / 2, 1 / 2, -1 / 2⟩ : Quaternion ℝ)).m5 * 2
        + (QuaternionToMatrix (⟨1 / 2, -1 / 2, 1 / 2, -1 / 2⟩ : Quaternion ℝ)).m9 * 3,
       (QuaternionToMatrix (⟨1 / 2, -1 / 2, 1 / 2, -1 / 2⟩ : Quaternion ℝ)).m2 * 1
        + (QuaternionToMatrix (⟨1 / 2, -1 / 2, 1 / 2, -1 / 2⟩ : Quaternion ℝ)).m6 * 2
        + (QuaternionToMatrix (⟨1 / 2, -1 / 2, 1 / 2, -1 / 2⟩ : Quaternion ℝ)).m10 * 3⟩ :=
  Rotate_agrees_with_matrix (1 / 1000000) ⟨1 / 2, -1 / 2, 1 / 2, -1 / 2⟩ ⟨1, 2, 3⟩
    (by norm_num) (by norm_num)

/-- Claim C29: for every Euler `e` (any pitch, yaw, roll in degrees) the quaternion
`EulerToQueaternion e` is unit, `x² + y² + z² + w² = 1`, and the zero Euler `(0, 0, 0)` gives the
identity quaternion `(0, 0, 0, 1)`. -/
theorem EulerToQueaternion_unit (e : Euler ℝ) :
    (EulerToQueaternion Real.cos Real.sin (Real.pi / 180) e).x ^ 2
        + (EulerToQueaternion Real.cos Real.sin (Real.pi / 180) e).y ^ 2
        + (EulerToQueaternion Real.cos Real.sin (Real.pi / 180) e).z ^ 2
        + (EulerToQueaternion Real.cos Real.sin (Real.pi / 180) e).w ^ 2 = 1 ∧
      EulerToQueaternion Real.cos Real.sin (Real.pi / 180) ⟨0, 0, 0⟩ = ⟨0, 0, 0, 1⟩ := by
  constructor
  · simp only [EulerToQueaternion]
    have h1 := Real.cos_sq_add_sin_sq (e.y * (Real.pi / 180) / 2)
    have h2 := Real.cos_sq_add_sin_sq (e.z * (Real.pi / 180) / 2)
    have h3 := Real.cos_sq_add_sin_sq (e.x * (Real.pi / 180) / 2)
    have key : ∀ c1 s1 c2 s2 c3 s3 : ℝ,
        (c1 * c2 * s3 + s1 * s2 * c3) ^ 2 + (s1 * c2 * c3 + c1 * s2 * s3) ^ 2
          + (c1 * s2 * c3 - s1 * c2 * s3) ^ 2 + (c1 * c2 * c3 - s1 * s2 * s3) ^ 2
          = (c1 ^ 2 + s1 ^ 2) * (c2 ^ 2 + s2 ^ 2) * (c3 ^ 2 + s3 ^ 2) := by
      intros; ring
    rw [key, h1, h2, h3]
    norm_num
  · ext <;> simp [EulerToQueaternion]


/-- The argument of a complex number in polar form. -/
theorem arg_polar (r θ : ℝ) (hr : 0 < r) (hθ : θ ∈ Set.Ioc (-Real.pi) Real.pi) :
    Complex.arg ⟨r * Real.cos θ, r * Real.sin θ⟩ = θ := by
  have h : (⟨r * Real.cos θ, r * Real.sin θ⟩ : ℂ)
      = (r : ℂ) * (Complex.cos θ + Complex.sin θ * Complex.I) := by
    apply Complex.ext <;> simp [← Complex.ofReal_cos, ← Complex.ofReal_sin]
  rw [h]
  exact Complex.arg_mul_cos_add_sin_mul_I hr hθ

/-- Outside both gimbal-lock branches `QuaternionToEuler` applies the `atan2` and `asin`
formulas. -/
theorem QuaternionToEuler_of_not_locked (atan2 : ℝ → ℝ → ℝ) (asin : ℝ → ℝ) (PI r2d : ℝ)
    (q : Quaternion ℝ)
    (h1 : ¬(q.x * q.y + q.z * q.w
      > 499 / 1000 * (q.x * q.x + q.y * q.y + q.z * q.z + q.w * q.w)))
    (h2 : ¬(q.x * q.y + q.z * q.w
      < -(499 / 1000) * (q.x * q.x + q.y * q.y + q.z * q.z + q.w * q.w))) :
    QuaternionToEuler atan2 asin PI r2d q =
      ⟨atan2 (2 * q.x * q.w - 2 * q.y * q.z)
          (-(q.x * q.x) + q.y * q.y - q.z * q.z + q.w * q.w) * r2d,
       atan2 (2 * q.y * q.w - 2 * q.x * q.z)
          (q.x * q.x - q.y * q.y - q.z * q.z + q.w * q.w) * r2d,
       asin (2 * (q.x * q.y + q.z * q.w)
          / (q.x * q.x + q.y * q.y + q.z * q.z + q.w * q.w)) * r2d⟩ := by
  simp only [QuaternionToEuler, if_neg h1, if_neg h2]

/-- The six quadratic forms of `QuaternionToEuler` on the quaternion built from the half-angle
cosines and sines. -/
theorem euler_forms (c1 s1 c2 s2 c3 s3 : ℝ)
    (h1 : c1 ^ 2 + s1 ^ 2 = 1) (h2 : c2 ^ 2 + s2 ^ 2 = 1) (h3 : c3 ^ 2 + s3 ^ 2 = 1)
    (x y z w : ℝ) (hx : x = c1 * c2 * s3 + s1 * s2 * c3) (hy : y = s1 * c2 * c3 + c1 * s2 * s3)
    (hz : z = c1 * s2 * c3 - s1 * c2 * s3) (hw : w = c1 * c2 * c3 - s1 * s2 * s3) :
    x * x + y * y + z * z + w * w = 1 ∧
      x * y + z * w = c2 * s2 ∧
      2 * y * w - 2 * x * z = (c2 ^ 2 - s2 ^ 2) * (2 * s1 * c1) ∧
      x * x - y * y - z * z + w * w = (c2 ^ 2 - s2 ^ 2) * (c1 ^ 2 - s1 ^ 2) ∧
      2 * x * w - 2 * y * z = (c2 ^ 2 - s2 ^ 2) * (2 * s3 * c3) ∧
      -(x * x) + y * y - z * z + w * w = (c2 ^ 2 - s2 ^ 2) * (c3 ^ 2 - s3 ^ 2) := by
  subst hx hy hz hw
  have e1 : (c1 * c2 * s3 + s1 * s2 * c3) * (c1 * c2 * s3 + s1 * s2 * c3)
      + (s1 * c2 * c3 + c1 * s2 * s3) * (s1 * c2 * c3 + c1 * s2 * s3)
      + (c1 * s2 * c3 - s1 * c2 * s3) * (c1 * s2 * c3 - s1 * c2 * s3)
      + (c1 * c2 * c3 - s1 * s2 * s3) * (c1 * c2 * c3 - s1 * s2 * s3)
      = (c1 ^ 2 + s1 ^ 2) * (c2 ^ 2 + s2 ^ 2) * (c3 ^ 2 + s3 ^ 2) := by ring
  have e2 : (c1 * c2 * s3 + s1 * s2 * c3) * (s1 * c2 * c3 + c1 * s2 * s3)
      + (c1 * s2 * c3 - s1 * c2 * s3) * (c1 * c2 * c3 - s1 * s2 * s3)
      = c2 * s2 * ((c1 ^ 2 + s1 ^ 2) * (c3 ^ 2 + s3 ^ 2)) := by ring
  have e3 : 2 * (s1 * c2 * c3 + c1 * s2 * s3) * (c1 * c2 * c3 - s1 * s2 * s3)
      - 2 * (c1 * c2 * s3 + s1 * s2 * c3) * (c1 * s2 * c3 - s1 * c2 * s3)
      = (c2 ^ 2 - s2 ^ 2) * (2 * s1 * c1) * (c3 ^ 2 + s3 ^ 2) := by ring
  have e4 : (c1 * c2 * s3 + s1 * s2 * c3) * (c1 * c2 * s3 + s1 * s2 * c3)
      - (s1 * c2 * c3 + c1 * s2 * s3) * (s1 * c2 * c3 + c1 * s2 * s3)
      - (c1 * s2 * c3 - s1 * c2 * s3) * (c1 * s2 * c3 - s1 * c2 * s3)
      + (c1 * c2 * c3 - s1 * s2 * s3) * (c1 * c2 * c3 - s1 * s2 * s3)
      = (c2 ^ 2 - s2 ^ 2) * (c1 ^ 2 - s1 ^ 2) * (c3 ^ 2 + s3 ^ 2) := by ring
  have e5 : 2 * (c1 * c2 * s3 + s1 * s2 * c3) * (c1 * c2 * c3 - s1 * s2 * s3)
      - 2 * (s1 * c2 * c3 + c1 * s2 * s3) * (c1 * s2 * c3 - s1 * c2 * s3)
      = (c2 ^ 2 - s2 ^ 2) * (2 * s3 * c3) * (c1 ^ 2 + s1 ^ 2) := by ring
  have e6 : -((c1 * c2 * s3 + s1 * s2 * c3) * (c1 * c2 * s3 + s1 * s2 * c3))
      + (s1 * c2 * c3 + c1 * s2 * s3) * (s1 * c2 * c3 + c1 * s2 * s3)
      - (c1 * s2 * c3 - s1 * c2 * s3) * (c1 * s2 * c3 - s1 * c2 * s3)
      + (c1 * c2 * c3 - s1 * s2 * s3) * (c1 * c2 * c3 - s1 * s2 * s3)
      = (c2 ^ 2 - s2 ^ 2) * (c3 ^ 2 - s3 ^ 2) * (c1 ^ 2 + s1 ^ 2) := by ring
  refine ⟨?_, ?_, ?_, ?_, ?_, ?_⟩
  · rw [e1, h1, h2, h3]; norm_num
  · rw [e2, h1, h3]; ring
  · rw [e3, h3]; ring
  · rw [e4, h3]; ring
  · rw [e5, h1]; ring
  · rw [e6, h1]; ring

/-- Numeric bound: `cos (5 degrees) ≤ 0.998`. -/
theorem cos_five_degrees_le : Real.cos (5 * (Real.pi / 180)) ≤ 998 / 1000 := by
  have hlo : (0.0872 : ℝ) < 5 * (Real.pi / 180) := by
    have := Real.pi_gt_d2
    norm_num at this ⊢
    linarith
  have hhi : 5 * (Real.pi / 180) < (0.0875 : ℝ) := by
    have := Real.pi_lt_d2
    norm_num at this ⊢
    linarith
  set x := 5 * (Real.pi / 180) with hx
  have hx0 : 0 ≤ x := by linarith
  have habs : |x| ≤ 1 := by
    rw [abs_of_nonneg hx0]; linarith
  have hb := Real.cos_bound habs
  rw [abs_of_nonneg hx0] at hb
  have h2 : (0.0872 : ℝ) ^ 2 < x ^ 2 := pow_lt_pow_left₀ hlo (by norm_num) (by norm_num)
  have h4 : x ^ 4 < (0.0875 : ℝ) ^ 4 := pow_lt_pow_left₀ hhi hx0 (by norm_num)
  have hc := (abs_le.mp hb).2
  norm_num at h2 h4 ⊢
  linarith

/-- Within 85 degrees of zero the sine stays within `0.998`. -/
theorem abs_sin_le_of_abs_le (t : ℝ) (h : |t| ≤ 85) :
    |Real.sin (t * (Real.pi / 180))| ≤ 998 / 1000 := by
  have hpi := Real.pi_pos
  obtain ⟨hlo, hhi⟩ := abs_le.mp h
  have h85 : Real.sin (85 * (Real.pi / 180)) ≤ 998 / 1000 := by
    rw [← Real.cos_pi_div_two_sub,
      show Real.pi / 2 - 85 * (Real.pi / 180) = 5 * (Real.pi / 180) by ring]
    exact cos_five_degrees_le
  have hup : Real.sin (t * (Real.pi / 180)) ≤ Real.sin (85 * (Real.pi / 180)) :=
    Real.sin_le_sin_of_le_of_le_pi_div_two (by nlinarith) (by nlinarith) (by nlinarith)
  have hdown : Real.sin (-85 * (Real.pi / 180)) ≤ Real.sin (t * (Real.pi / 180)) :=
    Real.sin_le_sin_of_le_of_le_pi_div_two (by nlinarith) (by nlinarith) (by nlinarith)
  rw [show -85 * (Real.pi / 180) = -(85 * (Real.pi / 180)) by ring, Real.sin_neg] at hdown
  rw [abs_le]
  constructor <;> linarith

/-- Components of `EulerToQueaternion` through the double angles. -/
theorem EulerToQueaternion_forms (e : Euler ℝ) :
    let q := EulerToQueaternion Real.cos Real.sin (Real.pi / 180) e
    q.x * q.x + q.y * q.y + q.z * q.z + q.w * q.w = 1 ∧
    q.x * q.y + q.z * q.w = Real.sin (e.z * (Real.pi / 180)) / 2 ∧
    2 * q.y * q.w - 2 * q.x * q.z
      = Real.cos (e.z * (Real.pi / 180)) * Real.sin (e.y * (Real.pi / 180)) ∧
    q.x * q.x - q.y * q.y - q.z * q.z + q.w * q.w
      = Real.cos (e.z * (Real.pi / 180)) * Real.cos (e.y * (Real.pi / 180)) ∧
    2 * q.x * q.w - 2 * q.y * q.z
      = Real.cos (e.z * (Real.pi / 180)) * Real.sin (e.x * (Real.pi / 180)) ∧
    -(q.x * q.x) + q.y * q.y - q.z * q.z + q.w * q.w
      = Real.cos (e.z * (Real.pi / 180)) * Real.cos (e.x * (Real.pi / 180)) := by
  intro q
  have qx : q.x = Real.cos (e.y * (Real.pi / 180) / 2) * Real.cos (e.z * (Real.pi / 180) / 2)
        * Real.sin (e.x * (Real.pi / 180) / 2)
      + Real.sin (e.y * (Real.pi / 180) / 2) * Real.sin (e.z * (Real.pi / 180) / 2)
        * Real.cos (e.x * (Real.pi / 180) / 2) := by
    simp only [q, EulerToQueaternion]
  have qy : q.y = Real.sin (e.y * (Real.pi / 180) / 2) * Real.cos (e.z * (Real.pi / 180) / 2)
        * Real.cos (e.x * (Real.pi / 180) / 2)
      + Real.cos (e.y * (Real.pi / 180) / 2) * Real.sin (e.z * (Real.pi / 180) / 2)
        * Real.sin (e.x * (Real.pi / 180) / 2) := by
    simp only [q, EulerToQueaternion]
  have qz : q.z = Real.cos (e.y * (Real.pi / 180) / 2) * Real.sin (e.z * (Real.pi / 180) / 2)
        * Real.cos (e.x * (Real.pi / 180) / 2)
      - Real.sin (e.y * (Real.pi / 180) / 2) * Real.cos (e.z * (Real.pi / 180) / 2)
        * Real.sin (e.x * (Real.pi / 180) / 2) := by
    simp only [q, EulerToQueaternion]
  have qw : q.w = Real.cos (e.y * (Real.pi / 180) / 2) * Real.cos (e.z * (Real.pi / 180) / 2)
        * Real.cos (e.x * (Real.pi / 180) / 2)
      - Real.sin (e.y * (Real.pi / 180) / 2) * Real.sin (e.z * (Real.pi / 180) / 2)
        * Real.sin (e.x * (Real.pi / 180) / 2) := by
    simp only [q, EulerToQueaternion]
  obtain ⟨f1, f2, f3, f4, f5, f6⟩ := euler_forms
    (Real.cos (e.y * (Real.pi / 180) / 2)) (Real.sin (e.y * (Real.pi / 180) / 2))
    (Real.cos (e.z * (Real.pi / 180) / 2)) (Real.sin (e.z * (Real.pi / 180) / 2))
    (Real.cos (e.x * (Real.pi / 180) / 2)) (Real.sin (e.x * (Real.pi / 180) / 2))
    (Real.cos_sq_add_sin_sq _) (Real.cos_sq_add_sin_sq _) (Real.cos_sq_add_sin_sq _)
    q.x q.y q.z q.w qx qy qz qw
  have dz : Real.cos (e.z * (Real.pi / 180) / 2) ^ 2 - Real.sin (e.z * (Real.pi / 180) / 2) ^ 2
      = Real.cos (e.z * (Real.pi / 180)) := by
    rw [← Real.cos_two_mul']; congr 1; ring
  have dzs : Real.cos (e.z * (Real.pi / 180) / 2) * Real.sin (e.z * (Real.pi / 180) / 2)
      = Real.sin (e.z * (Real.pi / 180)) / 2 := by
    rw [show e.z * (Real.pi / 180) = 2 * (e.z * (Real.pi / 180) / 2) by ring,
      Real.sin_two_mul]
    ring_nf
  have dyc : Real.cos (e.y * (Real.pi / 180) / 2) ^ 2 - Real.sin (e.y * (Real.pi / 180) / 2) ^ 2
      = Real.cos (e.y * (Real.pi / 180)) := by
    rw [← Real.cos_two_mul']; congr 1; ring
  have dys : 2 * Real.sin (e.y * (Real.pi / 180) / 2) * Real.cos (e.y * (Real.pi / 180) / 2)
      = Real.sin (e.y * (Real.pi / 180)) := by
    rw [← Real.sin_two_mul]; congr 1; ring
  have dxc : Real.cos (e.x * (Real.pi / 180) / 2) ^ 2 - Real.sin (e.x * (Real.pi / 180) / 2) ^ 2
      = Real.cos (e.x * (Real.pi / 180)) := by
    rw [← Real.cos_two_mul']; congr 1; ring
  have dxs : 2 * Real.sin (e.x * (Real.pi / 180) / 2) * Real.cos (e.x * (Real.pi / 180) / 2)
      = Real.sin (e.x * (Real.pi / 180)) := by
    rw [← Real.sin_two_mul]; congr 1; ring
  rw [dz, dys] at f3
  rw [dz, dyc] at f4
  rw [dz, dxs] at f5
  rw [dz, dxc] at f6
  rw [dzs] at f2
  exact ⟨f1, f2, f3, f4, f5, f6⟩

/-- Conversion of a quaternion whose components have the Euler product form. -/
theorem QuaternionToEuler_of_forms (q : Quaternion ℝ) (a b c : ℝ)
    (f1 : q.x * q.x + q.y * q.y + q.z * q.z + q.w * q.w = 1)
    (f2 : q.x * q.y + q.z * q.w = Real.sin b / 2)
    (f3 : 2 * q.y * q.w - 2 * q.x * q.z = Real.cos b * Real.sin a)
    (f4 : q.x * q.x - q.y * q.y - q.z * q.z + q.w * q.w = Real.cos b * Real.cos a)
    (f5 : 2 * q.x * q.w - 2 * q.y * q.z = Real.cos b * Real.sin c)
    (f6 : -(q.x * q.x) + q.y * q.y - q.z * q.z + q.w * q.w = Real.cos b * Real.cos c)
    (hs : |Real.sin b| ≤ 998 / 1000)
    (ha : a ∈ Set.Ioc (-Real.pi) Real.pi) (hc : c ∈ Set.Ioc (-Real.pi) Real.pi)
    (hb : b ∈ Set.Ioo (-(Real.pi / 2)) (Real.pi / 2)) :
    QuaternionToEuler (fun y x => Complex.arg ⟨x, y⟩) Real.arcsin Real.pi (180 / Real.pi) q
      = ⟨c * (180 / Real.pi), a * (180 / Real.pi), b * (180 / Real.pi)⟩ := by
  have hsin := abs_le.mp hs
  have h1 : ¬(q.x * q.y + q.z * q.w
      > 499 / 1000 * (q.x * q.x + q.y * q.y + q.z * q.z + q.w * q.w)) := by
    rw [f1, f2, not_lt]
    linarith [hsin.2]
  have h2 : ¬(q.x * q.y + q.z * q.w
      < -(499 / 1000) * (q.x * q.x + q.y * q.y + q.z * q.z + q.w * q.w)) := by
    rw [f1, f2, not_lt]
    linarith [hsin.1]
  rw [QuaternionToEuler_of_not_locked _ _ _ _ _ h1 h2, f1, f2, f3, f4, f5, f6]
  have hcz : 0 < Real.cos b := Real.cos_pos_of_mem_Ioo hb
  have ax := arg_polar (Real.cos b) c hcz hc
  have ay := arg_polar (Real.cos b) a hcz ha
  have az : Real.arcsin (2 * (Real.sin b / 2) / 1) = b := by
    rw [show 2 * (Real.sin b / 2) / 1 = Real.sin b by ring]
    exact Real.arcsin_sin (le_of_lt hb.1) (le_of_lt hb.2)
  simp only [ax, ay, az]

/-- Claim C30: for every Euler `e = (pitch, yaw, roll)` in degrees with `|pitch| < 180`,
`|yaw| < 180` and `|roll| ≤ 85`, `QuaternionToEuler (EulerToQueaternion e) = e`: the gimbal-lock
branches are not taken and the `atan2` and `asin` formulas recover each angle. -/
theorem Euler_round_trip (e : Euler ℝ) (hp : |e.x| < 180) (hy : |e.y| < 180)
    (hr : |e.z| ≤ 85) :
    QuaternionToEuler (fun y x => Complex.arg ⟨x, y⟩) Real.arcsin Real.pi (180 / Real.pi)
      (EulerToQueaternion Real.cos Real.sin (Real.pi / 180) e) = e := by
  have hpi := Real.pi_pos
  have hpi0 : Real.pi ≠ 0 := ne_of_gt hpi
  have hD : 0 < Real.pi / 180 := by positivity
  obtain ⟨hplo, hphi⟩ := abs_lt.mp hp
  obtain ⟨hylo, hyhi⟩ := abs_lt.mp hy
  obtain ⟨hrlo, hrhi⟩ := abs_le.mp hr
  have bx1 := mul_lt_mul_of_pos_right hplo hD
  have bx2 := mul_lt_mul_of_pos_right hphi hD
  have by1 := mul_lt_mul_of_pos_right hylo hD
  have by2 := mul_lt_mul_of_pos_right hyhi hD
  have bz1 := mul_le_mul_of_nonneg_right hrlo (le_of_lt hD)
  have bz2 := mul_le_mul_of_nonneg_right hrhi (le_of_lt hD)
  have hA : e.y * (Real.pi / 180) ∈ Set.Ioc (-Real.pi) Real.pi :=
    ⟨by linarith, by linarith⟩
  have hC : e.x * (Real.pi / 180) ∈ Set.Ioc (-Real.pi) Real.pi :=
    ⟨by linarith, by linarith⟩
  have hB : e.z * (Real.pi / 180) ∈ Set.Ioo (-(Real.pi / 2)) (Real.pi / 2) :=
    ⟨by linarith, by linarith⟩
  have hf := EulerToQueaternion_forms e
  have hq := QuaternionToEuler_of_forms _ (e.y * (Real.pi / 180)) (e.z * (Real.pi / 180))
    (e.x * (Real.pi / 180)) hf.1 hf.2.1 hf.2.2.1 hf.2.2.2.1 hf.2.2.2.2.1 hf.2.2.2.2.2
    (abs_sin_le_of_abs_le e.z hr) hA hC hB
  rw [hq]
  ext
  · show e.x * (Real.pi / 180) * (180 / Real.pi) = e.x
    field_simp
  · show e.y * (Real.pi / 180) * (180 / Real.pi) = e.y
    field_simp
  · show e.z * (Real.pi / 180) * (180 / Real.pi) = e.z
    field_simp

/-- The Euler `(30, -120, 85)`. -/
theorem Euler_round_trip_witness :
    QuaternionToEuler (fun y x => Complex.arg ⟨x, y⟩) Real.arcsin Real.pi (180 / Real.pi)
      (EulerToQueaternion Real.cos Real.sin (Real.pi / 180) ⟨30, -120, 85⟩)
      = (⟨30, -120, 85⟩ : Euler ℝ) :=
  Euler_round_trip ⟨30, -120, 85⟩ (by norm_num [abs_lt]) (by norm_num [abs_lt])
    (by norm_num [abs_le])

end Quaternion

end Kobe
